import Mathlib

/-!
# The eWasm polyfill of `EVMToEWasmTranslator.cpp`

A shallow embedding of the 64-bit polyfill functions that the translator
splices into every translated object (`libyul/backends/wasm/EVMToEWasmTranslator.cpp`,
the string constant `polyfill`).

* A 64-bit value is a natural number below `2 ^ 64`.
* A Yul function with several return variables returns a tuple; return
  variables and `let` variables without a value start at zero.
* A function that can reach `invalid()`, that accesses the memory or that loops returns
  an `Outcome`.
* A `for` loop is unrolled by a fuel argument; running out of fuel is
  reported as `Outcome.outOfFuel`, never as a result.
-/

set_option maxRecDepth 100000
set_option linter.unusedVariables false
set_option exponentiation.threshold 600

/-! ## The builtins of the 64-bit dialect -/

namespace i64

/-- Modelled from the spec: the builtin `i64.add` of the WASM64 dialect (section 3 of the
specification lists it; the repository sources here do not define it). WebAssembly
addition is modulo `2 ^ 64`. -/
def add (a b : Nat) : Nat := (a + b) % 2 ^ 64

/-- Modelled from the spec: the builtin `i64.sub`, subtraction modulo `2 ^ 64`. -/
def sub (a b : Nat) : Nat := (a + (2 ^ 64 - b % 2 ^ 64)) % 2 ^ 64

/-- Modelled from the spec: the builtin `i64.mul`, multiplication modulo `2 ^ 64`. -/
def mul (a b : Nat) : Nat := (a * b) % 2 ^ 64

/-- Modelled from the spec: the builtin `i64.div_u`, unsigned division (the divisor is
never zero where the polyfill uses it). -/
def div_u (a b : Nat) : Nat := a / b

/-- Modelled from the spec: the builtin `i64.rem_u`, unsigned remainder. -/
def rem_u (a b : Nat) : Nat := a % b

/-- Modelled from the spec: the builtin `i64.and`, bitwise conjunction. -/
def and (a b : Nat) : Nat := a &&& b

/-- Modelled from the spec: the builtin `i64.or`, bitwise disjunction. -/
def or (a b : Nat) : Nat := a ||| b

/-- Modelled from the spec: the builtin `i64.xor`, bitwise exclusive or. -/
def xor (a b : Nat) : Nat := a ^^^ b

/-- Modelled from the spec: the builtin `i64.shl`. A WebAssembly shift takes its count
modulo the bit width, so the count is `b % 64`; the result is cut to 64 bits. -/
def shl (a b : Nat) : Nat := (a * 2 ^ (b % 64)) % 2 ^ 64

/-- Modelled from the spec: the builtin `i64.shr_u`. A WebAssembly shift takes its count
modulo the bit width, so the count is `b % 64`. -/
def shr_u (a b : Nat) : Nat := a / 2 ^ (b % 64)

/-- Modelled from the spec: the builtin `i64.eqz`, one if the operand is zero. -/
def eqz (a : Nat) : Nat := if a = 0 then 1 else 0

/-- Modelled from the spec: the builtin `i64.eq`. -/
def eq (a b : Nat) : Nat := if a = b then 1 else 0

/-- Modelled from the spec: the builtin `i64.ne`. -/
def ne (a b : Nat) : Nat := if a = b then 0 else 1

/-- Modelled from the spec: the builtin `i64.lt_u`, unsigned less-than. -/
def lt_u (a b : Nat) : Nat := if a < b then 1 else 0

/-- Modelled from the spec: the builtin `i64.ge_u`, unsigned greater-or-equal. -/
def ge_u (a b : Nat) : Nat := if b ≤ a then 1 else 0

/-- Modelled from the spec: the builtin `i64.clz`, the number of leading zero bits of a
64-bit value (64 for zero). -/
def clz (a : Nat) : Nat := if a = 0 then 64 else 63 - Nat.log2 a

end i64

/-! ## Results of functions that may trap or loop -/

/-- The result of running a polyfill function that can trap. -/
inductive Outcome (α : Type) where
  | ok (v : α)
  | trap
  | outOfFuel
  deriving DecidableEq, Repr

namespace Polyfill

/-- A bundle of four 64-bit limbs, limb 1 first. -/
abbrev Limbs4 := Nat × Nat × Nat × Nat

/-- The 256-bit number held by four limbs, limb 1 most significant. -/
def val4 (v : Limbs4) : Nat :=
  v.1 * 2 ^ 192 + v.2.1 * 2 ^ 128 + v.2.2.1 * 2 ^ 64 + v.2.2.2

/-- All four limbs are 64-bit values. -/
def wf4 (v : Limbs4) : Prop :=
  v.1 < 2 ^ 64 ∧ v.2.1 < 2 ^ 64 ∧ v.2.2.1 < 2 ^ 64 ∧ v.2.2.2 < 2 ^ 64

/-- Whether four limbs are 64-bit values can be computed. -/
instance instDecidableWf4 (v : Limbs4) : Decidable (wf4 v) := by
  unfold wf4
  infer_instance

/-- The four limbs of a number below `2 ^ 256`. -/
def limbs4 (n : Nat) : Limbs4 :=
  (n / 2 ^ 192 % 2 ^ 64, n / 2 ^ 128 % 2 ^ 64, n / 2 ^ 64 % 2 ^ 64, n % 2 ^ 64)

/-- Polyfill `function add_carry(x, y, c) -> r, r_c`: returns `x + y + c` and the carry. -/
def add_carry (x y c : Nat) : Nat × Nat :=
  let t := i64.add x y
  let r := i64.add t c
  let r_c := i64.or (i64.lt_u t x) (i64.lt_u r t)
  (r, r_c)

/-- Polyfill `function add(x1, x2, x3, x4, y1, y2, y3, y4) -> r1, r2, r3, r4`. -/
def add (x1 x2 x3 x4 y1 y2 y3 y4 : Nat) : Limbs4 :=
  let (r4, carry) := add_carry x4 y4 0
  let (r3, carry) := add_carry x3 y3 carry
  let (r2, carry) := add_carry x2 y2 carry
  let (r1, _) := add_carry x1 y1 carry
  (r1, r2, r3, r4)

/-- Polyfill `function bit_negate(x) -> y`. -/
def bit_negate (x : Nat) : Nat :=
  i64.xor x 0xffffffffffffffff

/-- Polyfill `function sub(x1, x2, x3, x4, y1, y2, y3, y4) -> r1, r2, r3, r4`,
commented there as `x - y = x + (~y + 1)`. -/
def sub (x1 x2 x3 x4 y1 y2 y3 y4 : Nat) : Limbs4 :=
  let (r4, carry) := add_carry x4 (bit_negate y4) 1
  let (r3, carry) := add_carry x3 (bit_negate y3) carry
  let (r2, carry) := add_carry x2 (bit_negate y2) carry
  let (r1, _) := add_carry x1 (bit_negate y1) carry
  (r1, r2, r3, r4)

/-- Polyfill `function split(x) -> hi, lo`. -/
def split (x : Nat) : Nat × Nat :=
  let hi := i64.shr_u x 32
  let lo := i64.and x 0xffffffff
  (hi, lo)

/-- Polyfill `function mul_64x64_128(x, y) -> hi, lo`. -/
def mul_64x64_128 (x y : Nat) : Nat × Nat :=
  let (xh, xl) := split x
  let (yh, yl) := split y
  let t0 := i64.mul xl yl
  let t1 := i64.mul xh yl
  let t2 := i64.mul xl yh
  let t3 := i64.mul xh yh
  let (t0h, t0l) := split t0
  let u1 := i64.add t1 t0h
  let (u1h, u1l) := split u1
  let u2 := i64.add t2 u1l
  let lo := i64.or (i64.shl u2 32) t0l
  let hi := i64.add t3 (i64.add (i64.shr_u u2 32) u1h)
  (hi, lo)

/-- Polyfill `function mul_128x128_256(x1, x2, y1, y2) -> r1, r2, r3, r4`. -/
def mul_128x128_256 (x1 x2 y1 y2 : Nat) : Limbs4 :=
  let (ah, al) := mul_64x64_128 x1 y1
  let (bh, bl) := mul_64x64_128 x1 y2
  let (ch, cl) := mul_64x64_128 x2 y1
  let (dh, dl) := mul_64x64_128 x2 y2
  let r4 := dl
  let (r3, carry1) := add_carry bl cl 0
  let (r3, carry2) := add_carry r3 dh 0
  let (t1, carry1) := add_carry bh ch carry1
  let (r2, carry2) := add_carry t1 al carry2
  let r1 := i64.add (i64.add ah carry1) carry2
  (r1, r2, r3, r4)

/-- Polyfill `function mul(x1, x2, x3, x4, y1, y2, y3, y4) -> r1, r2, r3, r4`. -/
def mul (x1 x2 x3 x4 y1 y2 y3 y4 : Nat) : Limbs4 :=
  let (_, _, b3, b4) := mul_128x128_256 x3 x4 y1 y2
  let (_, _, c3, c4) := mul_128x128_256 x1 x2 y3 y4
  let (d1, d2, d3, d4) := mul_128x128_256 x3 x4 y3 y4
  let r4 := d4
  let r3 := d3
  let (_, _, r1, r2) := add 0 0 b3 b4 0 0 c3 c4
  let (_, _, r1, r2) := add 0 0 r1 r2 0 0 d1 d2
  (r1, r2, r3, r4)

/-- Polyfill `function or(x1, x2, x3, x4, y1, y2, y3, y4) -> r1, r2, r3, r4`. -/
def or (x1 x2 x3 x4 y1 y2 y3 y4 : Nat) : Limbs4 :=
  (i64.or x1 y1, i64.or x2 y2, i64.or x3 y3, i64.or x4 y4)

/-- Polyfill `function iszero(x1, x2, x3, x4) -> r`. -/
def iszero (x1 x2 x3 x4 : Nat) : Nat :=
  i64.eqz (i64.or (i64.or x1 x2) (i64.or x3 x4))

/-- Polyfill `function cmp(a, b) -> r`, commented there as
"returns 0 if a == b, -1 if a < b and 1 if a > b". -/
def cmp (a b : Nat) : Nat :=
  if i64.lt_u a b = 1 then 0xffffffffffffffff else i64.ne a b

/-- Polyfill `function lt_256x256_64(x1, x2, x3, x4, y1, y2, y3, y4) -> z`. -/
def lt_256x256_64 (x1 x2 x3 x4 y1 y2 y3 y4 : Nat) : Nat :=
  if cmp x1 y1 = 0 then
    if cmp x2 y2 = 0 then
      if cmp x3 y3 = 0 then i64.lt_u x4 y4
      else if cmp x3 y3 = 1 then 0 else 1
    else if cmp x2 y2 = 1 then 0 else 1
  else if cmp x1 y1 = 1 then 0 else 1

/-- Polyfill `function gte_256x256_64(x1, x2, x3, x4, y1, y2, y3, y4) -> z`. -/
def gte_256x256_64 (x1 x2 x3 x4 y1 y2 y3 y4 : Nat) : Nat :=
  i64.xor (lt_256x256_64 x1 x2 x3 x4 y1 y2 y3 y4) 1

/-- Polyfill `function shl_single(a, amount) -> x, y`, commented there `amount < 64`. -/
def shl_single (a amount : Nat) : Nat × Nat :=
  let x := i64.shr_u a (i64.sub 64 amount)
  let y := i64.shl a amount
  (x, y)

/-- Polyfill `function shl(x1, x2, x3, x4, y1, y2, y3, y4) -> z1, z2, z3, z4`: the first
four arguments are the amount, the last four the value. -/
def shl (x1 x2 x3 x4 y1 y2 y3 y4 : Nat) : Limbs4 :=
  if i64.and (i64.eqz x1) (i64.eqz x2) ≠ 0 then
    if i64.eqz x3 ≠ 0 then
      if i64.lt_u x4 256 ≠ 0 then
        let (y1, y2, y3, y4, x4) :=
          if i64.ge_u x4 128 ≠ 0 then (y3, y4, 0, 0, i64.sub x4 128) else (y1, y2, y3, y4, x4)
        let (y1, y2, y3, y4, x4) :=
          if i64.ge_u x4 64 ≠ 0 then (y2, y3, y4, 0, i64.sub x4 64) else (y1, y2, y3, y4, x4)
        let (t, z4) := shl_single y4 x4
        let (r, z3) := shl_single y3 x4
        let z3 := i64.or z3 t
        let (t, z2) := shl_single y2 x4
        let z2 := i64.or z2 r
        let (_, z1) := shl_single y1 x4
        let z1 := i64.or z1 t
        (z1, z2, z3, z4)
      else (0, 0, 0, 0)
    else (0, 0, 0, 0)
  else (0, 0, 0, 0)

/-- Polyfill `function shr_single(a, amount) -> x, y`, commented there `amount < 64`. -/
def shr_single (a amount : Nat) : Nat × Nat :=
  let y := i64.shl a (i64.sub 64 amount)
  let x := i64.shr_u a amount
  (x, y)

/-- Polyfill `function shr(x1, x2, x3, x4, y1, y2, y3, y4) -> z1, z2, z3, z4`: the first
four arguments are the amount, the last four the value. -/
def shr (x1 x2 x3 x4 y1 y2 y3 y4 : Nat) : Limbs4 :=
  if i64.and (i64.eqz x1) (i64.eqz x2) ≠ 0 then
    if i64.eqz x3 ≠ 0 then
      if i64.lt_u x4 256 ≠ 0 then
        let (y1, y2, y3, y4, x4) :=
          if i64.ge_u x4 128 ≠ 0 then (0, 0, y1, y2, i64.sub x4 128) else (y1, y2, y3, y4, x4)
        let (y1, y2, y3, y4, x4) :=
          if i64.ge_u x4 64 ≠ 0 then (0, y1, y2, y3, i64.sub x4 64) else (y1, y2, y3, y4, x4)
        let (z4, _) := shr_single y4 x4
        let (z3, t) := shr_single y3 x4
        let z4 := i64.or z4 t
        let (z2, t) := shr_single y2 x4
        let z3 := i64.or z3 t
        let (z1, t) := shr_single y1 x4
        let z2 := i64.or z2 t
        (z1, z2, z3, z4)
      else (0, 0, 0, 0)
    else (0, 0, 0, 0)
  else (0, 0, 0, 0)

/-- Polyfill `function sar(x1, x2, x3, x4, y1, y2, y3, y4) -> z1, z2, z3, z4`. -/
def sar (x1 x2 x3 x4 y1 y2 y3 y4 : Nat) : Limbs4 :=
  let lz := i64.and (i64.shl y1 63) 1
  let z : Limbs4 :=
    if i64.eqz (i64.and lz 0xffffffffffffffff) ≠ 0 then shr x1 x2 x3 x4 y1 y2 y3 y4
    else (0, 0, 0, 0)
  if i64.and lz 0xffffffffffffffff ≠ 0 then
    let z : Limbs4 :=
      if i64.ge_u x4 256 ≠ 0 then
        (0xffffffffffffffff, 0xffffffffffffffff, 0xffffffffffffffff, 0xffffffffffffffff)
      else z
    if i64.lt_u x4 256 ≠ 0 then
      let (sr1, sr2, sr3, sr4) := shr x1 x2 x3 x4 y1 y2 y3 y4
      let (mo1, mo2, mo3, mo4) :=
        sub 0xffffffffffffffff 0xffffffffffffffff 0xffffffffffffffff 0xffffffffffffffff
          x1 x2 x3 x4
      let (sl1, sl2, sl3, sl4) := shl mo1 mo2 mo3 mo4 y1 y2 y3 y4
      or sr1 sr2 sr3 sr4 sl1 sl2 sl3 sl4
    else z
  else z

/-- Modelled from the spec: the builtin `unreachable` of the WASM64 dialect, which traps. -/
def unreachable : Outcome Unit := Outcome.trap

/-- Polyfill `function invalid()`, whose body is `unreachable()`. -/
def invalid : Outcome Unit := unreachable

/-- Sequencing: a trap (or an exhausted fuel) ends the execution. -/
def Outcome.andThen {α β : Type} (o : Outcome α) (k : α → Outcome β) : Outcome β :=
  match o with
  | Outcome.ok v => k v
  | Outcome.trap => Outcome.trap
  | Outcome.outOfFuel => Outcome.outOfFuel

/-- The first `for` loop of `div`, on the variables `y` and `m` it assigns (`x` is only read). -/
def div_loop1 : Nat → Limbs4 → Limbs4 → Limbs4 → Outcome (Limbs4 × Limbs4)
  | 0, _, _, _ => Outcome.outOfFuel
  | fuel + 1, (x1, x2, x3, x4), (y1, y2, y3, y4), (m1, m2, m3, m4) =>
    if i64.and (i64.eqz (i64.clz y1)) (lt_256x256_64 x1 x2 x3 x4 y1 y2 y3 y4) ≠ 0 then
      div_loop1 fuel (x1, x2, x3, x4) (shl y1 y2 y3 y4 0 0 0 1) (shl m1 m2 m3 m4 0 0 0 1)
    else Outcome.ok ((y1, y2, y3, y4), (m1, m2, m3, m4))

/-- The second `for` loop of `div`, on the variables `x`, `y`, `m` and `r`; the loop
leaves `r` as the result. -/
def div_loop2 : Nat → Limbs4 → Limbs4 → Limbs4 → Limbs4 → Outcome Limbs4
  | 0, _, _, _, _ => Outcome.outOfFuel
  | fuel + 1, (x1, x2, x3, x4), (y1, y2, y3, y4), (m1, m2, m3, m4), (r1, r2, r3, r4) =>
    if i64.xor (iszero m1 m2 m3 m4) 1 ≠ 0 then
      let (x, r) : Limbs4 × Limbs4 :=
        if lt_256x256_64 y1 y2 y3 y4 x1 x2 x3 x4 ≠ 0 then
          (sub x1 x2 x3 x4 y1 y2 y3 y4, add r1 r2 r3 r4 m1 m2 m3 m4)
        else ((x1, x2, x3, x4), (r1, r2, r3, r4))
      div_loop2 fuel x (shr y1 y2 y3 y4 0 0 0 1) (shr m1 m2 m3 m4 0 0 0 1) r
    else Outcome.ok (r1, r2, r3, r4)

/-- Polyfill `function div(x1, x2, x3, x4, y1, y2, y3, y4) -> r1, r2, r3, r4`; each of
its two loops may run `fuel` times. -/
def div (fuel : Nat) (x1 x2 x3 x4 y1 y2 y3 y4 : Nat) : Outcome Limbs4 :=
  Outcome.andThen (if iszero y1 y2 y3 y4 ≠ 0 then invalid else Outcome.ok ()) fun _ =>
  Outcome.andThen (div_loop1 fuel (x1, x2, x3, x4) (y1, y2, y3, y4) (0, 0, 0, 1)) fun ym =>
  div_loop2 fuel (x1, x2, x3, x4) ym.1 ym.2 (0, 0, 0, 0)

/-- The first `for` loop of `mod` (condition `1`, left by `break`), on `y` and `m`. -/
def mod_loop1 : Nat → Limbs4 → Limbs4 → Limbs4 → Outcome (Limbs4 × Limbs4)
  | 0, _, _, _ => Outcome.outOfFuel
  | fuel + 1, (x1, x2, x3, x4), (y1, y2, y3, y4), (m1, m2, m3, m4) =>
    if i64.or (i64.eqz (i64.clz y1)) (gte_256x256_64 y1 y2 y3 y4 x1 x2 x3 x4) ≠ 0 then
      Outcome.ok ((y1, y2, y3, y4), (m1, m2, m3, m4))
    else
      let y1 := i64.add (i64.shl y1 1) (i64.shr_u y2 63)
      let y2 := i64.add (i64.shl y2 1) (i64.shr_u y3 63)
      let y3 := i64.add (i64.shl y3 1) (i64.shr_u y4 63)
      let y4 := i64.shl y4 1
      let m1 := i64.add (i64.shl m1 1) (i64.shr_u m2 63)
      let m2 := i64.add (i64.shl m2 1) (i64.shr_u m3 63)
      let m3 := i64.add (i64.shl m3 1) (i64.shr_u m4 63)
      let m4 := i64.shl m4 1
      mod_loop1 fuel (x1, x2, x3, x4) (y1, y2, y3, y4) (m1, m2, m3, m4)

/-- The second `for` loop of `mod`, on `x`, `y` and `m`; it returns the final `x`. -/
def mod_loop2 : Nat → Limbs4 → Limbs4 → Limbs4 → Outcome Limbs4
  | 0, _, _, _ => Outcome.outOfFuel
  | fuel + 1, (x1, x2, x3, x4), (y1, y2, y3, y4), (m1, m2, m3, m4) =>
    if i64.xor (iszero m1 m2 m3 m4) 1 ≠ 0 then
      let x : Limbs4 :=
        if gte_256x256_64 x1 x2 x3 x4 y1 y2 y3 y4 ≠ 0 then sub x1 x2 x3 x4 y1 y2 y3 y4
        else (x1, x2, x3, x4)
      let y1 := i64.add (i64.shr_u y1 1) (i64.shl y2 63)
      let y2 := i64.add (i64.shr_u y2 1) (i64.shl y3 63)
      let y3 := i64.add (i64.shr_u y3 1) (i64.shl y4 63)
      let y4 := i64.shr_u y4 1
      let m1 := i64.add (i64.shr_u m1 1) (i64.shl m2 63)
      let m2 := i64.add (i64.shr_u m2 1) (i64.shl m3 63)
      let m3 := i64.add (i64.shr_u m3 1) (i64.shl m4 63)
      let m4 := i64.shr_u m4 1
      mod_loop2 fuel x (y1, y2, y3, y4) (m1, m2, m3, m4)
    else Outcome.ok (x1, x2, x3, x4)

/-- Polyfill `function mod(x1, x2, x3, x4, y1, y2, y3, y4) -> r1, r2, r3, r4`; each of
its two loops may run `fuel` times. The body never assigns `r1 .. r4`, so what it
returns, once both loops have ended, are their initial values. -/
def mod (fuel : Nat) (x1 x2 x3 x4 y1 y2 y3 y4 : Nat) : Outcome Limbs4 :=
  Outcome.andThen (if iszero y1 y2 y3 y4 ≠ 0 then invalid else Outcome.ok ()) fun _ =>
  Outcome.andThen (mod_loop1 fuel (x1, x2, x3, x4) (y1, y2, y3, y4) (0, 0, 0, 1)) fun ym =>
  Outcome.andThen (mod_loop2 fuel (x1, x2, x3, x4) ym.1 ym.2) fun _ =>
  Outcome.ok (0, 0, 0, 0)

/-- Polyfill `function xor(x1, x2, x3, x4, y1, y2, y3, y4) -> r1, r2, r3, r4`. -/
def xor (x1 x2 x3 x4 y1 y2 y3 y4 : Nat) : Limbs4 :=
  (i64.xor x1 y1, i64.xor x2 y2, i64.xor x3 y3, i64.xor x4 y4)

/-- Polyfill `function and(x1, x2, x3, x4, y1, y2, y3, y4) -> r1, r2, r3, r4`. -/
def and (x1 x2 x3 x4 y1 y2 y3 y4 : Nat) : Limbs4 :=
  (i64.and x1 y1, i64.and x2 y2, i64.and x3 y3, i64.and x4 y4)

/-- Polyfill `function not(x1, x2, x3, x4) -> r1, r2, r3, r4`. -/
def not (x1 x2 x3 x4 : Nat) : Limbs4 :=
  let mask := 0xffffffffffffffff
  xor x1 x2 x3 x4 mask mask mask mask

/-- Polyfill `function eq(x1, x2, x3, x4, y1, y2, y3, y4) -> r1, r2, r3, r4`. -/
def eq (x1 x2 x3 x4 y1 y2 y3 y4 : Nat) : Limbs4 :=
  if i64.eq x1 y1 ≠ 0 then
    if i64.eq x2 y2 ≠ 0 then
      if i64.eq x3 y3 ≠ 0 then
        if i64.eq x4 y4 ≠ 0 then (0, 0, 0, 1)
        else (0, 0, 0, 0)
      else (0, 0, 0, 0)
    else (0, 0, 0, 0)
  else (0, 0, 0, 0)

/-- Polyfill `function lt(x1, x2, x3, x4, y1, y2, y3, y4) -> z1, z2, z3, z4`. -/
def lt (x1 x2 x3 x4 y1 y2 y3 y4 : Nat) : Limbs4 :=
  (0, 0, 0, lt_256x256_64 x1 x2 x3 x4 y1 y2 y3 y4)

/-- Polyfill `function slt(x1, x2, x3, x4, y1, y2, y3, y4) -> z1, z2, z3, z4`. -/
def slt (x1 x2 x3 x4 y1 y2 y3 y4 : Nat) : Limbs4 :=
  let x1 := i64.add x1 0x8000000000000000
  let y1 := i64.add y1 0x8000000000000000
  lt x1 x2 x3 x4 y1 y2 y3 y4

/-- Polyfill `function sgt(x1, x2, x3, x4, y1, y2, y3, y4) -> z1, z2, z3, z4`. -/
def sgt (x1 x2 x3 x4 y1 y2 y3 y4 : Nat) : Limbs4 :=
  slt y1 y2 y3 y4 x1 x2 x3 x4

/-- Polyfill `function signextend(x1, x2, x3, x4, y1, y2, y3, y4) -> z1, z2, z3, z4`. -/
def signextend (_x1 _x2 _x3 _x4 y1 y2 y3 y4 : Nat) : Limbs4 :=
  if i64.lt_u y4 31 ≠ 0 then
    let signBit := i64.add (i64.mul (i64.shr_u (i64.shl y4 32) 32) 8) 7
    let (sm1, sm2, sm3, sm4) := shl 0 0 0 1 0 0 0 signBit
    let (vm1, vm2, vm3, vm4) := sub sm1 sm2 sm3 sm4 0 0 0 1
    let (ys1, ys2, ys3, ys4) := and y1 y2 y3 y4 sm1 sm2 sm3 sm4
    let isZero := iszero ys1 ys2 ys3 ys4
    let z : Limbs4 := if isZero ≠ 0 then and y1 y2 y3 y4 vm1 vm2 vm3 vm4 else (0, 0, 0, 0)
    if i64.eqz isZero ≠ 0 then
      let (nvm1, nvm2, nvm3, nvm4) := not vm1 vm2 vm3 vm4
      and y1 y2 y3 y4 nvm1 nvm2 nvm3 nvm4
    else z
  else (0, 0, 0, 0)

/-- Polyfill `function u256_to_i128(x1, x2, x3, x4) -> v1, v2`. -/
def u256_to_i128 (x1 x2 x3 x4 : Nat) : Outcome (Nat × Nat) :=
  Outcome.andThen (if i64.ne 0 (i64.or x1 x2) ≠ 0 then invalid else Outcome.ok ()) fun _ =>
  Outcome.ok (x3, x4)

/-- Polyfill `function u256_to_i64(x1, x2, x3, x4) -> v`. -/
def u256_to_i64 (x1 x2 x3 x4 : Nat) : Outcome Nat :=
  Outcome.andThen
    (if i64.ne 0 (i64.or (i64.or x1 x2) x3) ≠ 0 then invalid else Outcome.ok ()) fun _ =>
  Outcome.ok x4

/-- Polyfill `function u256_to_i32(x1, x2, x3, x4) -> v`. -/
def u256_to_i32 (x1 x2 x3 x4 : Nat) : Outcome Nat :=
  Outcome.andThen
    (if i64.ne 0 (i64.or (i64.or x1 x2) x3) ≠ 0 then invalid else Outcome.ok ()) fun _ =>
  Outcome.andThen (if i64.ne 0 (i64.shr_u x4 32) ≠ 0 then invalid else Outcome.ok ()) fun _ =>
  Outcome.ok x4

/-- Polyfill `function u256_to_byte(x1, x2, x3, x4) -> v`. -/
def u256_to_byte (x1 x2 x3 x4 : Nat) : Outcome Nat :=
  Outcome.andThen
    (if i64.ne 0 (i64.or (i64.or x1 x2) x3) ≠ 0 then invalid else Outcome.ok ()) fun _ =>
  Outcome.andThen (if i64.ne 0 (i64.shr_u x4 56) ≠ 0 then invalid else Outcome.ok ()) fun _ =>
  Outcome.ok x4

/-- Polyfill `function u256_to_i32ptr(x1, x2, x3, x4) -> v`. -/
def u256_to_i32ptr (x1 x2 x3 x4 : Nat) : Outcome Nat :=
  u256_to_i32 x1 x2 x3 x4

/-- A bundle of five 64-bit limbs, limb 1 first. -/
abbrev Limbs5 := Nat × Nat × Nat × Nat × Nat

/-- A bundle of eight 64-bit limbs, limb 1 first. -/
abbrev Limbs8 := Nat × Nat × Nat × Nat × Nat × Nat × Nat × Nat

/-- Polyfill `function sub320(x1, x2, x3, x4, x5, y1, y2, y3, y4, y5) -> r1, r2, r3, r4, r5`;
the first `add_carry` reads `x4`, as in the source. -/
def sub320 (x1 x2 x3 x4 _x5 y1 y2 y3 y4 y5 : Nat) : Limbs5 :=
  let (r5, carry) := add_carry x4 (bit_negate y5) 1
  let (r4, carry) := add_carry x4 (bit_negate y4) carry
  let (r3, carry) := add_carry x3 (bit_negate y3) carry
  let (r2, carry) := add_carry x2 (bit_negate y2) carry
  let (r1, _) := add_carry x1 (bit_negate y1) carry
  (r1, r2, r3, r4, r5)

/-- Polyfill `function sub512(x1, .., x8, y1, .., y8) -> r1, .., r8`; the limbs of `x`
read by each `add_carry` are those of the source. -/
def sub512 (x1 x2 x3 x4 _x5 _x6 _x7 _x8 y1 y2 y3 y4 y5 y6 y7 y8 : Nat) : Limbs8 :=
  let (r8, carry) := add_carry x4 (bit_negate y8) 1
  let (r7, carry) := add_carry x3 (bit_negate y7) carry
  let (r6, carry) := add_carry x3 (bit_negate y6) carry
  let (r5, carry) := add_carry x3 (bit_negate y5) carry
  let (r4, carry) := add_carry x3 (bit_negate y4) carry
  let (r3, carry) := add_carry x3 (bit_negate y3) carry
  let (r2, carry) := add_carry x2 (bit_negate y2) carry
  let (r1, _) := add_carry x1 (bit_negate y1) carry
  (r1, r2, r3, r4, r5, r6, r7, r8)

/-- Polyfill `function mul_256x256_512(x1, x2, x3, x4, y1, y2, y3, y4) -> r1, .., r8`. -/
def mul_256x256_512 (x1 x2 x3 x4 y1 y2 y3 y4 : Nat) : Limbs8 :=
  let (a1, a2, a3, a4) := mul_128x128_256 x1 x2 y1 y2
  let (b1, b2, b3, b4) := mul_128x128_256 x1 x2 y3 y4
  let (c1, c2, c3, c4) := mul_128x128_256 x3 x4 y1 y2
  let (d1, d2, d3, d4) := mul_128x128_256 x3 x4 y3 y4
  let r8 := d4
  let r7 := d3
  let (r6, carry1) := add_carry b4 c4 0
  let (r6, carry2) := add_carry r6 d2 0
  let (r5, carry1) := add_carry b3 c3 carry1
  let (r5, carry2) := add_carry r5 d1 carry2
  let (r4, carry1) := add_carry a4 b2 carry1
  let (r4, carry2) := add_carry r4 c2 carry2
  let (r3, carry1) := add_carry a3 b1 carry1
  let (r3, _) := add_carry r3 c1 carry2
  let (r2, carry1) := add_carry a2 carry1 carry1
  let r1 := i64.add a1 carry1
  (r1, r2, r3, r4, r5, r6, r7, r8)

/-- Polyfill `function iszero320(x1, x2, x3, x4, x5) -> r`. -/
def iszero320 (x1 x2 x3 x4 x5 : Nat) : Nat :=
  i64.eqz (i64.or (i64.or (i64.or x1 x2) (i64.or x3 x4)) x5)

/-- Polyfill `function iszero512(x1, x2, x3, x4, x5, x6, x7, x8) -> r`. -/
def iszero512 (x1 x2 x3 x4 x5 x6 x7 x8 : Nat) : Nat :=
  i64.eqz (i64.or (i64.or (i64.or (i64.or (i64.or (i64.or x1 x2) (i64.or x3 x4)) x5) x6) x7) x8)

/-- Polyfill `function lt_320x320_64(x1, .., x5, y1, .., y5) -> z`. -/
def lt_320x320_64 (x1 x2 x3 x4 x5 y1 y2 y3 y4 y5 : Nat) : Nat :=
  if cmp x1 y1 = 0 then
    if cmp x2 y2 = 0 then
      if cmp x3 y3 = 0 then
        if cmp x4 y4 = 0 then i64.lt_u x5 y5
        else if cmp x4 y4 = 1 then 0 else 1
      else if cmp x3 y3 = 1 then 0 else 1
    else if cmp x2 y2 = 1 then 0 else 1
  else if cmp x1 y1 = 1 then 0 else 1

/-- Polyfill `function lt_512x512_64(x1, .., x8, y1, .., y8) -> z`. -/
def lt_512x512_64 (x1 x2 x3 x4 x5 x6 x7 x8 y1 y2 y3 y4 y5 y6 y7 y8 : Nat) : Nat :=
  if cmp x1 y1 = 0 then
    if cmp x2 y2 = 0 then
      if cmp x3 y3 = 0 then
        if cmp x4 y4 = 0 then
          if cmp x5 y5 = 0 then
            if cmp x6 y6 = 0 then
              if cmp x7 y7 = 0 then i64.lt_u x8 y8
              else if cmp x7 y7 = 1 then 0 else 1
            else if cmp x6 y6 = 1 then 0 else 1
          else if cmp x5 y5 = 1 then 0 else 1
        else if cmp x4 y4 = 1 then 0 else 1
      else if cmp x3 y3 = 1 then 0 else 1
    else if cmp x2 y2 = 1 then 0 else 1
  else if cmp x1 y1 = 1 then 0 else 1

/-- Polyfill `function gte_320x320_64(x1, .., x5, y1, .., y5) -> z`. -/
def gte_320x320_64 (x1 x2 x3 x4 x5 y1 y2 y3 y4 y5 : Nat) : Nat :=
  i64.xor (lt_320x320_64 x1 x2 x3 x4 x5 y1 y2 y3 y4 y5) 1

/-- Polyfill `function gte_512x512_64(x1, .., x8, y1, .., y8) -> z`. -/
def gte_512x512_64 (x1 x2 x3 x4 x5 x6 x7 x8 y1 y2 y3 y4 y5 y6 y7 y8 : Nat) : Nat :=
  i64.xor (lt_512x512_64 x1 x2 x3 x4 x5 x6 x7 x8 y1 y2 y3 y4 y5 y6 y7 y8) 1

/-- The first `for` loop of `mod320` (condition `1`, left by `break`), on `y` and `m`. -/
def mod320_loop1 : Nat → Limbs5 → Limbs5 → Limbs5 → Outcome (Limbs5 × Limbs5)
  | 0, _, _, _ => Outcome.outOfFuel
  | fuel + 1, (x1, x2, x3, x4, x5), (y1, y2, y3, y4, y5), (m1, m2, m3, m4, m5) =>
    if i64.or (i64.eqz (i64.clz y1))
        (gte_320x320_64 y1 y2 y3 y4 y5 x1 x2 x3 x4 x5) ≠ 0 then
      Outcome.ok ((y1, y2, y3, y4, y5), (m1, m2, m3, m4, m5))
    else
      let y1 := i64.add (i64.shl y1 1) (i64.shr_u y2 63)
      let y2 := i64.add (i64.shl y2 1) (i64.shr_u y3 63)
      let y3 := i64.add (i64.shl y3 1) (i64.shr_u y4 63)
      let y4 := i64.add (i64.shl y4 1) (i64.shr_u y5 63)
      let y5 := i64.shl y5 1
      let m1 := i64.add (i64.shl m1 1) (i64.shr_u m2 63)
      let m2 := i64.add (i64.shl m2 1) (i64.shr_u m3 63)
      let m3 := i64.add (i64.shl m3 1) (i64.shr_u m4 63)
      let m4 := i64.add (i64.shl m4 1) (i64.shr_u m5 63)
      let m5 := i64.shl m5 1
      mod320_loop1 fuel (x1, x2, x3, x4, x5) (y1, y2, y3, y4, y5) (m1, m2, m3, m4, m5)

/-- The second `for` loop of `mod320`, on `x`, `y` and `m`; its condition reads
`iszero320(m1, m2, m3, m4, y5)` and its subtraction passes `y4` twice, as in the source. -/
def mod320_loop2 : Nat → Limbs5 → Limbs5 → Limbs5 → Outcome Limbs5
  | 0, _, _, _ => Outcome.outOfFuel
  | fuel + 1, (x1, x2, x3, x4, x5), (y1, y2, y3, y4, y5), (m1, m2, m3, m4, m5) =>
    if i64.xor (iszero320 m1 m2 m3 m4 y5) 1 ≠ 0 then
      let x : Limbs5 :=
        if gte_320x320_64 x1 x2 x3 x4 x5 y1 y2 y3 y4 y5 ≠ 0 then
          sub320 x1 x2 x3 x4 x5 y1 y2 y3 y4 y4
        else (x1, x2, x3, x4, x5)
      let y1 := i64.add (i64.shr_u y1 1) (i64.shl y2 63)
      let y2 := i64.add (i64.shr_u y2 1) (i64.shl y3 63)
      let y3 := i64.add (i64.shr_u y3 1) (i64.shl y4 63)
      let y4 := i64.add (i64.shr_u y4 1) (i64.shl y5 63)
      let y5 := i64.shr_u y5 1
      let m1 := i64.add (i64.shr_u m1 1) (i64.shl m2 63)
      let m2 := i64.add (i64.shr_u m2 1) (i64.shl m3 63)
      let m3 := i64.add (i64.shr_u m3 1) (i64.shl m4 63)
      let m4 := i64.add (i64.shr_u m4 1) (i64.shl m5 63)
      let m5 := i64.shr_u m5 1
      mod320_loop2 fuel x (y1, y2, y3, y4, y5) (m1, m2, m3, m4, m5)
    else Outcome.ok (x1, x2, x3, x4, x5)

/-- Polyfill `function mod320(x1, .., x5, y1, .., y5) -> r1, r2, r3, r4, r5`; each of its
two loops may run `fuel` times. The body never assigns `r1 .. r5`. -/
def mod320 (fuel : Nat) (x1 x2 x3 x4 x5 y1 y2 y3 y4 y5 : Nat) : Outcome Limbs5 :=
  Outcome.andThen (if iszero320 y1 y2 y3 y4 y5 ≠ 0 then invalid else Outcome.ok ()) fun _ =>
  Outcome.andThen
    (mod320_loop1 fuel (x1, x2, x3, x4, x5) (y1, y2, y3, y4, y5) (0, 0, 0, 0, 1)) fun ym =>
  Outcome.andThen (mod320_loop2 fuel (x1, x2, x3, x4, x5) ym.1 ym.2) fun _ =>
  Outcome.ok (0, 0, 0, 0, 0)

/-- The first `for` loop of `mod512` (condition `1`, left by `break`), on `y` and `m`; the
shift of `m` assigns `m2`, `m3`, `m4` a second time and leaves `m5`, `m6`, `m7`, as in
the source. -/
def mod512_loop1 : Nat → Limbs8 → Limbs8 → Limbs8 → Outcome (Limbs8 × Limbs8)
  | 0, _, _, _ => Outcome.outOfFuel
  | fuel + 1, (x1, x2, x3, x4, x5, x6, x7, x8), (y1, y2, y3, y4, y5, y6, y7, y8),
      (m1, m2, m3, m4, m5, m6, m7, m8) =>
    if i64.or (i64.eqz (i64.clz y1))
        (gte_512x512_64 y1 y2 y3 y4 y5 y6 y7 y8 x1 x2 x3 x4 x5 x6 x7 x8) ≠ 0 then
      Outcome.ok ((y1, y2, y3, y4, y5, y6, y7, y8), (m1, m2, m3, m4, m5, m6, m7, m8))
    else
      let y1 := i64.add (i64.shl y1 1) (i64.shr_u y2 63)
      let y2 := i64.add (i64.shl y2 1) (i64.shr_u y3 63)
      let y3 := i64.add (i64.shl y3 1) (i64.shr_u y4 63)
      let y4 := i64.add (i64.shl y4 1) (i64.shr_u y5 63)
      let y5 := i64.add (i64.shl y5 1) (i64.shr_u y6 63)
      let y6 := i64.add (i64.shl y6 1) (i64.shr_u y7 63)
      let y7 := i64.add (i64.shl y7 1) (i64.shr_u y8 63)
      let y8 := i64.shl y8 1
      let m1 := i64.add (i64.shl m1 1) (i64.shr_u m2 63)
      let m2 := i64.add (i64.shl m2 1) (i64.shr_u m3 63)
      let m3 := i64.add (i64.shl m3 1) (i64.shr_u m4 63)
      let m4 := i64.add (i64.shl m4 1) (i64.shr_u m5 63)
      let m2 := i64.add (i64.shl m5 1) (i64.shr_u m6 63)
      let m3 := i64.add (i64.shl m6 1) (i64.shr_u m7 63)
      let m4 := i64.add (i64.shl m7 1) (i64.shr_u m8 63)
      let m8 := i64.shl m8 1
      mod512_loop1 fuel (x1, x2, x3, x4, x5, x6, x7, x8) (y1, y2, y3, y4, y5, y6, y7, y8)
        (m1, m2, m3, m4, m5, m6, m7, m8)

/-- The second `for` loop of `mod512`, on `x`, `y` and `m`; the shift of `y` assigns
`y2`, `y3`, `y4` a second time and `y1` last, as in the source. -/
def mod512_loop2 : Nat → Limbs8 → Limbs8 → Limbs8 → Outcome Limbs8
  | 0, _, _, _ => Outcome.outOfFuel
  | fuel + 1, (x1, x2, x3, x4, x5, x6, x7, x8), (y1, y2, y3, y4, y5, y6, y7, y8),
      (m1, m2, m3, m4, m5, m6, m7, m8) =>
    if i64.xor (iszero512 m1 m2 m3 m4 m5 m6 m7 m8) 1 ≠ 0 then
      let x : Limbs8 :=
        if gte_512x512_64 x1 x2 x3 x4 x5 x6 x7 x8 y1 y2 y3 y4 y5 y6 y7 y8 ≠ 0 then
          sub512 x1 x2 x3 x4 x5 x6 x7 x8 y1 y2 y3 y4 y5 y6 y7 y8
        else (x1, x2, x3, x4, x5, x6, x7, x8)
      let y1 := i64.add (i64.shr_u y1 1) (i64.shl y2 63)
      let y2 := i64.add (i64.shr_u y2 1) (i64.shl y3 63)
      let y3 := i64.add (i64.shr_u y3 1) (i64.shl y4 63)
      let y4 := i64.add (i64.shr_u y4 1) (i64.shl y5 63)
      let y2 := i64.add (i64.shr_u y2 1) (i64.shl y3 63)
      let y3 := i64.add (i64.shr_u y3 1) (i64.shl y4 63)
      let y4 := i64.add (i64.shr_u y4 1) (i64.shl y5 63)
      let y1 := i64.shr_u y5 1
      let m1 := i64.add (i64.shr_u m1 1) (i64.shl m2 63)
      let m2 := i64.add (i64.shr_u m2 1) (i64.shl m3 63)
      let m3 := i64.add (i64.shr_u m3 1) (i64.shl m4 63)
      let m4 := i64.add (i64.shr_u m4 1) (i64.shl m5 63)
      let m5 := i64.add (i64.shr_u m5 1) (i64.shl m6 63)
      let m6 := i64.add (i64.shr_u m6 1) (i64.shl m7 63)
      let m7 := i64.add (i64.shr_u m7 1) (i64.shl m8 63)
      let m8 := i64.shr_u m8 1
      mod512_loop2 fuel x (y1, y2, y3, y4, y5, y6, y7, y8) (m1, m2, m3, m4, m5, m6, m7, m8)
    else Outcome.ok (x1, x2, x3, x4, x5, x6, x7, x8)

/-- Polyfill `function mod512(x1, .., x8, y1, .., y8) -> r1, .., r8` (commented there
`TODO: implement`); each of its two loops may run `fuel` times. The body never assigns
`r1 .. r8`. -/
def mod512 (fuel : Nat) (x1 x2 x3 x4 x5 x6 x7 x8 y1 y2 y3 y4 y5 y6 y7 y8 : Nat) :
    Outcome Limbs8 :=
  Outcome.andThen
    (if iszero512 y1 y2 y3 y4 y5 y6 y7 y8 ≠ 0 then invalid else Outcome.ok ()) fun _ =>
  Outcome.andThen
    (mod512_loop1 fuel (x1, x2, x3, x4, x5, x6, x7, x8) (y1, y2, y3, y4, y5, y6, y7, y8)
      (0, 0, 0, 0, 0, 0, 0, 1)) fun ym =>
  Outcome.andThen (mod512_loop2 fuel (x1, x2, x3, x4, x5, x6, x7, x8) ym.1 ym.2) fun _ =>
  Outcome.ok (0, 0, 0, 0, 0, 0, 0, 0)

/-- Polyfill `function addmod(x1, x2, x3, x4, y1, y2, y3, y4) -> z1, z2, z3, z4`: it has
eight parameters, and reduces the 320-bit sum by `(0, y1, y2, y3, y4)`. -/
def addmod (fuel : Nat) (x1 x2 x3 x4 y1 y2 y3 y4 : Nat) : Outcome Limbs4 :=
  let (r4, carry) := add_carry x4 y4 0
  let (r3, carry) := add_carry x3 y3 carry
  let (r2, carry) := add_carry x2 y2 carry
  let (r1, carry) := add_carry x1 y1 carry
  Outcome.andThen (mod320 fuel carry r1 r2 r3 r4 0 y1 y2 y3 y4) fun z =>
  Outcome.ok (z.1, z.2.1, z.2.2.1, z.2.2.2.1)

/-- Polyfill `function mulmod(x1, x2, x3, x4, y1, y2, y3, y4) -> z1, z2, z3, z4`: it has
eight parameters, and reduces the 512-bit product by `(0, 0, 0, 0, y1, y2, y3, y4)`. -/
def mulmod (fuel : Nat) (x1 x2 x3 x4 y1 y2 y3 y4 : Nat) : Outcome Limbs4 :=
  let (r1, r2, r3, r4, r5, r6, r7, r8) := mul_256x256_512 x1 x2 x3 x4 y1 y2 y3 y4
  Outcome.andThen (mod512 fuel r1 r2 r3 r4 r5 r6 r7 r8 0 0 0 0 y1 y2 y3 y4) fun t =>
  Outcome.ok (t.2.2.2.2.1, t.2.2.2.2.2.1, t.2.2.2.2.2.2.1, t.2.2.2.2.2.2.2)

/-- The number that four limbs hold when read as a two's-complement signed 256-bit
integer. -/
def sval4 (v : Limbs4) : Int :=
  if val4 v < 2 ^ 255 then (val4 v : Int) else (val4 v : Int) - 2 ^ 256

end Polyfill

/-! ## The linear memory -/

/-- The contents of a memory: a byte for every address. -/
abbrev Bytes := Nat → Nat

/-- The linear memory of the emitted program: its size in bytes, and its contents. -/
structure Mem where
  size : Nat
  bytes : Bytes

/-- The number of bytes a memory access can reach: the size of the memory, and `2 ^ 32` at
most, the target being 32-bit WebAssembly. -/
def Mem.limit (m : Mem) : Nat :=
  min m.size (2 ^ 32)

/-- The contents after the eight bytes of `v` are written little-endian from address `a`
on, the least significant byte at `a`. -/
def put64 (m : Bytes) (a v : Nat) : Bytes :=
  fun b => if a ≤ b ∧ b < a + 8 then v / 2 ^ (8 * (b - a)) % 256 else m b

/-- The little-endian value of the eight bytes from address `a` on. -/
def get64 (m : Bytes) (a : Nat) : Nat :=
  m a % 256 + m (a + 1) % 256 * 2 ^ 8 + m (a + 2) % 256 * 2 ^ 16 + m (a + 3) % 256 * 2 ^ 24 +
    m (a + 4) % 256 * 2 ^ 32 + m (a + 5) % 256 * 2 ^ 40 + m (a + 6) % 256 * 2 ^ 48 +
    m (a + 7) % 256 * 2 ^ 56

namespace i64

/-- Modelled from the spec: the builtin `i64.store` of the WASM64 dialect, which writes the
eight bytes of its operand little-endian, the least significant byte at the address. The
memory of the target has 32-bit addresses: the 64-bit address operand is cut to its low 32
bits, and the store traps unless all eight bytes lie within the memory. -/
def store (m : Mem) (a v : Nat) : Outcome Mem :=
  let addr := a % 2 ^ 32
  if addr + 8 ≤ m.limit then Outcome.ok ⟨m.size, put64 m.bytes addr v⟩ else Outcome.trap

/-- Modelled from the spec: the builtin `i64.load` of the WASM64 dialect, which reads eight
bytes little-endian, the least significant byte at the address. The address operand is cut
to its low 32 bits, and the load traps unless all eight bytes lie within the memory. -/
def load (m : Mem) (a : Nat) : Outcome Nat :=
  let addr := a % 2 ^ 32
  if addr + 8 ≤ m.limit then Outcome.ok (get64 m.bytes addr) else Outcome.trap

end i64

namespace Polyfill

/-- Polyfill `function endian_swap_16(x) -> y`. -/
def endian_swap_16 (x : Nat) : Nat :=
  let hi := i64.and (i64.shl x 8) 0xff00
  let lo := i64.and (i64.shr_u x 8) 0xff
  i64.or hi lo

/-- Polyfill `function endian_swap_32(x) -> y`. -/
def endian_swap_32 (x : Nat) : Nat :=
  let hi := i64.shl (endian_swap_16 x) 16
  let lo := endian_swap_16 (i64.shr_u x 16)
  i64.or hi lo

/-- Polyfill `function endian_swap(x) -> y`. -/
def endian_swap (x : Nat) : Nat :=
  let hi := i64.shl (endian_swap_32 x) 32
  let lo := endian_swap_32 (i64.shr_u x 32)
  i64.or hi lo

/-- Polyfill `function mstore_internal(pos, y1, y2, y3, y4)`, on the memory it writes. -/
def mstore_internal (m : Mem) (pos y1 y2 y3 y4 : Nat) : Outcome Mem :=
  Outcome.andThen (i64.store m pos (endian_swap y1)) fun m =>
  Outcome.andThen (i64.store m (i64.add pos 8) (endian_swap y2)) fun m =>
  Outcome.andThen (i64.store m (i64.add pos 16) (endian_swap y3)) fun m =>
  i64.store m (i64.add pos 24) (endian_swap y4)

/-- Polyfill `function mstore(x1, x2, x3, x4, y1, y2, y3, y4)`, on the memory it writes. -/
def mstore (m : Mem) (x1 x2 x3 x4 y1 y2 y3 y4 : Nat) : Outcome Mem :=
  Outcome.andThen (u256_to_i32ptr x1 x2 x3 x4) fun pos =>
  let pos := i64.add pos 64
  mstore_internal m pos y1 y2 y3 y4

/-- The contents after the four stores of `mstore_internal` at `pos`, when none of them
traps and no address wraps. -/
def putWord (m : Bytes) (pos y1 y2 y3 y4 : Nat) : Bytes :=
  let m := put64 m pos (endian_swap y1)
  let m := put64 m (i64.add pos 8) (endian_swap y2)
  let m := put64 m (i64.add pos 16) (endian_swap y3)
  put64 m (i64.add pos 24) (endian_swap y4)

/-- The byte at index `i` (0 the most significant) of the 32-byte big-endian encoding of a
256-bit number. -/
def be_byte (n i : Nat) : Nat :=
  n / 2 ^ (8 * (31 - i)) % 256

/-- Polyfill `function mload_internal(pos) -> z1, z2, z3, z4`. -/
def mload_internal (m : Mem) (pos : Nat) : Outcome Limbs4 :=
  Outcome.andThen (i64.load m pos) fun w1 =>
  Outcome.andThen (i64.load m (i64.add pos 8)) fun w2 =>
  Outcome.andThen (i64.load m (i64.add pos 16)) fun w3 =>
  Outcome.andThen (i64.load m (i64.add pos 24)) fun w4 =>
  Outcome.ok (endian_swap w1, endian_swap w2, endian_swap w3, endian_swap w4)

/-- Polyfill `function mload(x1, x2, x3, x4) -> z1, z2, z3, z4`. -/
def mload (m : Mem) (x1 x2 x3 x4 : Nat) : Outcome Limbs4 :=
  Outcome.andThen (u256_to_i32ptr x1 x2 x3 x4) fun pos =>
  let pos := i64.add pos 64
  mload_internal m pos

/-- The limbs that the four loads of `mload_internal` at `pos` give, when none of them
traps and no address wraps. -/
def getWord (m : Bytes) (pos : Nat) : Limbs4 :=
  let z1 := endian_swap (get64 m pos)
  let z2 := endian_swap (get64 m (i64.add pos 8))
  let z3 := endian_swap (get64 m (i64.add pos 16))
  let z4 := endian_swap (get64 m (i64.add pos 24))
  (z1, z2, z3, z4)

/-- The bytes at `p`, `p + 1`, .., `p + n - 1`. -/
def readBytes (m : Bytes) (p n : Nat) : List Nat :=
  (List.range n).map fun i => m (p + i)

/-- The contents with the bytes `bs` written from address `p` on. -/
def writeBytes (m : Bytes) (p : Nat) (bs : List Nat) : Bytes :=
  fun a => if p ≤ a ∧ a < p + bs.length then bs.getD (a - p) 0 else m a

/-- The contract storage kept by the host: a 32-byte value for every 32-byte key. -/
abbrev Storage := List Nat → List Nat

end Polyfill

/-! ## Host imports -/

namespace eth

/-- Modelled from the spec: the host import `eth.storageStore(keyPtr, valuePtr)`, which
records the 32 bytes at `valuePtr` under the 32-byte key at `keyPtr`. -/
def storageStore (st : Polyfill.Storage) (m : Mem) (keyPtr valuePtr : Nat) :
    Polyfill.Storage :=
  fun key =>
    if key = Polyfill.readBytes m.bytes keyPtr 32 then Polyfill.readBytes m.bytes valuePtr 32
    else st key

/-- Modelled from the spec: the host import `eth.storageLoad(keyPtr, resultPtr)`, which
writes the value recorded under the 32-byte key at `keyPtr` to `resultPtr`. -/
def storageLoad (st : Polyfill.Storage) (m : Mem) (keyPtr resultPtr : Nat) : Mem :=
  ⟨m.size, Polyfill.writeBytes m.bytes resultPtr (st (Polyfill.readBytes m.bytes keyPtr 32))⟩

end eth

namespace Polyfill

/-- Polyfill `function sstore(x1, x2, x3, x4, y1, y2, y3, y4)`, on the memory and the
storage it changes. -/
def sstore (m : Mem) (st : Storage) (x1 x2 x3 x4 y1 y2 y3 y4 : Nat) :
    Outcome (Mem × Storage) :=
  Outcome.andThen (mstore_internal m 0 x1 x2 x3 x4) fun m =>
  Outcome.andThen (mstore_internal m 32 y1 y2 y3 y4) fun m =>
  Outcome.ok (m, eth.storageStore st m 0 32)

/-- Polyfill `function sload(x1, x2, x3, x4) -> z1, z2, z3, z4`, with the memory it
leaves. -/
def sload (m : Mem) (st : Storage) (x1 x2 x3 x4 : Nat) : Outcome (Limbs4 × Mem) :=
  Outcome.andThen (mstore_internal m 0 x1 x2 x3 x4) fun m =>
  let m := eth.storageLoad st m 0 32
  Outcome.andThen (mload_internal m 32) fun z =>
  Outcome.ok (z, m)

/-- The first `for` loop of `smod`, on `y` and `m`; it passes `y` and `m` to `shl` as the
amount, as in the source. -/
def smod_loop1 : Nat → Limbs4 → Limbs4 → Limbs4 → Outcome (Limbs4 × Limbs4)
  | 0, _, _, _ => Outcome.outOfFuel
  | fuel + 1, (x1, x2, x3, x4), (y1, y2, y3, y4), (m1, m2, m3, m4) =>
    if i64.and (i64.xor (i64.eqz (i64.clz y1)) 1)
        (gte_256x256_64 y1 y2 y3 y4 x1 x2 x3 x4) ≠ 0 then
      smod_loop1 fuel (x1, x2, x3, x4) (shl y1 y2 y3 y4 0 0 0 1) (shl m1 m2 m3 m4 0 0 0 1)
    else Outcome.ok ((y1, y2, y3, y4), (m1, m2, m3, m4))

/-- The second `for` loop of `smod`, on `x`, `y` and `m`; it returns the final `x`. -/
def smod_loop2 : Nat → Limbs4 → Limbs4 → Limbs4 → Outcome Limbs4
  | 0, _, _, _ => Outcome.outOfFuel
  | fuel + 1, (x1, x2, x3, x4), (y1, y2, y3, y4), (m1, m2, m3, m4) =>
    if i64.xor (iszero m1 m2 m3 m4) 1 ≠ 0 then
      let x : Limbs4 :=
        if gte_256x256_64 x1 x2 x3 x4 y1 y2 y3 y4 ≠ 0 then sub x1 x2 x3 x4 y1 y2 y3 y4
        else (x1, x2, x3, x4)
      smod_loop2 fuel x (shl y1 y2 y3 y4 0 0 0 1) (shl m1 m2 m3 m4 0 0 0 1)
    else Outcome.ok (x1, x2, x3, x4)

/-- Polyfill `function smod(x1, x2, x3, x4, y1, y2, y3, y4) -> r1, r2, r3, r4`; each of
its two loops may run `fuel` times. The body never assigns `r1 .. r4`, and its local
`sign` is never read. -/
def smod (fuel : Nat) (x1 x2 x3 x4 y1 y2 y3 y4 : Nat) : Outcome Limbs4 :=
  let (x1, x2, x3, x4) : Limbs4 :=
    if i64.eqz (i64.clz x1) ≠ 0 then
      let (x1, x2, x3, x4) := xor x1 x2 x3 x4 0xffffffff 0xffffffff 0xffffffff 0xffffffff
      add x1 x2 x3 x4 0 0 0 1
    else (x1, x2, x3, x4)
  let (y1, y2, y3, y4) : Limbs4 :=
    if i64.eqz (i64.clz y1) ≠ 0 then
      let (y1, y2, y3, y4) := xor y1 y2 y3 y4 0xffffffff 0xffffffff 0xffffffff 0xffffffff
      add y1 y2 y3 y4 0 0 0 1
    else (y1, y2, y3, y4)
  Outcome.andThen (if iszero y1 y2 y3 y4 ≠ 0 then invalid else Outcome.ok ()) fun _ =>
  if i64.xor (iszero y1 y2 y3 y4) 1 ≠ 0 then
    Outcome.andThen
      (smod_loop1 fuel (x1, x2, x3, x4) (y1, y2, y3, y4) (0, 0, 0, 1)) fun ym =>
    Outcome.andThen (smod_loop2 fuel (x1, x2, x3, x4) ym.1 ym.2) fun _ =>
    Outcome.ok (0, 0, 0, 0)
  else Outcome.ok (0, 0, 0, 0)

/-- The `for` loop of `exp`, on `x`, `y` and `r`; it passes `y` to `shr` as the amount,
as in the source. -/
def exp_loop : Nat → Limbs4 → Limbs4 → Limbs4 → Outcome Limbs4
  | 0, _, _, _ => Outcome.outOfFuel
  | fuel + 1, (x1, x2, x3, x4), (y1, y2, y3, y4), (r1, r2, r3, r4) =>
    if i64.xor (iszero y1 y2 y3 y4) 1 ≠ 0 then
      let r : Limbs4 :=
        if i64.and y4 1 ≠ 0 then mul r1 r2 r3 r4 x1 x2 x3 x4 else (r1, r2, r3, r4)
      exp_loop fuel (mul x1 x2 x3 x4 x1 x2 x3 x4) (shr y1 y2 y3 y4 0 0 0 1) r
    else Outcome.ok (r1, r2, r3, r4)

/-- Polyfill `function exp(x1, x2, x3, x4, y1, y2, y3, y4) -> r1, r2, r3, r4`; its loop
may run `fuel` times. -/
def exp (fuel : Nat) (x1 x2 x3 x4 y1 y2 y3 y4 : Nat) : Outcome Limbs4 :=
  exp_loop fuel (x1, x2, x3, x4) (y1, y2, y3, y4) (0, 0, 0, 1)

/-- The 512-bit number held by eight limbs, limb 1 most significant. -/
def val8 (v : Limbs8) : Nat :=
  v.1 * 2 ^ 448 + v.2.1 * 2 ^ 384 + v.2.2.1 * 2 ^ 320 + v.2.2.2.1 * 2 ^ 256 +
    v.2.2.2.2.1 * 2 ^ 192 + v.2.2.2.2.2.1 * 2 ^ 128 + v.2.2.2.2.2.2.1 * 2 ^ 64 +
    v.2.2.2.2.2.2.2

/-- The big-endian number of a list of bytes, the first byte most significant. -/
def beNat (bs : List Nat) : Nat :=
  bs.foldl (fun acc b => acc * 256 + b) 0

end Polyfill

namespace eth

/-- Modelled from the spec: the host import `eth.getCallDataSize()`, the number of bytes of
the call data. -/
def getCallDataSize (callData : List Nat) : Nat :=
  callData.length

/-- Modelled from the spec: the host import `eth.callDataCopy(resultOffset, dataOffset,
length)`, which copies `length` bytes of the call data from `dataOffset` on to the memory
at `resultOffset`, and traps when the range leaves the call data. -/
def callDataCopy (callData : List Nat) (m : Mem) (resultOffset dataOffset length : Nat) :
    Outcome Mem :=
  if dataOffset + length ≤ callData.length then
    Outcome.ok
      ⟨m.size, Polyfill.writeBytes m.bytes resultOffset ((callData.drop dataOffset).take length)⟩
  else Outcome.trap

end eth

namespace Polyfill

/-- Polyfill `function calldatasize() -> z1, z2, z3, z4`. -/
def calldatasize (callData : List Nat) : Limbs4 :=
  (0, 0, 0, eth.getCallDataSize callData)

/-- Polyfill `function calldataload(x1, x2, x3, x4) -> z1, z2, z3, z4`, with the memory it
leaves: it assigns `calldatasize()` to its result and calls
`eth.callDataCopy(i64.add(u256_to_i32ptr(x), 64), 0, u256_to_i32(z))`. -/
def calldataload (callData : List Nat) (m : Mem) (x1 x2 x3 x4 : Nat) :
    Outcome (Limbs4 × Mem) :=
  let z := calldatasize callData
  Outcome.andThen (u256_to_i32 z.1 z.2.1 z.2.2.1 z.2.2.2) fun len =>
  Outcome.andThen (u256_to_i32ptr x1 x2 x3 x4) fun p =>
  Outcome.andThen (eth.callDataCopy callData m (i64.add p 64) 0 len) fun m2 =>
  Outcome.ok (z, m2)

/-- The top-level statements of the polyfill text, in its order: every one is a function
definition, listed here with its name, its number of parameters and its number of
return variables. -/
def polyfillSignatures : List (String × Nat × Nat) :=
  [("or_bool", 4, 1), ("add_carry", 3, 2), ("add", 8, 4), ("bit_negate", 1, 1), ("sub", 8, 4),
   ("sub320", 10, 5), ("sub512", 16, 8), ("split", 1, 2), ("mul_64x64_128", 2, 2),
   ("mul_128x128_256", 4, 4), ("mul_256x256_512", 8, 8), ("mul", 8, 4), ("div", 8, 4),
   ("mod", 8, 4), ("mod320", 10, 5), ("mod512", 16, 8), ("smod", 8, 4), ("exp", 8, 4),
   ("byte", 8, 4), ("xor", 8, 4), ("or", 8, 4), ("and", 8, 4), ("not", 4, 4), ("iszero", 4, 1),
   ("iszero320", 5, 1), ("iszero512", 8, 1), ("eq", 8, 4), ("cmp", 2, 1),
   ("lt_320x320_64", 10, 1), ("lt_512x512_64", 16, 1), ("lt_256x256_64", 8, 1), ("lt", 8, 4),
   ("gte_256x256_64", 8, 1), ("gte_320x320_64", 10, 1), ("gte_512x512_64", 16, 1),
   ("slt", 8, 4), ("sgt", 8, 4), ("shl_single", 2, 2), ("shl", 8, 4), ("shr_single", 2, 2),
   ("shr", 8, 4), ("sar", 8, 4), ("addmod", 8, 4), ("mulmod", 8, 4), ("signextend", 8, 4),
   ("u256_to_i128", 4, 2), ("u256_to_i64", 4, 1), ("u256_to_i32", 4, 1),
   ("u256_to_byte", 4, 1), ("u256_to_i32ptr", 4, 1), ("keccak256", 8, 4), ("address", 0, 4),
   ("balance", 4, 4), ("origin", 0, 4), ("caller", 0, 4), ("callvalue", 0, 4),
   ("calldataload", 4, 4), ("calldatasize", 0, 4), ("calldatacopy", 12, 0), ("codesize", 0, 4),
   ("codecopy", 12, 0), ("datacopy", 12, 0), ("gasprice", 0, 4), ("extcodesize", 4, 4),
   ("extcodehash", 4, 4), ("extcodecopy", 16, 0), ("returndatasize", 0, 4),
   ("returndatacopy", 12, 0), ("blockhash", 4, 4), ("coinbase", 0, 4), ("timestamp", 0, 4),
   ("number", 0, 4), ("difficulty", 0, 4), ("gaslimit", 0, 4), ("pop", 4, 0),
   ("endian_swap_16", 1, 1), ("endian_swap_32", 1, 1), ("endian_swap", 1, 1),
   ("save_temp_mem_32", 0, 4), ("restore_temp_mem_32", 4, 0), ("save_temp_mem_64", 0, 8),
   ("restore_temp_mem_64", 8, 0), ("mload", 4, 4), ("mload_internal", 1, 4), ("mstore", 8, 0),
   ("mstore_internal", 5, 0), ("mstore8", 8, 0), ("msize", 0, 4), ("sload", 4, 4),
   ("sstore", 8, 0), ("pc", 0, 4), ("gas", 0, 4), ("log0", 8, 0), ("log1", 12, 0),
   ("log2", 16, 0), ("log3", 20, 0), ("log4", 24, 0), ("create", 12, 4), ("call", 28, 4),
   ("callcode", 28, 4), ("delegatecall", 24, 4), ("staticcall", 24, 4), ("create2", 16, 4),
   ("selfdestruct", 4, 0), ("return", 8, 0), ("revert", 8, 0), ("invalid", 0, 0)]

/-- The number of parameters of the polyfill function of a name, if the text defines it. -/
def polyfillArity (name : String) : Option Nat :=
  (polyfillSignatures.find? fun s => s.1 == name).map fun s => s.2.1

end Polyfill

/-! ## The translator driver -/

/-- An object of the assembly tree or a data blob: `Object` has a name, a code block (its
statement list), subobjects and the index of the subobjects by name; `Data` has a name
and bytes. The statements are those of the AST, a type the driver does not look into. -/
inductive ObjectNode (Stmt : Type) where
  | Data (name : String) (data : List Nat) : ObjectNode Stmt
  | Object (name : String) (code : List Stmt) (subObjects : List (ObjectNode Stmt))
      (subIndexByName : List (String × Nat)) : ObjectNode Stmt

/-- The collaborators that `run` and `parsePolyfill` call and that the sources here do not
define, each as the function of the block it computes: the parser on the polyfill text
(`none` when it reports errors), the name of a function definition, the passes in the
order `run` applies them, the AST copier and the analyzer. -/
structure Collaborators (Stmt : Type) where
  parse : Option (List Stmt)
  functionName : Stmt → String
  disambiguate : List Stmt → List Stmt
  functionHoister : List Stmt → List Stmt
  functionGrouper : List Stmt → List Stmt
  mainFunction : List Stmt → List Stmt
  expressionSplitter : List Stmt → List Stmt
  wordSizeTransform : List Stmt → List Stmt
  nameDisplacer : List String → List Stmt → List Stmt
  copy : Stmt → Stmt
  analyze : List Stmt → Bool

/-- The members of a translator instance; `parserCalls` counts the calls of the polyfill
parser the instance has made. -/
structure EVMToEWasmTranslator (Stmt : Type) where
  m_polyfill : Option (List Stmt)
  m_polyfillFunctions : List String
  parserCalls : Nat

namespace EVMToEWasmTranslator

/-- A translator instance as constructed: no polyfill parsed yet. -/
def fresh (Stmt : Type) : EVMToEWasmTranslator Stmt :=
  { m_polyfill := none, m_polyfillFunctions := [], parserCalls := 0 }

/-- The statement list that `run` builds before it appends the polyfill: the passes from
the disambiguator to the name displacer, in the order of the source. -/
def transformed {Stmt : Type} (c : Collaborators Stmt) (polyfillFunctions : List String)
    (code : List Stmt) : List Stmt :=
  c.nameDisplacer polyfillFunctions
    (c.wordSizeTransform (c.expressionSplitter (c.mainFunction (c.functionGrouper
      (c.functionHoister (c.disambiguate code))))))

/-- The method `EVMToEWasmTranslator::parsePolyfill`; `none` is a failed `yulAssert`. -/
def parsePolyfill {Stmt : Type} (c : Collaborators Stmt) (t : EVMToEWasmTranslator Stmt) :
    Option (EVMToEWasmTranslator Stmt) :=
  match c.parse with
  | none => none
  | some polyfill =>
    some { m_polyfill := some polyfill,
           m_polyfillFunctions := polyfill.map c.functionName,
           parserCalls := t.parserCalls + 1 }

mutual
/-- The method `EVMToEWasmTranslator::run` on an `Object`; `none` is a failed `yulAssert`.
On a `Data` node it is the copy that the loop of `run` makes of a subobject that is no
`Object`. -/
def run {Stmt : Type} (c : Collaborators Stmt) :
    EVMToEWasmTranslator Stmt → ObjectNode Stmt →
      Option (EVMToEWasmTranslator Stmt × ObjectNode Stmt)
  | t, ObjectNode.Data name data => some (t, ObjectNode.Data name data)
  | t, ObjectNode.Object name code subObjects subIndexByName =>
    match (if t.m_polyfill.isNone then parsePolyfill c t else some t) with
    | none => none
    | some t1 =>
      match t1.m_polyfill with
      | none => none
      | some polyfill =>
        let ast := transformed c t1.m_polyfillFunctions code ++ polyfill.map c.copy
        if c.analyze ast then
          match runSubObjects c t1 subObjects with
          | none => none
          | some (t2, subs) => some (t2, ObjectNode.Object name ast subs subIndexByName)
        else none
/-- The loop of `run` over the subobjects, in their order, on the same instance. -/
def runSubObjects {Stmt : Type} (c : Collaborators Stmt) :
    EVMToEWasmTranslator Stmt → List (ObjectNode Stmt) →
      Option (EVMToEWasmTranslator Stmt × List (ObjectNode Stmt))
  | t, [] => some (t, [])
  | t, node :: rest =>
    match run c t node with
    | none => none
    | some (t1, node2) =>
      match runSubObjects c t1 rest with
      | none => none
      | some (t2, rest2) => some (t2, node2 :: rest2)
end

end EVMToEWasmTranslator

/-- Whether a node is an `Object`. -/
def ObjectNode.isObject {Stmt : Type} : ObjectNode Stmt → Bool
  | ObjectNode.Data _ _ => false
  | ObjectNode.Object _ _ _ _ => true

/-- A concrete set of collaborators on statements that are numbers, to run the driver
on: the parser yields two statements, the word-size transform multiplies by four. -/
def demoCollaborators : Collaborators Nat :=
  { parse := some [900, 901]
    functionName := fun n => if n = 900 then "add" else "sub"
    disambiguate := fun l => l
    functionHoister := fun l => l
    functionGrouper := fun l => l
    mainFunction := fun l => l
    expressionSplitter := fun l => l
    wordSizeTransform := fun l => l.map fun n => n * 4
    nameDisplacer := fun _ l => l
    copy := fun n => n
    analyze := fun _ => true }

/-- A concrete object with a data blob and a nested object. -/
def demoObject : ObjectNode Nat :=
  ObjectNode.Object "root" [1, 2]
    [ObjectNode.Data "blob" [0xde, 0xad], ObjectNode.Object "sub" [3] [] []]
    [("blob", 0), ("sub", 1)]

/-- The translator instance after `demoCollaborators` have parsed the polyfill once. -/
def demoParsed : EVMToEWasmTranslator Nat :=
  { m_polyfill := some [900, 901], m_polyfillFunctions := ["add", "sub"], parserCalls := 1 }

/-- The translation of `demoObject` under `demoCollaborators`. -/
def demoResult : ObjectNode Nat :=
  ObjectNode.Object "root" [4, 8, 900, 901]
    [ObjectNode.Data "blob" [0xde, 0xad], ObjectNode.Object "sub" [12, 900, 901] [] []]
    [("blob", 0), ("sub", 1)]

/-- A concrete call data: the 32 bytes `1, 2, .., 32`. -/
def demoCallData : List Nat :=
  (List.range 32).map fun i => i + 1

/-! ## Single bytes -/

namespace Polyfill

/-- Polyfill `function byte(x1, x2, x3, x4, y1, y2, y3, y4) -> r1, r2, r3, r4`. Its body
calls neither `invalid()` nor a loop, and its only divisions are by the literal 8, so it
is a total function. The `switch` has no default case: `component` keeps its initial
zero when `x4 / 8` is above 3. Only `r4` is assigned. -/
def byte (x1 x2 x3 x4 y1 y2 y3 y4 : Nat) : Limbs4 :=
  if i64.eqz (i64.or (i64.or x1 x2) x3) ≠ 0 then
    let component : Nat :=
      match i64.div_u x4 8 with
      | 0 => y1
      | 1 => y2
      | 2 => y3
      | 3 => y4
      | _ => 0
    let x4 := i64.mul (i64.rem_u x4 8) 8
    let r4 := i64.shr_u component (i64.sub 56 x4)
    let r4 := i64.and 0xff r4
    (0, 0, 0, r4)
  else (0, 0, 0, 0)

/-- Polyfill `function mstore8(x1, x2, x3, x4, y1, y2, y3, y4)`, on the memory it writes. -/
def mstore8 (m : Mem) (x1 x2 x3 x4 y1 y2 y3 y4 : Nat) : Outcome Mem :=
  Outcome.andThen (u256_to_i32ptr x1 x2 x3 x4) fun pos =>
  let pos := i64.add pos 64
  Outcome.andThen (u256_to_byte y1 y2 y3 y4) fun v =>
  i64.store m pos (endian_swap v)

end Polyfill

/-! ## Theorems -/

namespace Polyfill

theorem add_carry_spec (x y c : Nat) (hx : x < 2 ^ 64) (hy : y < 2 ^ 64) (hc : c ≤ 1) :
    (add_carry x y c).1 + (add_carry x y c).2 * 2 ^ 64 = x + y + c ∧
    (add_carry x y c).1 < 2 ^ 64 ∧ (add_carry x y c).2 ≤ 1 := by
  simp only [add_carry, i64.add, i64.or, i64.lt_u]
  have h1 : c = 0 ∨ c = 1 := by omega
  rcases h1 with rfl | rfl <;> split_ifs <;> simp <;> omega

theorem add_val (x1 x2 x3 x4 y1 y2 y3 y4 : Nat)
    (hx : wf4 (x1, x2, x3, x4)) (hy : wf4 (y1, y2, y3, y4)) :
    val4 (add x1 x2 x3 x4 y1 y2 y3 y4) =
      (val4 (x1, x2, x3, x4) + val4 (y1, y2, y3, y4)) % 2 ^ 256 ∧
    wf4 (add x1 x2 x3 x4 y1 y2 y3 y4) := by
  obtain ⟨hx1, hx2, hx3, hx4⟩ := hx
  obtain ⟨hy1, hy2, hy3, hy4⟩ := hy
  simp only at hx1 hx2 hx3 hx4 hy1 hy2 hy3 hy4
  obtain ⟨e4, b4, c4⟩ := add_carry_spec x4 y4 0 hx4 hy4 (by omega)
  obtain ⟨e3, b3, c3⟩ := add_carry_spec x3 y3 _ hx3 hy3 c4
  obtain ⟨e2, b2, c2⟩ := add_carry_spec x2 y2 _ hx2 hy2 c3
  obtain ⟨e1, b1, c1⟩ := add_carry_spec x1 y1 _ hx1 hy1 c2
  simp only [add, val4, wf4]
  generalize add_carry x4 y4 0 = p4 at *
  generalize add_carry x3 y3 p4.2 = p3 at *
  generalize add_carry x2 y2 p3.2 = p2 at *
  generalize add_carry x1 y1 p2.2 = p1 at *
  obtain ⟨r4, k4⟩ := p4
  obtain ⟨r3, k3⟩ := p3
  obtain ⟨r2, k2⟩ := p2
  obtain ⟨r1, k1⟩ := p1
  simp only at *
  refine ⟨?_, b1, b2, b3, b4⟩
  omega

theorem val4_limbs4 (n : Nat) : val4 (limbs4 n) = n % 2 ^ 256 := by
  simp only [limbs4, val4]
  omega

theorem wf4_limbs4 (n : Nat) : wf4 (limbs4 n) := by
  simp only [limbs4, wf4]
  refine ⟨?_, ?_, ?_, ?_⟩ <;> omega

theorem limbs4_val4 (v : Limbs4) (h : wf4 v) : limbs4 (val4 v) = v := by
  obtain ⟨a, b, c, d⟩ := v
  obtain ⟨ha, hb, hc, hd⟩ := h
  simp only [limbs4, val4] at *
  refine Prod.ext ?_ (Prod.ext ?_ (Prod.ext ?_ ?_)) <;> simp only <;> omega

theorem bit_negate_spec (x : Nat) (hx : x < 2 ^ 64) :
    bit_negate x = 2 ^ 64 - 1 - x := by
  have h := @BitVec.toNat_not 64 (BitVec.ofNat 64 x)
  rw [BitVec.not_def, BitVec.toNat_xor, BitVec.toNat_allOnes, BitVec.toNat_ofNat,
    Nat.mod_eq_of_lt hx] at h
  simp only [bit_negate, i64.xor]
  rw [Nat.xor_comm]
  exact h

/-- Four chained `add_carry` calls add two four-limb numbers and an incoming carry. -/
theorem ripple4 (x1 x2 x3 x4 y1 y2 y3 y4 c : Nat)
    (hx1 : x1 < 2 ^ 64) (hx2 : x2 < 2 ^ 64) (hx3 : x3 < 2 ^ 64) (hx4 : x4 < 2 ^ 64)
    (hy1 : y1 < 2 ^ 64) (hy2 : y2 < 2 ^ 64) (hy3 : y3 < 2 ^ 64) (hy4 : y4 < 2 ^ 64)
    (hc : c ≤ 1) :
    let p4 := add_carry x4 y4 c
    let p3 := add_carry x3 y3 p4.2
    let p2 := add_carry x2 y2 p3.2
    let p1 := add_carry x1 y1 p2.2
    val4 (p1.1, p2.1, p3.1, p4.1) + p1.2 * 2 ^ 256 =
      val4 (x1, x2, x3, x4) + val4 (y1, y2, y3, y4) + c ∧
    wf4 (p1.1, p2.1, p3.1, p4.1) ∧ p1.2 ≤ 1 := by
  intro p4 p3 p2 p1
  have h4 : p4.1 + p4.2 * 2 ^ 64 = x4 + y4 + c ∧ p4.1 < 2 ^ 64 ∧ p4.2 ≤ 1 :=
    add_carry_spec x4 y4 c hx4 hy4 hc
  have h3 : p3.1 + p3.2 * 2 ^ 64 = x3 + y3 + p4.2 ∧ p3.1 < 2 ^ 64 ∧ p3.2 ≤ 1 :=
    add_carry_spec x3 y3 p4.2 hx3 hy3 h4.2.2
  have h2 : p2.1 + p2.2 * 2 ^ 64 = x2 + y2 + p3.2 ∧ p2.1 < 2 ^ 64 ∧ p2.2 ≤ 1 :=
    add_carry_spec x2 y2 p3.2 hx2 hy2 h3.2.2
  have h1 : p1.1 + p1.2 * 2 ^ 64 = x1 + y1 + p2.2 ∧ p1.1 < 2 ^ 64 ∧ p1.2 ≤ 1 :=
    add_carry_spec x1 y1 p2.2 hx1 hy1 h2.2.2
  clear_value p1 p2 p3 p4
  obtain ⟨a1, k1⟩ := p1
  obtain ⟨a2, k2⟩ := p2
  obtain ⟨a3, k3⟩ := p3
  obtain ⟨a4, k4⟩ := p4
  simp only [val4, wf4] at *
  omega

theorem val4_lt (v : Limbs4) (h : wf4 v) : val4 v < 2 ^ 256 := by
  obtain ⟨a, b, c, d⟩ := v
  obtain ⟨ha, hb, hc, hd⟩ := h
  simp only [val4] at *
  omega

theorem sub_val (x1 x2 x3 x4 y1 y2 y3 y4 : Nat)
    (hx : wf4 (x1, x2, x3, x4)) (hy : wf4 (y1, y2, y3, y4)) :
    val4 (sub x1 x2 x3 x4 y1 y2 y3 y4) =
      (val4 (x1, x2, x3, x4) + (2 ^ 256 - val4 (y1, y2, y3, y4))) % 2 ^ 256 ∧
    wf4 (sub x1 x2 x3 x4 y1 y2 y3 y4) := by
  obtain ⟨hx1, hx2, hx3, hx4⟩ := hx
  obtain ⟨hy1, hy2, hy3, hy4⟩ := hy
  simp only at hx1 hx2 hx3 hx4 hy1 hy2 hy3 hy4
  have n1 := bit_negate_spec y1 hy1
  have n2 := bit_negate_spec y2 hy2
  have n3 := bit_negate_spec y3 hy3
  have n4 := bit_negate_spec y4 hy4
  have h := ripple4 x1 x2 x3 x4 (bit_negate y1) (bit_negate y2) (bit_negate y3)
    (bit_negate y4) 1 hx1 hx2 hx3 hx4 (by omega) (by omega) (by omega) (by omega) (by omega)
  simp only at h
  obtain ⟨hv, hw, hk⟩ := h
  change val4 (sub x1 x2 x3 x4 y1 y2 y3 y4) + _ = _ at hv
  have hlt := val4_lt _ hw
  change val4 (sub x1 x2 x3 x4 y1 y2 y3 y4) < _ at hlt
  refine ⟨?_, hw⟩
  generalize val4 (sub x1 x2 x3 x4 y1 y2 y3 y4) = r at hv hlt ⊢
  generalize (add_carry x1 (bit_negate y1) _).2 = k at hv hk
  simp only [val4] at hv ⊢
  generalize bit_negate y1 = m1 at hv n1
  generalize bit_negate y2 = m2 at hv n2
  generalize bit_negate y3 = m3 at hv n3
  generalize bit_negate y4 = m4 at hv n4
  omega

theorem split_spec (x : Nat) : split x = (x / 2 ^ 32, x % 2 ^ 32) := by
  have h := Nat.and_pow_two_sub_one_eq_mod x 32
  simp only [split, i64.shr_u, i64.and]
  norm_num at h ⊢
  exact h

theorem mul_le_sq32 (a b : Nat) (ha : a < 2 ^ 32) (hb : b < 2 ^ 32) :
    a * b ≤ (2 ^ 32 - 1) * (2 ^ 32 - 1) :=
  Nat.mul_le_mul (by omega) (by omega)

theorem mul_64x64_128_spec (x y : Nat) (hx : x < 2 ^ 64) (hy : y < 2 ^ 64) :
    (mul_64x64_128 x y).1 * 2 ^ 64 + (mul_64x64_128 x y).2 = x * y ∧
    (mul_64x64_128 x y).1 < 2 ^ 64 ∧ (mul_64x64_128 x y).2 < 2 ^ 64 := by
  have hxh : x / 2 ^ 32 < 2 ^ 32 := by omega
  have hxl : x % 2 ^ 32 < 2 ^ 32 := by omega
  have hyh : y / 2 ^ 32 < 2 ^ 32 := by omega
  have hyl : y % 2 ^ 32 < 2 ^ 32 := by omega
  have hA := mul_le_sq32 _ _ hxl hyl
  have hB := mul_le_sq32 _ _ hxh hyl
  have hC := mul_le_sq32 _ _ hxl hyh
  have hD := mul_le_sq32 _ _ hxh hyh
  have hprod : x * y = (x / 2 ^ 32) * (y / 2 ^ 32) * 2 ^ 64 +
      ((x / 2 ^ 32) * (y % 2 ^ 32) + (x % 2 ^ 32) * (y / 2 ^ 32)) * 2 ^ 32 +
      (x % 2 ^ 32) * (y % 2 ^ 32) := by
    conv_lhs => rw [← Nat.div_add_mod x (2 ^ 32), ← Nat.div_add_mod y (2 ^ 32)]
    ring
  simp only [mul_64x64_128, split_spec, i64.mul, i64.add, i64.or, i64.shl, i64.shr_u]
  rw [hprod]
  generalize (x % 2 ^ 32) * (y % 2 ^ 32) = A at *
  generalize (x / 2 ^ 32) * (y % 2 ^ 32) = B at *
  generalize (x % 2 ^ 32) * (y / 2 ^ 32) = C at *
  generalize (x / 2 ^ 32) * (y / 2 ^ 32) = D at *
  have hA1 : A % 2 ^ 64 = A := by omega
  have hB1 : B % 2 ^ 64 = B := by omega
  have hC1 : C % 2 ^ 64 = C := by omega
  have hD1 : D % 2 ^ 64 = D := by omega
  rw [hA1, hB1, hC1, hD1]
  have hor : ∀ u : Nat, (u * 2 ^ (32 % 64)) % 2 ^ 64 ||| A % 2 ^ 32 =
      2 ^ 32 * (u % 2 ^ 32) + A % 2 ^ 32 := by
    intro u
    have e : (u * 2 ^ (32 % 64)) % 2 ^ 64 = 2 ^ 32 * (u % 2 ^ 32) := by
      norm_num
      omega
    rw [e]
    exact (Nat.mul_add_lt_is_or (Nat.mod_lt _ (by norm_num)) _).symm
  rw [hor]
  norm_num
  omega

theorem mul_le_sq64 (a b : Nat) (ha : a < 2 ^ 64) (hb : b < 2 ^ 64) :
    a * b ≤ (2 ^ 64 - 1) * (2 ^ 64 - 1) :=
  Nat.mul_le_mul (by omega) (by omega)

theorem mul_128x128_256_spec (x1 x2 y1 y2 : Nat)
    (hx1 : x1 < 2 ^ 64) (hx2 : x2 < 2 ^ 64) (hy1 : y1 < 2 ^ 64) (hy2 : y2 < 2 ^ 64) :
    val4 (mul_128x128_256 x1 x2 y1 y2) = (x1 * 2 ^ 64 + x2) * (y1 * 2 ^ 64 + y2) ∧
    wf4 (mul_128x128_256 x1 x2 y1 y2) := by
  obtain ⟨ea, ha1, ha2⟩ := mul_64x64_128_spec x1 y1 hx1 hy1
  obtain ⟨eb, hb1, hb2⟩ := mul_64x64_128_spec x1 y2 hx1 hy2
  obtain ⟨ec, hc1, hc2⟩ := mul_64x64_128_spec x2 y1 hx2 hy1
  obtain ⟨ed, hd1, hd2⟩ := mul_64x64_128_spec x2 y2 hx2 hy2
  have ba := mul_le_sq64 _ _ hx1 hy1
  have bb := mul_le_sq64 _ _ hx1 hy2
  have bc := mul_le_sq64 _ _ hx2 hy1
  have bd := mul_le_sq64 _ _ hx2 hy2
  have hprod : (x1 * 2 ^ 64 + x2) * (y1 * 2 ^ 64 + y2) =
      x1 * y1 * 2 ^ 128 + (x1 * y2 + x2 * y1) * 2 ^ 64 + x2 * y2 := by ring
  rw [hprod]
  simp only [mul_128x128_256]
  generalize mul_64x64_128 x1 y1 = a at *
  generalize mul_64x64_128 x1 y2 = b at *
  generalize mul_64x64_128 x2 y1 = c at *
  generalize mul_64x64_128 x2 y2 = d at *
  obtain ⟨ah, al⟩ := a
  obtain ⟨bh, bl⟩ := b
  obtain ⟨ch, cl⟩ := c
  obtain ⟨dh, dl⟩ := d
  simp only at ea eb ec ed ha1 ha2 hb1 hb2 hc1 hc2 hd1 hd2 ⊢
  generalize x1 * y1 = Pa at *
  generalize x1 * y2 = Pb at *
  generalize x2 * y1 = Pc at *
  generalize x2 * y2 = Pd at *
  obtain ⟨e1, r1, k1⟩ := add_carry_spec bl cl 0 hb2 hc2 (by omega)
  obtain ⟨e2, r2, k2⟩ := add_carry_spec (add_carry bl cl 0).1 dh 0 r1 hd1 (by omega)
  obtain ⟨e3, r3, k3⟩ := add_carry_spec bh ch (add_carry bl cl 0).2 hb1 hc1 k1
  obtain ⟨e4, r4, k4⟩ := add_carry_spec (add_carry bh ch (add_carry bl cl 0).2).1 al
    (add_carry (add_carry bl cl 0).1 dh 0).2 r3 ha2 k2
  generalize add_carry (add_carry bh ch (add_carry bl cl 0).2).1 al
    (add_carry (add_carry bl cl 0).1 dh 0).2 = p4 at *
  generalize add_carry bh ch (add_carry bl cl 0).2 = p3 at *
  generalize add_carry (add_carry bl cl 0).1 dh 0 = p2 at *
  generalize add_carry bl cl 0 = p1 at *
  obtain ⟨u1, v1⟩ := p1
  obtain ⟨u2, v2⟩ := p2
  obtain ⟨u3, v3⟩ := p3
  obtain ⟨u4, v4⟩ := p4
  simp only [val4, wf4, i64.add] at e1 e2 e3 e4 r1 r2 r3 r4 k1 k2 k3 k4 ⊢
  refine ⟨?_, ?_, ?_, ?_, ?_⟩ <;> omega

theorem mul_val (x1 x2 x3 x4 y1 y2 y3 y4 : Nat)
    (hx : wf4 (x1, x2, x3, x4)) (hy : wf4 (y1, y2, y3, y4)) :
    val4 (mul x1 x2 x3 x4 y1 y2 y3 y4) =
      (val4 (x1, x2, x3, x4) * val4 (y1, y2, y3, y4)) % 2 ^ 256 ∧
    wf4 (mul x1 x2 x3 x4 y1 y2 y3 y4) := by
  obtain ⟨hx1, hx2, hx3, hx4⟩ := hx
  obtain ⟨hy1, hy2, hy3, hy4⟩ := hy
  simp only at hx1 hx2 hx3 hx4 hy1 hy2 hy3 hy4
  obtain ⟨eb, wb⟩ := mul_128x128_256_spec x3 x4 y1 y2 hx3 hx4 hy1 hy2
  obtain ⟨ec, wc⟩ := mul_128x128_256_spec x1 x2 y3 y4 hx1 hx2 hy3 hy4
  obtain ⟨ed, wd⟩ := mul_128x128_256_spec x3 x4 y3 y4 hx3 hx4 hy3 hy4
  have hprod : val4 (x1, x2, x3, x4) * val4 (y1, y2, y3, y4) =
      (x1 * 2 ^ 64 + x2) * (y1 * 2 ^ 64 + y2) * 2 ^ 256 +
      ((x3 * 2 ^ 64 + x4) * (y1 * 2 ^ 64 + y2) + (x1 * 2 ^ 64 + x2) * (y3 * 2 ^ 64 + y4)) *
        2 ^ 128 +
      (x3 * 2 ^ 64 + x4) * (y3 * 2 ^ 64 + y4) := by
    simp only [val4]
    ring
  rw [hprod]
  simp only [mul]
  generalize mul_128x128_256 x3 x4 y1 y2 = b at *
  generalize mul_128x128_256 x1 x2 y3 y4 = c at *
  generalize mul_128x128_256 x3 x4 y3 y4 = d at *
  obtain ⟨b1, b2, b3, b4⟩ := b
  obtain ⟨c1, c2, c3, c4⟩ := c
  obtain ⟨d1, d2, d3, d4⟩ := d
  obtain ⟨wb1, wb2, wb3, wb4⟩ := wb
  obtain ⟨wc1, wc2, wc3, wc4⟩ := wc
  obtain ⟨wd1, wd2, wd3, wd4⟩ := wd
  simp only at wb1 wb2 wb3 wb4 wc1 wc2 wc3 wc4 wd1 wd2 wd3 wd4 ⊢
  have z : (0 : Nat) < 2 ^ 64 := by norm_num
  obtain ⟨es, ws⟩ := add_val 0 0 b3 b4 0 0 c3 c4 ⟨z, z, wb3, wb4⟩ ⟨z, z, wc3, wc4⟩
  generalize add 0 0 b3 b4 0 0 c3 c4 = s at *
  obtain ⟨s1, s2, s3, s4⟩ := s
  obtain ⟨ws1, ws2, ws3, ws4⟩ := ws
  simp only at ws1 ws2 ws3 ws4 ⊢
  obtain ⟨et, wt⟩ := add_val 0 0 s3 s4 0 0 d1 d2 ⟨z, z, ws3, ws4⟩ ⟨z, z, wd1, wd2⟩
  generalize add 0 0 s3 s4 0 0 d1 d2 = t at *
  obtain ⟨t1, t2, t3, t4⟩ := t
  obtain ⟨wt1, wt2, wt3, wt4⟩ := wt
  simp only at wt1 wt2 wt3 wt4 ⊢
  generalize (x1 * 2 ^ 64 + x2) * (y1 * 2 ^ 64 + y2) = Pa at *
  generalize (x3 * 2 ^ 64 + x4) * (y1 * 2 ^ 64 + y2) = Pb at *
  generalize (x1 * 2 ^ 64 + x2) * (y3 * 2 ^ 64 + y4) = Pc at *
  generalize (x3 * 2 ^ 64 + x4) * (y3 * 2 ^ 64 + y4) = Pd at *
  simp only [val4, wf4] at eb ec ed es et ⊢
  refine ⟨?_, wt3, wt4, wd3, wd4⟩
  omega

theorem eq_limbs4_of_val (v : Limbs4) (n : Nat) (hw : wf4 v) (h : val4 v = n) :
    v = limbs4 n := by
  rw [← h, limbs4_val4 v hw]

theorem wf4_zero : wf4 (0, 0, 0, 0) := by
  simp [wf4]

theorem wf4_one : wf4 (0, 0, 0, 1) := by
  simp [wf4]

theorem mod_ok_zero (fuel x1 x2 x3 x4 y1 y2 y3 y4 : Nat) (r : Limbs4)
    (h : mod fuel x1 x2 x3 x4 y1 y2 y3 y4 = Outcome.ok r) : r = (0, 0, 0, 0) := by
  unfold mod at h
  cases h1 : (if iszero y1 y2 y3 y4 ≠ 0 then invalid else Outcome.ok ()) <;>
    rw [h1] at h <;> simp only [Outcome.andThen] at h
  all_goals try exact Outcome.noConfusion h
  cases h2 : mod_loop1 fuel (x1, x2, x3, x4) (y1, y2, y3, y4) (0, 0, 0, 1) <;>
    rw [h2] at h <;> simp only [Outcome.andThen] at h
  all_goals try exact Outcome.noConfusion h
  rename_i ym
  cases h3 : mod_loop2 fuel (x1, x2, x3, x4) ym.1 ym.2 <;>
    rw [h3] at h <;> simp only [Outcome.andThen] at h
  all_goals try exact Outcome.noConfusion h
  exact (Outcome.ok.inj h).symm

theorem sar_eq_shr (x1 x2 x3 x4 y1 y2 y3 y4 : Nat) :
    sar x1 x2 x3 x4 y1 y2 y3 y4 = shr x1 x2 x3 x4 y1 y2 y3 y4 := by
  have h : i64.and (i64.shl y1 63) 1 = 0 := by
    simp only [i64.and, i64.shl, Nat.and_one_is_mod]
    norm_num
    omega
  simp only [sar, h]
  simp [i64.and, i64.eqz]

/-! ## The claims -/

/-- C1: for 64-bit limbs, `add` returns the four limbs of `(x + y) mod 2^256` (the last
carry is dropped); `add(x, 0) = x`, `add(1, 2) = 3` and `add(2^256 - 1, 1) = 0`. -/
theorem add_correct (x1 x2 x3 x4 y1 y2 y3 y4 : Nat)
    (hx : wf4 (x1, x2, x3, x4)) (hy : wf4 (y1, y2, y3, y4)) :
    add x1 x2 x3 x4 y1 y2 y3 y4 =
      limbs4 ((val4 (x1, x2, x3, x4) + val4 (y1, y2, y3, y4)) % 2 ^ 256) ∧
    add x1 x2 x3 x4 0 0 0 0 = (x1, x2, x3, x4) ∧
    add 0 0 0 1 0 0 0 2 = (0, 0, 0, 3) ∧
    add 0xffffffffffffffff 0xffffffffffffffff 0xffffffffffffffff 0xffffffffffffffff
      0 0 0 1 = (0, 0, 0, 0) := by
  refine ⟨?_, ?_, by decide, by decide⟩
  · obtain ⟨hv, hw⟩ := add_val x1 x2 x3 x4 y1 y2 y3 y4 hx hy
    exact eq_limbs4_of_val _ _ hw hv
  · obtain ⟨hv, hw⟩ := add_val x1 x2 x3 x4 0 0 0 0 hx wf4_zero
    have hlt := val4_lt _ hx
    rw [eq_limbs4_of_val _ _ hw hv]
    have e : (val4 (x1, x2, x3, x4) + val4 (0, 0, 0, 0)) % 2 ^ 256 = val4 (x1, x2, x3, x4) := by
      simp only [val4] at hlt ⊢
      omega
    rw [e, limbs4_val4 _ hx]

theorem add_correct_witness :
    wf4 (1, 2, 3, 4) ∧ wf4 (5, 6, 7, 0xffffffffffffffff) ∧
    add 1 2 3 4 5 6 7 0xffffffffffffffff =
      limbs4 ((val4 (1, 2, 3, 4) + val4 (5, 6, 7, 0xffffffffffffffff)) % 2 ^ 256) ∧
    add 1 2 3 4 0 0 0 0 = (1, 2, 3, 4) ∧
    add 0 0 0 1 0 0 0 2 = (0, 0, 0, 3) ∧
    add 0xffffffffffffffff 0xffffffffffffffff 0xffffffffffffffff 0xffffffffffffffff
      0 0 0 1 = (0, 0, 0, 0) :=
  ⟨by decide, by decide,
    add_correct 1 2 3 4 5 6 7 0xffffffffffffffff (by decide) (by decide)⟩

/-- C2: for 64-bit limbs, `mul` returns the four limbs of `(x * y) mod 2^256`;
`mul(x, 1) = x` and `mul(x, 0) = 0`. -/
theorem mul_correct (x1 x2 x3 x4 y1 y2 y3 y4 : Nat)
    (hx : wf4 (x1, x2, x3, x4)) (hy : wf4 (y1, y2, y3, y4)) :
    mul x1 x2 x3 x4 y1 y2 y3 y4 =
      limbs4 ((val4 (x1, x2, x3, x4) * val4 (y1, y2, y3, y4)) % 2 ^ 256) ∧
    mul x1 x2 x3 x4 0 0 0 1 = (x1, x2, x3, x4) ∧
    mul x1 x2 x3 x4 0 0 0 0 = (0, 0, 0, 0) := by
  have hlt := val4_lt _ hx
  refine ⟨?_, ?_, ?_⟩
  · obtain ⟨hv, hw⟩ := mul_val x1 x2 x3 x4 y1 y2 y3 y4 hx hy
    exact eq_limbs4_of_val _ _ hw hv
  · obtain ⟨hv, hw⟩ := mul_val x1 x2 x3 x4 0 0 0 1 hx wf4_one
    rw [eq_limbs4_of_val _ _ hw hv]
    have e1 : val4 (0, 0, 0, 1) = 1 := by simp [val4]
    rw [e1, Nat.mul_one, Nat.mod_eq_of_lt hlt, limbs4_val4 _ hx]
  · obtain ⟨hv, hw⟩ := mul_val x1 x2 x3 x4 0 0 0 0 hx wf4_zero
    rw [eq_limbs4_of_val _ _ hw hv]
    have e0 : val4 (0, 0, 0, 0) = 0 := by simp [val4]
    rw [e0, Nat.mul_zero]
    decide

theorem mul_correct_witness :
    wf4 (1, 2, 3, 0xffffffffffffffff) ∧ wf4 (5, 6, 7, 0xfffffffffffffffe) ∧
    mul 1 2 3 0xffffffffffffffff 5 6 7 0xfffffffffffffffe =
      limbs4 ((val4 (1, 2, 3, 0xffffffffffffffff) *
        val4 (5, 6, 7, 0xfffffffffffffffe)) % 2 ^ 256) ∧
    mul 1 2 3 0xffffffffffffffff 0 0 0 1 = (1, 2, 3, 0xffffffffffffffff) ∧
    mul 1 2 3 0xffffffffffffffff 0 0 0 0 = (0, 0, 0, 0) :=
  ⟨by decide, by decide,
    mul_correct 1 2 3 0xffffffffffffffff 5 6 7 0xfffffffffffffffe (by decide) (by decide)⟩

/-- C3: for 64-bit limbs, `sub` returns the four limbs of `(x - y) mod 2^256`, which is
the ripple-carry sum `x + (~y + 1)` with `~y` the limb-wise `bit_negate`;
`sub(x, x) = 0`. -/
theorem sub_correct (x1 x2 x3 x4 y1 y2 y3 y4 : Nat)
    (hx : wf4 (x1, x2, x3, x4)) (hy : wf4 (y1, y2, y3, y4)) :
    sub x1 x2 x3 x4 y1 y2 y3 y4 =
      limbs4 ((val4 (x1, x2, x3, x4) + (2 ^ 256 - val4 (y1, y2, y3, y4))) % 2 ^ 256) ∧
    sub x1 x2 x3 x4 y1 y2 y3 y4 =
      limbs4 ((val4 (x1, x2, x3, x4) +
        (val4 (bit_negate y1, bit_negate y2, bit_negate y3, bit_negate y4) + 1)) % 2 ^ 256) ∧
    sub x1 x2 x3 x4 x1 x2 x3 x4 = (0, 0, 0, 0) := by
  have hlt := val4_lt _ hx
  have hlty := val4_lt _ hy
  obtain ⟨hv, hw⟩ := sub_val x1 x2 x3 x4 y1 y2 y3 y4 hx hy
  have h1 := eq_limbs4_of_val _ _ hw hv
  refine ⟨h1, ?_, ?_⟩
  · rw [h1]
    congr 1
    obtain ⟨hy1, hy2, hy3, hy4⟩ := hy
    simp only at hy1 hy2 hy3 hy4
    have n1 := bit_negate_spec y1 hy1
    have n2 := bit_negate_spec y2 hy2
    have n3 := bit_negate_spec y3 hy3
    have n4 := bit_negate_spec y4 hy4
    simp only [val4] at hlt hlty ⊢
    generalize bit_negate y1 = m1 at n1 ⊢
    generalize bit_negate y2 = m2 at n2 ⊢
    generalize bit_negate y3 = m3 at n3 ⊢
    generalize bit_negate y4 = m4 at n4 ⊢
    omega
  · obtain ⟨hv2, hw2⟩ := sub_val x1 x2 x3 x4 x1 x2 x3 x4 hx hx
    rw [eq_limbs4_of_val _ _ hw2 hv2]
    have e : (val4 (x1, x2, x3, x4) + (2 ^ 256 - val4 (x1, x2, x3, x4))) % 2 ^ 256 = 0 := by
      generalize val4 (x1, x2, x3, x4) = X at hlt ⊢
      omega
    rw [e]
    decide

theorem sub_correct_witness :
    wf4 (1, 2, 3, 4) ∧ wf4 (5, 6, 7, 8) ∧
    sub 1 2 3 4 5 6 7 8 =
      limbs4 ((val4 (1, 2, 3, 4) + (2 ^ 256 - val4 (5, 6, 7, 8))) % 2 ^ 256) ∧
    sub 1 2 3 4 5 6 7 8 =
      limbs4 ((val4 (1, 2, 3, 4) +
        (val4 (bit_negate 5, bit_negate 6, bit_negate 7, bit_negate 8) + 1)) % 2 ^ 256) ∧
    sub 1 2 3 4 1 2 3 4 = (0, 0, 0, 0) :=
  ⟨by decide, by decide, sub_correct 1 2 3 4 5 6 7 8 (by decide) (by decide)⟩

/-- C4: `div(10, 2)` returns 1 and not the quotient 5, and `div(10, 1)` returns 1 and
not 10, however much fuel the loops get: `div` passes its divisor (and its mask) to
`shl` and `shr` as the shift amount and the constant 1 as the value to shift. -/
theorem div_ten_by_two (n : Nat) :
    div (n + 2) 0 0 0 10 0 0 0 2 = Outcome.ok (0, 0, 0, 1) ∧
    limbs4 (10 / 2) = (0, 0, 0, 5) ∧
    div (n + 2) 0 0 0 10 0 0 0 1 = Outcome.ok (0, 0, 0, 1) ∧
    limbs4 (10 / 1) = (0, 0, 0, 10) :=
  ⟨rfl, by decide, rfl, by decide⟩

/-- C5: `mod(5, 3)` returns 0 and not the remainder 2, however much fuel above 200 the
loops get: the body of `mod` never assigns its return variables. -/
theorem mod_five_by_three (n : Nat) :
    mod (n + 200) 0 0 0 5 0 0 0 3 = Outcome.ok (0, 0, 0, 0) ∧
    limbs4 (5 % 3) = (0, 0, 0, 2) :=
  ⟨rfl, by decide⟩

/-- C6: with a zero divisor `div` and `mod` trap, for every dividend and whatever the
fuel: both reach `invalid()`, which is `unreachable()`, and return no result;
`div(10, 0)` is an instance. -/
theorem div_mod_zero_trap (fuel x1 x2 x3 x4 : Nat) :
    div fuel x1 x2 x3 x4 0 0 0 0 = Outcome.trap ∧
    mod fuel x1 x2 x3 x4 0 0 0 0 = Outcome.trap ∧
    (∀ r, div fuel x1 x2 x3 x4 0 0 0 0 ≠ Outcome.ok r) ∧
    (∀ r, mod fuel x1 x2 x3 x4 0 0 0 0 ≠ Outcome.ok r) ∧
    invalid = Outcome.trap ∧
    div fuel 0 0 0 10 0 0 0 0 = Outcome.trap :=
  ⟨rfl, rfl, fun _ h => Outcome.noConfusion h, fun _ h => Outcome.noConfusion h, rfl, rfl⟩

/-- C7: `shl(0, 1)` returns the limbs `(0, 0, 1, 1)`, that is `2^64 + 1`, and not
`mul(1, 2^0) = 1`: for an amount that is a multiple of 64 `shl_single` shifts right by
`64 - 0 = 64`, which a 64-bit shift takes as 0. -/
theorem shl_zero_amount :
    shl 0 0 0 0 0 0 0 1 = (0, 0, 1, 1) ∧
    mul 0 0 0 1 0 0 0 1 = (0, 0, 0, 1) ∧
    limbs4 (1 * 2 ^ 0 % 2 ^ 256) = (0, 0, 0, 1) ∧
    shl 0 0 0 64 0 0 0 1 = (0, 1, 1, 0) ∧
    limbs4 (1 * 2 ^ 64 % 2 ^ 256) = (0, 0, 1, 0) := by
  decide

/-- C8: `shr(0, 2^64)` returns the limbs `(0, 0, 1, 1)`, that is `2^64 + 1`, and not
`2^64 / 2^0 = 2^64`: for an amount that is a multiple of 64 `shr_single` shifts left by
`64 - 0 = 64`, which a 64-bit shift takes as 0. -/
theorem shr_zero_amount :
    shr 0 0 0 0 0 0 1 0 = (0, 0, 1, 1) ∧
    limbs4 (2 ^ 64 / 2 ^ 0) = (0, 0, 1, 0) ∧
    shr 0 0 0 64 0 1 0 0 = (0, 0, 1, 1) ∧
    limbs4 (2 ^ 128 / 2 ^ 64) = (0, 0, 1, 0) := by
  decide

/-- C9: for every shift amount above 255, whichever of its limbs is non-zero, `shl` and
`shr` return `(0, 0, 0, 0)`. -/
theorem shl_shr_large_amount (x1 x2 x3 x4 y1 y2 y3 y4 : Nat)
    (h : 255 < val4 (x1, x2, x3, x4)) :
    shl x1 x2 x3 x4 y1 y2 y3 y4 = (0, 0, 0, 0) ∧
    shr x1 x2 x3 x4 y1 y2 y3 y4 = (0, 0, 0, 0) := by
  have hc : x1 ≠ 0 ∨ x2 ≠ 0 ∨ x3 ≠ 0 ∨ 256 ≤ x4 := by
    simp only [val4] at h
    omega
  simp only [shl, shr, i64.and, i64.eqz, i64.lt_u]
  rcases hc with h1 | h1 | h1 | h1
  · simp [h1]
  · simp [h1]
  · simp [h1]
  · have : ¬ x4 < 256 := by omega
    simp [this]

theorem shl_shr_large_amount_witness :
    255 < val4 (0, 1, 0, 3) ∧
    shl 0 1 0 3 5 6 7 8 = (0, 0, 0, 0) ∧ shr 0 1 0 3 5 6 7 8 = (0, 0, 0, 0) :=
  ⟨by decide, shl_shr_large_amount 0 1 0 3 5 6 7 8 (by decide)⟩

/-- C10: `sar(256, 2^256 - 1)` returns `(0, 0, 0, 0)` and not all-ones: the sign test
`i64.and(i64.shl(y1, 63), 1)` is always zero, so `sar` never takes its branch for a
set top bit. -/
theorem sar_negative_large_amount :
    sar 0 0 0 256 0xffffffffffffffff 0xffffffffffffffff 0xffffffffffffffff
      0xffffffffffffffff = (0, 0, 0, 0) ∧
    sar 0 0 0 256 0x8000000000000000 0 0 0 = (0, 0, 0, 0) := by
  decide

/-! ## Lemmas for comparisons and bit operations -/

theorem or_eq_zero_iff (a b : Nat) : a ||| b = 0 ↔ a = 0 ∧ b = 0 := by
  constructor
  · intro h
    have hb : ∀ i, (a.testBit i || b.testBit i) = false := by
      intro i
      rw [← Nat.testBit_or, h]
      simp
    constructor
    · apply Nat.eq_of_testBit_eq
      intro i
      have := hb i
      simp only [Bool.or_eq_false_iff] at this
      simp [this.1]
    · apply Nat.eq_of_testBit_eq
      intro i
      have := hb i
      simp only [Bool.or_eq_false_iff] at this
      simp [this.2]
  · rintro ⟨rfl, rfl⟩
    simp

theorem testBit_high (x i : Nat) (hx : x < 2 ^ 64) (hi : 64 ≤ i) : x.testBit i = false :=
  Nat.testBit_lt_two_pow (Nat.lt_of_lt_of_le hx (Nat.pow_le_pow_right (by omega) hi))

theorem or_not_limb (x : Nat) (hx : x < 2 ^ 64) :
    x ||| (x ^^^ 0xffffffffffffffff) = 0xffffffffffffffff := by
  have e : (0xffffffffffffffff : Nat) = 2 ^ 64 - 1 := by norm_num
  rw [e]
  apply Nat.eq_of_testBit_eq
  intro i
  simp only [Nat.testBit_or, Nat.testBit_xor, Nat.testBit_two_pow_sub_one]
  by_cases hi : i < 64
  · simp [hi]
  · have := testBit_high x i hx (by omega)
    simp [hi, this]

theorem and_not_limb (x : Nat) (hx : x < 2 ^ 64) :
    x &&& (x ^^^ 0xffffffffffffffff) = 0 := by
  have e : (0xffffffffffffffff : Nat) = 2 ^ 64 - 1 := by norm_num
  rw [e]
  apply Nat.eq_of_testBit_eq
  intro i
  simp only [Nat.testBit_and, Nat.testBit_xor, Nat.testBit_two_pow_sub_one]
  by_cases hi : i < 64
  · simp [hi]
  · have := testBit_high x i hx (by omega)
    simp [hi, this]

theorem cmp_spec (a b : Nat) :
    cmp a b = if a < b then 0xffffffffffffffff else if a = b then 0 else 1 := by
  unfold cmp i64.lt_u i64.ne
  by_cases h1 : a < b
  · simp [h1]
  · by_cases h2 : a = b
    · simp [h2]
    · simp [h1, h2]

theorem lt_256x256_64_spec (x1 x2 x3 x4 y1 y2 y3 y4 : Nat) :
    lt_256x256_64 x1 x2 x3 x4 y1 y2 y3 y4 =
      if x1 = y1 then
        if x2 = y2 then
          if x3 = y3 then (if x4 < y4 then 1 else 0)
          else if x3 < y3 then 1 else 0
        else if x2 < y2 then 1 else 0
      else if x1 < y1 then 1 else 0 := by
  have key : ∀ a b : Nat, (cmp a b = 0 ↔ a = b) ∧ (cmp a b = 1 ↔ b < a) := by
    intro a b
    rw [cmp_spec]
    by_cases h1 : a < b
    · simp [h1]; omega
    · by_cases h2 : a = b
      · simp [h2]
      · simp [h1, h2]; omega
  unfold lt_256x256_64 i64.lt_u
  simp only [(key x1 y1).1, (key x1 y1).2, (key x2 y2).1, (key x2 y2).2, (key x3 y3).1,
    (key x3 y3).2]
  split_ifs <;> first | rfl | omega

theorem lt_256x256_64_val (x1 x2 x3 x4 y1 y2 y3 y4 : Nat)
    (hx : wf4 (x1, x2, x3, x4)) (hy : wf4 (y1, y2, y3, y4)) :
    lt_256x256_64 x1 x2 x3 x4 y1 y2 y3 y4 =
      if val4 (x1, x2, x3, x4) < val4 (y1, y2, y3, y4) then 1 else 0 := by
  obtain ⟨hx1, hx2, hx3, hx4⟩ := hx
  obtain ⟨hy1, hy2, hy3, hy4⟩ := hy
  simp only at hx1 hx2 hx3 hx4 hy1 hy2 hy3 hy4
  rw [lt_256x256_64_spec]
  simp only [val4]
  split_ifs <;> first | rfl | omega

theorem testBit_low63 (x : Nat) (hx : x < 2 ^ 63) : x.testBit 63 = false :=
  Nat.testBit_lt_two_pow hx

theorem flip63_spec (x : Nat) (hx : x < 2 ^ 64) :
    i64.add x 0x8000000000000000 = x ^^^ 2 ^ 63 := by
  have e : (0x8000000000000000 : Nat) = 2 ^ 63 := by norm_num
  rw [e]
  unfold i64.add
  by_cases h : x < 2 ^ 63
  · have h1 : (x + 2 ^ 63) % 2 ^ 64 = 2 ^ 63 * 1 + x := by omega
    rw [h1, Nat.mul_add_lt_is_or h 1]
    apply Nat.eq_of_testBit_eq
    intro i
    simp only [Nat.testBit_or, Nat.testBit_xor, Nat.mul_one, Nat.testBit_two_pow]
    by_cases hi : 63 = i
    · subst hi
      simp [testBit_low63 x h]
    · simp [hi]
  · have hl : x - 2 ^ 63 < 2 ^ 63 := by omega
    have h1 : (x + 2 ^ 63) % 2 ^ 64 = x - 2 ^ 63 := by omega
    have h2 : x = 2 ^ 63 * 1 + (x - 2 ^ 63) := by omega
    rw [h1]
    conv_rhs => rw [h2, Nat.mul_add_lt_is_or hl 1]
    generalize x - 2 ^ 63 = l at hl
    apply Nat.eq_of_testBit_eq
    intro i
    simp only [Nat.testBit_or, Nat.testBit_xor, Nat.mul_one, Nat.testBit_two_pow]
    by_cases hi : 63 = i
    · subst hi
      simp [testBit_low63 l hl]
    · simp [hi]

theorem flip63_arith (x : Nat) (hx : x < 2 ^ 64) :
    i64.add x 0x8000000000000000 = if x < 2 ^ 63 then x + 2 ^ 63 else x - 2 ^ 63 := by
  unfold i64.add
  split_ifs <;> omega

/-! ## The claims, continued -/

/-- C11: for 64-bit limbs, `lt(x, y)` is `(0, 0, 0, 1)` if `x < y` as unsigned 256-bit
numbers and `(0, 0, 0, 0)` otherwise; `lt_256x256_64` decides it on the first limb
pair, from limb 1 to limb 4, that differs, and `cmp(a, b)` is `0xFFFFFFFFFFFFFFFF`,
`0` or `1` for `a < b`, `a = b`, `a > b`. -/
theorem lt_correct (x1 x2 x3 x4 y1 y2 y3 y4 : Nat)
    (hx : wf4 (x1, x2, x3, x4)) (hy : wf4 (y1, y2, y3, y4)) :
    lt x1 x2 x3 x4 y1 y2 y3 y4 =
      (if val4 (x1, x2, x3, x4) < val4 (y1, y2, y3, y4) then (0, 0, 0, 1) else (0, 0, 0, 0)) ∧
    lt_256x256_64 x1 x2 x3 x4 y1 y2 y3 y4 =
      (if x1 = y1 then
        if x2 = y2 then
          if x3 = y3 then (if x4 < y4 then 1 else 0)
          else if x3 < y3 then 1 else 0
        else if x2 < y2 then 1 else 0
      else if x1 < y1 then 1 else 0) ∧
    (∀ a b : Nat, cmp a b =
      if a < b then 0xffffffffffffffff else if a = b then 0 else 1) := by
  refine ⟨?_, ?_, cmp_spec⟩
  · unfold lt
    rw [lt_256x256_64_val _ _ _ _ _ _ _ _ hx hy]
    split_ifs <;> rfl
  · exact lt_256x256_64_spec x1 x2 x3 x4 y1 y2 y3 y4

theorem lt_correct_witness :
    wf4 (1, 2, 3, 4) ∧ wf4 (1, 2, 5, 0) ∧
    lt 1 2 3 4 1 2 5 0 =
      (if val4 (1, 2, 3, 4) < val4 (1, 2, 5, 0) then (0, 0, 0, 1) else (0, 0, 0, 0)) ∧
    lt_256x256_64 1 2 3 4 1 2 5 0 =
      (if 1 = 1 then
        if 2 = 2 then
          if 3 = 5 then (if 4 < 0 then 1 else 0)
          else if 3 < 5 then 1 else 0
        else if 2 < 2 then 1 else 0
      else if 1 < 1 then 1 else 0) ∧
    (∀ a b : Nat, cmp a b =
      if a < b then 0xffffffffffffffff else if a = b then 0 else 1) :=
  ⟨by decide, by decide, lt_correct 1 2 3 4 1 2 5 0 (by decide) (by decide)⟩

/-- C12: `eq(x, y)` is `(0, 0, 0, 1)` exactly when the four limbs of `x` and `y` are
pairwise equal, and `(0, 0, 0, 0)` otherwise. -/
theorem eq_correct (x1 x2 x3 x4 y1 y2 y3 y4 : Nat) :
    (eq x1 x2 x3 x4 y1 y2 y3 y4 = (0, 0, 0, 1) ↔ (x1, x2, x3, x4) = (y1, y2, y3, y4)) ∧
    (eq x1 x2 x3 x4 y1 y2 y3 y4 = (0, 0, 0, 0) ↔ (x1, x2, x3, x4) ≠ (y1, y2, y3, y4)) ∧
    eq x1 x2 x3 x4 y1 y2 y3 y4 =
      (if (x1, x2, x3, x4) = (y1, y2, y3, y4) then (0, 0, 0, 1) else (0, 0, 0, 0)) := by
  have h : eq x1 x2 x3 x4 y1 y2 y3 y4 =
      (if (x1, x2, x3, x4) = (y1, y2, y3, y4) then (0, 0, 0, 1) else (0, 0, 0, 0)) := by
    unfold eq i64.eq
    simp only [Prod.mk.injEq]
    split_ifs <;> simp_all
  refine ⟨?_, ?_, h⟩
  · rw [h]
    by_cases hc : (x1, x2, x3, x4) = (y1, y2, y3, y4)
    · rw [if_pos hc]
      exact ⟨fun _ => hc, fun _ => rfl⟩
    · rw [if_neg hc]
      exact ⟨fun h0 => absurd h0 (by decide), fun h1 => absurd h1 hc⟩
  · rw [h]
    by_cases hc : (x1, x2, x3, x4) = (y1, y2, y3, y4)
    · rw [if_pos hc]
      exact ⟨fun h0 => absurd h0 (by decide), fun h1 => absurd hc h1⟩
    · rw [if_neg hc]
      exact ⟨fun _ => hc, fun _ => rfl⟩

theorem wf4_flip (x1 x2 x3 x4 : Nat) (hx : wf4 (x1, x2, x3, x4)) :
    wf4 (i64.add x1 0x8000000000000000, x2, x3, x4) := by
  obtain ⟨h1, h2, h3, h4⟩ := hx
  refine ⟨?_, h2, h3, h4⟩
  simp only [i64.add]
  omega

theorem val4_flip (x1 x2 x3 x4 : Nat) (hx : wf4 (x1, x2, x3, x4)) :
    (val4 (i64.add x1 0x8000000000000000, x2, x3, x4) : Int) =
      sval4 (x1, x2, x3, x4) + 2 ^ 255 := by
  obtain ⟨h1, h2, h3, h4⟩ := hx
  simp only at h1 h2 h3 h4
  simp only [sval4, val4, i64.add]
  split_ifs <;> omega

/-- C13: for 64-bit limbs read as two's-complement numbers, `slt(x, y)` is `(0, 0, 0, 1)`
exactly when `x < y` as signed integers and `(0, 0, 0, 0)` otherwise, `sgt(x, y)` is
`slt(y, x)`, and `slt` is the unsigned `lt` of the operands with bit 63 of limb 1
flipped. -/
theorem slt_correct (x1 x2 x3 x4 y1 y2 y3 y4 : Nat)
    (hx : wf4 (x1, x2, x3, x4)) (hy : wf4 (y1, y2, y3, y4)) :
    slt x1 x2 x3 x4 y1 y2 y3 y4 =
      (if sval4 (x1, x2, x3, x4) < sval4 (y1, y2, y3, y4) then (0, 0, 0, 1)
        else (0, 0, 0, 0)) ∧
    sgt x1 x2 x3 x4 y1 y2 y3 y4 = slt y1 y2 y3 y4 x1 x2 x3 x4 ∧
    sgt x1 x2 x3 x4 y1 y2 y3 y4 =
      (if sval4 (y1, y2, y3, y4) < sval4 (x1, x2, x3, x4) then (0, 0, 0, 1)
        else (0, 0, 0, 0)) ∧
    slt x1 x2 x3 x4 y1 y2 y3 y4 =
      lt (x1 ^^^ 2 ^ 63) x2 x3 x4 (y1 ^^^ 2 ^ 63) y2 y3 y4 := by
  have key : ∀ a1 a2 a3 a4 b1 b2 b3 b4 : Nat, wf4 (a1, a2, a3, a4) → wf4 (b1, b2, b3, b4) →
      slt a1 a2 a3 a4 b1 b2 b3 b4 =
        (if sval4 (a1, a2, a3, a4) < sval4 (b1, b2, b3, b4) then (0, 0, 0, 1)
          else (0, 0, 0, 0)) := by
    intro a1 a2 a3 a4 b1 b2 b3 b4 ha hb
    have va := val4_flip a1 a2 a3 a4 ha
    have vb := val4_flip b1 b2 b3 b4 hb
    unfold slt lt
    simp only
    rw [lt_256x256_64_val _ _ _ _ _ _ _ _ (wf4_flip _ _ _ _ ha) (wf4_flip _ _ _ _ hb)]
    generalize val4 (i64.add a1 0x8000000000000000, a2, a3, a4) = A at va ⊢
    generalize val4 (i64.add b1 0x8000000000000000, b2, b3, b4) = B at vb ⊢
    generalize sval4 (a1, a2, a3, a4) = SA at va ⊢
    generalize sval4 (b1, b2, b3, b4) = SB at vb ⊢
    by_cases h : SA < SB
    · have h2 : A < B := by omega
      rw [if_pos h, if_pos h2]
    · have h2 : ¬ A < B := by omega
      rw [if_neg h, if_neg h2]
  refine ⟨key _ _ _ _ _ _ _ _ hx hy, rfl, ?_, ?_⟩
  · unfold sgt
    exact key _ _ _ _ _ _ _ _ hy hx
  · unfold slt
    simp only
    rw [flip63_spec x1 hx.1, flip63_spec y1 hy.1]

theorem slt_correct_witness :
    wf4 (0xffffffffffffffff, 2, 3, 4) ∧ wf4 (0, 0, 0, 1) ∧
    slt 0xffffffffffffffff 2 3 4 0 0 0 1 =
      (if sval4 (0xffffffffffffffff, 2, 3, 4) < sval4 (0, 0, 0, 1) then (0, 0, 0, 1)
        else (0, 0, 0, 0)) ∧
    sgt 0xffffffffffffffff 2 3 4 0 0 0 1 = slt 0 0 0 1 0xffffffffffffffff 2 3 4 ∧
    sgt 0xffffffffffffffff 2 3 4 0 0 0 1 =
      (if sval4 (0, 0, 0, 1) < sval4 (0xffffffffffffffff, 2, 3, 4) then (0, 0, 0, 1)
        else (0, 0, 0, 0)) ∧
    slt 0xffffffffffffffff 2 3 4 0 0 0 1 =
      lt (0xffffffffffffffff ^^^ 2 ^ 63) 2 3 4 (0 ^^^ 2 ^ 63) 0 0 1 :=
  ⟨by decide, by decide,
    slt_correct 0xffffffffffffffff 2 3 4 0 0 0 1 (by decide) (by decide)⟩

/-- C14: for 64-bit limbs, `or(x, not(x))` is all-ones (`2^256 - 1`), `and(x, not(x))`
is zero and `xor(x, x)` is zero. -/
theorem complement_laws (x1 x2 x3 x4 : Nat) (hx : wf4 (x1, x2, x3, x4)) :
    or x1 x2 x3 x4 (not x1 x2 x3 x4).1 (not x1 x2 x3 x4).2.1 (not x1 x2 x3 x4).2.2.1
        (not x1 x2 x3 x4).2.2.2 =
      (0xffffffffffffffff, 0xffffffffffffffff, 0xffffffffffffffff, 0xffffffffffffffff) ∧
    val4 (or x1 x2 x3 x4 (not x1 x2 x3 x4).1 (not x1 x2 x3 x4).2.1 (not x1 x2 x3 x4).2.2.1
        (not x1 x2 x3 x4).2.2.2) = 2 ^ 256 - 1 ∧
    and x1 x2 x3 x4 (not x1 x2 x3 x4).1 (not x1 x2 x3 x4).2.1 (not x1 x2 x3 x4).2.2.1
        (not x1 x2 x3 x4).2.2.2 = (0, 0, 0, 0) ∧
    xor x1 x2 x3 x4 x1 x2 x3 x4 = (0, 0, 0, 0) := by
  obtain ⟨h1, h2, h3, h4⟩ := hx
  simp only at h1 h2 h3 h4
  have hor : or x1 x2 x3 x4 (not x1 x2 x3 x4).1 (not x1 x2 x3 x4).2.1
      (not x1 x2 x3 x4).2.2.1 (not x1 x2 x3 x4).2.2.2 =
      (0xffffffffffffffff, 0xffffffffffffffff, 0xffffffffffffffff, 0xffffffffffffffff) := by
    simp only [or, not, xor, i64.or, i64.xor]
    rw [or_not_limb x1 h1, or_not_limb x2 h2, or_not_limb x3 h3, or_not_limb x4 h4]
  refine ⟨hor, ?_, ?_, ?_⟩
  · rw [hor]
    decide
  · simp only [and, not, xor, i64.and, i64.xor]
    rw [and_not_limb x1 h1, and_not_limb x2 h2, and_not_limb x3 h3, and_not_limb x4 h4]
  · simp only [xor, i64.xor, Nat.xor_self]

theorem complement_laws_witness :
    wf4 (1, 2, 3, 0xffffffffffffffff) ∧
    or 1 2 3 0xffffffffffffffff (not 1 2 3 0xffffffffffffffff).1
        (not 1 2 3 0xffffffffffffffff).2.1 (not 1 2 3 0xffffffffffffffff).2.2.1
        (not 1 2 3 0xffffffffffffffff).2.2.2 =
      (0xffffffffffffffff, 0xffffffffffffffff, 0xffffffffffffffff, 0xffffffffffffffff) ∧
    val4 (or 1 2 3 0xffffffffffffffff (not 1 2 3 0xffffffffffffffff).1
        (not 1 2 3 0xffffffffffffffff).2.1 (not 1 2 3 0xffffffffffffffff).2.2.1
        (not 1 2 3 0xffffffffffffffff).2.2.2) = 2 ^ 256 - 1 ∧
    and 1 2 3 0xffffffffffffffff (not 1 2 3 0xffffffffffffffff).1
        (not 1 2 3 0xffffffffffffffff).2.1 (not 1 2 3 0xffffffffffffffff).2.2.1
        (not 1 2 3 0xffffffffffffffff).2.2.2 = (0, 0, 0, 0) ∧
    xor 1 2 3 0xffffffffffffffff 1 2 3 0xffffffffffffffff = (0, 0, 0, 0) :=
  ⟨by decide, complement_laws 1 2 3 0xffffffffffffffff (by decide)⟩

theorem ne_zero_or (a b : Nat) : i64.ne 0 (i64.or a b) = if a = 0 ∧ b = 0 then 0 else 1 := by
  unfold i64.ne i64.or
  by_cases h : a = 0 ∧ b = 0
  · rw [if_pos h, if_pos ((or_eq_zero_iff a b).2 h).symm]
  · rw [if_neg h, if_neg (fun e => h ((or_eq_zero_iff a b).1 e.symm))]

theorem ne_zero_or3 (a b c : Nat) :
    i64.ne 0 (i64.or (i64.or a b) c) = if a = 0 ∧ b = 0 ∧ c = 0 then 0 else 1 := by
  rw [ne_zero_or]
  simp only [i64.or, or_eq_zero_iff, and_assoc]

theorem ne_zero_shr (x k : Nat) (hk : k < 64) :
    i64.ne 0 (i64.shr_u x k) = if x < 2 ^ k then 0 else 1 := by
  unfold i64.ne i64.shr_u
  rw [Nat.mod_eq_of_lt hk]
  have hpos : 0 < 2 ^ k := Nat.pow_pos (by norm_num)
  by_cases h : x < 2 ^ k
  · rw [if_pos h, if_pos (Nat.div_eq_of_lt h).symm]
  · rw [if_neg h, if_neg]
    intro e
    have := (Nat.div_eq_zero_iff hpos).1 e.symm
    exact h this

theorem guard_spec (P : Prop) [Decidable P] :
    (if (if P then 0 else 1 : Nat) ≠ 0 then invalid else Outcome.ok ()) =
      if P then Outcome.ok () else Outcome.trap := by
  by_cases h : P
  · simp [h]
  · simp [h, invalid, unreachable]

theorem u256_to_i64_spec (x1 x2 x3 x4 : Nat) (hx : wf4 (x1, x2, x3, x4)) :
    u256_to_i64 x1 x2 x3 x4 =
      if val4 (x1, x2, x3, x4) < 2 ^ 64 then Outcome.ok (val4 (x1, x2, x3, x4))
      else Outcome.trap := by
  obtain ⟨h1, h2, h3, h4⟩ := hx
  simp only at h1 h2 h3 h4
  unfold u256_to_i64
  rw [ne_zero_or3, guard_spec]
  by_cases h : x1 = 0 ∧ x2 = 0 ∧ x3 = 0
  · have hv : val4 (x1, x2, x3, x4) = x4 := by
      obtain ⟨rfl, rfl, rfl⟩ := h
      simp only [val4]
      omega
    rw [if_pos h, hv, if_pos h4]
    rfl
  · have h5 : ¬ val4 (x1, x2, x3, x4) < 2 ^ 64 := by
      simp only [val4]
      omega
    rw [if_neg h, if_neg h5]
    rfl

theorem u256_to_i32_spec (x1 x2 x3 x4 : Nat) (hx : wf4 (x1, x2, x3, x4)) :
    u256_to_i32 x1 x2 x3 x4 =
      if val4 (x1, x2, x3, x4) < 2 ^ 32 then Outcome.ok (val4 (x1, x2, x3, x4))
      else Outcome.trap := by
  obtain ⟨h1, h2, h3, h4⟩ := hx
  simp only at h1 h2 h3 h4
  unfold u256_to_i32
  rw [ne_zero_or3, ne_zero_shr x4 32 (by norm_num), guard_spec, guard_spec]
  by_cases h : x1 = 0 ∧ x2 = 0 ∧ x3 = 0
  · have hv : val4 (x1, x2, x3, x4) = x4 := by
      obtain ⟨rfl, rfl, rfl⟩ := h
      simp only [val4]
      omega
    rw [if_pos h, hv]
    by_cases h6 : x4 < 2 ^ 32
    · rw [if_pos h6, if_pos h6]
      rfl
    · rw [if_neg h6, if_neg h6]
      rfl
  · have h5 : ¬ val4 (x1, x2, x3, x4) < 2 ^ 32 := by
      simp only [val4]
      omega
    rw [if_neg h, if_neg h5]
    rfl

theorem u256_to_byte_spec (x1 x2 x3 x4 : Nat) (hx : wf4 (x1, x2, x3, x4)) :
    u256_to_byte x1 x2 x3 x4 =
      if val4 (x1, x2, x3, x4) < 2 ^ 56 then Outcome.ok (val4 (x1, x2, x3, x4))
      else Outcome.trap := by
  obtain ⟨h1, h2, h3, h4⟩ := hx
  simp only at h1 h2 h3 h4
  unfold u256_to_byte
  rw [ne_zero_or3, ne_zero_shr x4 56 (by norm_num), guard_spec, guard_spec]
  by_cases h : x1 = 0 ∧ x2 = 0 ∧ x3 = 0
  · have hv : val4 (x1, x2, x3, x4) = x4 := by
      obtain ⟨rfl, rfl, rfl⟩ := h
      simp only [val4]
      omega
    rw [if_pos h, hv]
    by_cases h6 : x4 < 2 ^ 56
    · rw [if_pos h6, if_pos h6]
      rfl
    · rw [if_neg h6, if_neg h6]
      rfl
  · have h5 : ¬ val4 (x1, x2, x3, x4) < 2 ^ 56 := by
      simp only [val4]
      omega
    rw [if_neg h, if_neg h5]
    rfl

theorem u256_to_i128_spec (x1 x2 x3 x4 : Nat) (hx : wf4 (x1, x2, x3, x4)) :
    u256_to_i128 x1 x2 x3 x4 =
      if val4 (x1, x2, x3, x4) < 2 ^ 128 then Outcome.ok (x3, x4) else Outcome.trap := by
  obtain ⟨h1, h2, h3, h4⟩ := hx
  simp only at h1 h2 h3 h4
  unfold u256_to_i128
  rw [ne_zero_or, guard_spec]
  by_cases h : x1 = 0 ∧ x2 = 0
  · have h5 : val4 (x1, x2, x3, x4) < 2 ^ 128 := by
      obtain ⟨rfl, rfl⟩ := h
      simp only [val4]
      omega
    rw [if_pos h, if_pos h5]
    rfl
  · have h5 : ¬ val4 (x1, x2, x3, x4) < 2 ^ 128 := by
      simp only [val4]
      omega
    rw [if_neg h, if_neg h5]
    rfl

/-- C18: for 64-bit limbs, `u256_to_i64`, `u256_to_i32`, `u256_to_i32ptr` and
`u256_to_i128` trap exactly when the argument is at least `2^64`, `2^32`, `2^32` and
`2^128`, and otherwise return it unchanged (limb 4, or limbs 3 and 4). -/
theorem narrowing_correct (x1 x2 x3 x4 : Nat) (hx : wf4 (x1, x2, x3, x4)) :
    (u256_to_i64 x1 x2 x3 x4 = Outcome.trap ↔ 2 ^ 64 ≤ val4 (x1, x2, x3, x4)) ∧
    u256_to_i64 x1 x2 x3 x4 =
      (if val4 (x1, x2, x3, x4) < 2 ^ 64 then Outcome.ok x4 else Outcome.trap) ∧
    (u256_to_i32 x1 x2 x3 x4 = Outcome.trap ↔ 2 ^ 32 ≤ val4 (x1, x2, x3, x4)) ∧
    u256_to_i32 x1 x2 x3 x4 =
      (if val4 (x1, x2, x3, x4) < 2 ^ 32 then Outcome.ok x4 else Outcome.trap) ∧
    u256_to_i32ptr x1 x2 x3 x4 = u256_to_i32 x1 x2 x3 x4 ∧
    (u256_to_i128 x1 x2 x3 x4 = Outcome.trap ↔ 2 ^ 128 ≤ val4 (x1, x2, x3, x4)) ∧
    u256_to_i128 x1 x2 x3 x4 =
      (if val4 (x1, x2, x3, x4) < 2 ^ 128 then Outcome.ok (x3, x4) else Outcome.trap) ∧
    x4 = val4 (x1, x2, x3, x4) % 2 ^ 64 ∧
    x3 * 2 ^ 64 + x4 = val4 (x1, x2, x3, x4) % 2 ^ 128 := by
  have e64 := u256_to_i64_spec x1 x2 x3 x4 hx
  have e32 := u256_to_i32_spec x1 x2 x3 x4 hx
  have e128 := u256_to_i128_spec x1 x2 x3 x4 hx
  obtain ⟨h1, h2, h3, h4⟩ := hx
  simp only at h1 h2 h3 h4
  have hv4 : x4 = val4 (x1, x2, x3, x4) % 2 ^ 64 := by
    simp only [val4]
    omega
  have hv34 : x3 * 2 ^ 64 + x4 = val4 (x1, x2, x3, x4) % 2 ^ 128 := by
    simp only [val4]
    omega
  have hfit : ∀ k : Nat, val4 (x1, x2, x3, x4) < 2 ^ k → k ≤ 64 →
      val4 (x1, x2, x3, x4) = x4 := by
    intro k hk hk64
    have : val4 (x1, x2, x3, x4) < 2 ^ 64 :=
      Nat.lt_of_lt_of_le hk (Nat.pow_le_pow_right (by norm_num) hk64)
    exact ((Nat.mod_eq_of_lt this).symm.trans hv4.symm)
  refine ⟨?_, ?_, ?_, ?_, rfl, ?_, e128, hv4, hv34⟩
  · rw [e64]
    by_cases h : val4 (x1, x2, x3, x4) < 2 ^ 64
    · rw [if_pos h]
      exact ⟨fun e => Outcome.noConfusion e, fun e => absurd h (by omega)⟩
    · rw [if_neg h]
      exact ⟨fun _ => by omega, fun _ => rfl⟩
  · rw [e64]
    by_cases h : val4 (x1, x2, x3, x4) < 2 ^ 64
    · rw [if_pos h, if_pos h, hfit 64 h (by norm_num)]
    · rw [if_neg h, if_neg h]
  · rw [e32]
    by_cases h : val4 (x1, x2, x3, x4) < 2 ^ 32
    · rw [if_pos h]
      exact ⟨fun e => Outcome.noConfusion e, fun e => absurd h (by omega)⟩
    · rw [if_neg h]
      exact ⟨fun _ => by omega, fun _ => rfl⟩
  · rw [e32]
    by_cases h : val4 (x1, x2, x3, x4) < 2 ^ 32
    · rw [if_pos h, if_pos h, hfit 32 h (by norm_num)]
    · rw [if_neg h, if_neg h]
  · rw [e128]
    by_cases h : val4 (x1, x2, x3, x4) < 2 ^ 128
    · rw [if_pos h]
      exact ⟨fun e => Outcome.noConfusion e, fun e => absurd h (by omega)⟩
    · rw [if_neg h]
      exact ⟨fun _ => by omega, fun _ => rfl⟩

theorem narrowing_correct_witness :
    wf4 (0, 0, 0, 9) ∧
    (u256_to_i64 0 0 0 9 = Outcome.trap ↔ 2 ^ 64 ≤ val4 (0, 0, 0, 9)) ∧
    u256_to_i64 0 0 0 9 =
      (if val4 (0, 0, 0, 9) < 2 ^ 64 then Outcome.ok 9 else Outcome.trap) ∧
    (u256_to_i32 0 0 0 9 = Outcome.trap ↔ 2 ^ 32 ≤ val4 (0, 0, 0, 9)) ∧
    u256_to_i32 0 0 0 9 =
      (if val4 (0, 0, 0, 9) < 2 ^ 32 then Outcome.ok 9 else Outcome.trap) ∧
    u256_to_i32ptr 0 0 0 9 = u256_to_i32 0 0 0 9 ∧
    (u256_to_i128 0 0 0 9 = Outcome.trap ↔ 2 ^ 128 ≤ val4 (0, 0, 0, 9)) ∧
    u256_to_i128 0 0 0 9 =
      (if val4 (0, 0, 0, 9) < 2 ^ 128 then Outcome.ok (0, 9) else Outcome.trap) ∧
    9 = val4 (0, 0, 0, 9) % 2 ^ 64 ∧
    0 * 2 ^ 64 + 9 = val4 (0, 0, 0, 9) % 2 ^ 128 :=
  ⟨by decide, narrowing_correct 0 0 0 9 (by decide)⟩

/-- C15: `addmod(1, 1)` returns 0 although `(1 + 1) mod 3 = 2`, and `addmod(5, 3)`
returns 0 although `(5 + 3) mod 3 = 2`: the polyfill `addmod` has eight parameters
and no modulus, and `mod320` never assigns its return variables. -/
theorem addmod_returns_zero (n : Nat) :
    addmod (n + 300) 0 0 0 1 0 0 0 1 = Outcome.ok (0, 0, 0, 0) ∧
    limbs4 ((1 + 1) % 3) = (0, 0, 0, 2) ∧
    addmod (n + 300) 0 0 0 5 0 0 0 3 = Outcome.ok (0, 0, 0, 0) ∧
    limbs4 ((5 + 3) % 3) = (0, 0, 0, 2) :=
  ⟨rfl, by decide, rfl, by decide⟩

/-- C16: `mulmod(2, 3)` returns 0 although `(2 * 3) mod 5 = 1`, and `mulmod(7, 5)`
returns 0 although `(7 * 5) mod 3 = 2`: the polyfill `mulmod` has eight parameters
and no modulus, and `mod512` never assigns its return variables. -/
theorem mulmod_returns_zero (n : Nat) :
    mulmod (n + 500) 0 0 0 2 0 0 0 3 = Outcome.ok (0, 0, 0, 0) ∧
    limbs4 ((2 * 3) % 5) = (0, 0, 0, 1) ∧
    mulmod (n + 500) 0 0 0 7 0 0 0 5 = Outcome.ok (0, 0, 0, 0) ∧
    limbs4 ((7 * 5) % 3) = (0, 0, 0, 2) :=
  ⟨rfl, by decide, rfl, by decide⟩

/-- C17: `signextend(31, 255)` returns 0 and not 255, and `signextend(0, 0x80)` returns
0 and not `2^256 - 128`: `signextend` never reads its first four parameters, takes the
byte index from limb 4 of the value, and returns zero when that limb is 31 or more. -/
theorem signextend_examples :
    signextend 0 0 0 31 0 0 0 255 = (0, 0, 0, 0) ∧
    signextend 0 0 0 0 0 0 0 0x80 = (0, 0, 0, 0) ∧
    limbs4 (2 ^ 256 - 128) =
      (0xffffffffffffffff, 0xffffffffffffffff, 0xffffffffffffffff, 0xffffffffffffff80) ∧
    signextend 0 0 0 0 0 0 0 5 = (0, 0, 0, 0) ∧
    (∀ k1 k2 k3 k4 y1 y2 y3 y4 : Nat,
      signextend k1 k2 k3 k4 y1 y2 y3 y4 = signextend 0 0 0 0 y1 y2 y3 y4) :=
  ⟨by decide, by decide, by decide, by decide, fun _ _ _ _ _ _ _ _ => rfl⟩

/-- C19: `u256_to_byte(256)` returns 256 and does not trap: the second check of
`u256_to_byte` shifts limb 4 right by 56, so it traps only from `2^56` on. -/
theorem u256_to_byte_256 :
    u256_to_byte 0 0 0 256 = Outcome.ok 256 ∧
    u256_to_byte 0 0 0 0xffffffffffffff = Outcome.ok 0xffffffffffffff ∧
    u256_to_byte 0 0 0 0x100000000000000 = Outcome.trap := by
  decide

/-! ## Lemmas for the memory layout -/

theorem and_mul_two_pow (i a b : Nat) : (2 ^ i * a) &&& (2 ^ i * b) = 2 ^ i * (a &&& b) := by
  apply Nat.eq_of_testBit_eq
  intro j
  simp only [Nat.testBit_and, Nat.testBit_mul_pow_two]
  cases decide (j ≥ i) <;> simp

theorem endian_swap_16_spec (x : Nat) :
    endian_swap_16 x = 2 ^ 8 * (x % 256) + x / 256 % 256 := by
  unfold endian_swap_16 i64.and i64.or i64.shl i64.shr_u
  have e1 : (x * 2 ^ (8 % 64)) % 2 ^ 64 = 2 ^ 8 * (x % 2 ^ 56) := by
    norm_num
    omega
  have e2 : (0xff00 : Nat) = 2 ^ 8 * (2 ^ 8 - 1) := by norm_num
  have e3 : (0xff : Nat) = 2 ^ 8 - 1 := by norm_num
  have e4 : x / 2 ^ (8 % 64) = x / 256 := by norm_num
  simp only []
  rw [e1, e2, and_mul_two_pow, e3, Nat.and_pow_two_sub_one_eq_mod, e4,
    Nat.and_pow_two_sub_one_eq_mod]
  have e5 : x % 2 ^ 56 % 2 ^ 8 = x % 256 := by omega
  have e6 : x / 256 % 2 ^ 8 = x / 256 % 256 := by norm_num
  rw [e5, e6]
  exact (Nat.mul_add_lt_is_or (Nat.mod_lt _ (by norm_num)) _).symm

theorem endian_swap_16_lt (x : Nat) : endian_swap_16 x < 2 ^ 16 := by
  rw [endian_swap_16_spec]
  omega

theorem endian_swap_32_spec (x : Nat) :
    endian_swap_32 x = 2 ^ 16 * endian_swap_16 x + endian_swap_16 (x / 2 ^ 16) := by
  unfold endian_swap_32 i64.or i64.shl i64.shr_u
  have h1 := endian_swap_16_lt x
  have e1 : (endian_swap_16 x * 2 ^ (16 % 64)) % 2 ^ 64 = 2 ^ 16 * endian_swap_16 x := by
    norm_num
    omega
  have e2 : x / 2 ^ (16 % 64) = x / 2 ^ 16 := by norm_num
  simp only []
  rw [e1, e2]
  exact (Nat.mul_add_lt_is_or (endian_swap_16_lt _) _).symm

theorem endian_swap_32_lt (x : Nat) : endian_swap_32 x < 2 ^ 32 := by
  rw [endian_swap_32_spec]
  have h1 := endian_swap_16_lt x
  have h2 := endian_swap_16_lt (x / 2 ^ 16)
  omega

theorem endian_swap_spec (x : Nat) :
    endian_swap x = 2 ^ 32 * endian_swap_32 x + endian_swap_32 (x / 2 ^ 32) := by
  unfold endian_swap i64.or i64.shl i64.shr_u
  have h1 := endian_swap_32_lt x
  have e1 : (endian_swap_32 x * 2 ^ (32 % 64)) % 2 ^ 64 = 2 ^ 32 * endian_swap_32 x := by
    norm_num
    omega
  have e2 : x / 2 ^ (32 % 64) = x / 2 ^ 32 := by norm_num
  simp only []
  rw [e1, e2]
  exact (Nat.mul_add_lt_is_or (endian_swap_32_lt _) _).symm

theorem endian_swap_bytes (x : Nat) :
    endian_swap x =
      x % 256 * 2 ^ 56 + x / 2 ^ 8 % 256 * 2 ^ 48 + x / 2 ^ 16 % 256 * 2 ^ 40 +
      x / 2 ^ 24 % 256 * 2 ^ 32 + x / 2 ^ 32 % 256 * 2 ^ 24 + x / 2 ^ 40 % 256 * 2 ^ 16 +
      x / 2 ^ 48 % 256 * 2 ^ 8 + x / 2 ^ 56 % 256 := by
  rw [endian_swap_spec, endian_swap_32_spec, endian_swap_32_spec, endian_swap_16_spec,
    endian_swap_16_spec, endian_swap_16_spec, endian_swap_16_spec]
  have d1 : x / 256 = x / 2 ^ 8 := by norm_num
  have d2 : x / 2 ^ 16 / 256 = x / 2 ^ 24 := by
    rw [Nat.div_div_eq_div_mul]
    norm_num
  have d3 : x / 2 ^ 32 / 256 = x / 2 ^ 40 := by
    rw [Nat.div_div_eq_div_mul]
    norm_num
  have d4 : x / 2 ^ 32 / 2 ^ 16 = x / 2 ^ 48 := by
    rw [Nat.div_div_eq_div_mul]
    norm_num
  have d5 : x / 2 ^ 48 / 256 = x / 2 ^ 56 := by
    rw [Nat.div_div_eq_div_mul]
    norm_num
  rw [d4, d1, d2, d3, d5]
  ring

theorem bytes_sum_byte (b0 b1 b2 b3 b4 b5 b6 b7 : Nat)
    (h0 : b0 < 256) (h1 : b1 < 256) (h2 : b2 < 256) (h3 : b3 < 256)
    (h4 : b4 < 256) (h5 : b5 < 256) (h6 : b6 < 256) (h7 : b7 < 256) (S : Nat)
    (hS : S = b0 * 2 ^ 56 + b1 * 2 ^ 48 + b2 * 2 ^ 40 + b3 * 2 ^ 32 + b4 * 2 ^ 24 +
      b5 * 2 ^ 16 + b6 * 2 ^ 8 + b7) :
    S / 2 ^ 0 % 256 = b7 ∧ S / 2 ^ 8 % 256 = b6 ∧ S / 2 ^ 16 % 256 = b5 ∧
    S / 2 ^ 24 % 256 = b4 ∧ S / 2 ^ 32 % 256 = b3 ∧ S / 2 ^ 40 % 256 = b2 ∧
    S / 2 ^ 48 % 256 = b1 ∧ S / 2 ^ 56 % 256 = b0 := by
  subst hS
  refine ⟨?_, ?_, ?_, ?_, ?_, ?_, ?_, ?_⟩ <;> omega

/-- Byte `j` (0 the least significant) of `endian_swap x` is byte `7 - j` of `x`. -/
theorem endian_swap_byte (x j : Nat) (hj : j < 8) :
    endian_swap x / 2 ^ (8 * j) % 256 = x / 2 ^ (8 * (7 - j)) % 256 := by
  have hb : ∀ k : Nat, x / 2 ^ k % 256 < 256 := fun k => Nat.mod_lt _ (by norm_num)
  have h0 : x % 256 < 256 := Nat.mod_lt _ (by norm_num)
  obtain ⟨c0, c1, c2, c3, c4, c5, c6, c7⟩ :=
    bytes_sum_byte (x % 256) (x / 2 ^ 8 % 256) (x / 2 ^ 16 % 256) (x / 2 ^ 24 % 256)
      (x / 2 ^ 32 % 256) (x / 2 ^ 40 % 256) (x / 2 ^ 48 % 256) (x / 2 ^ 56 % 256)
      h0 (hb 8) (hb 16) (hb 24) (hb 32) (hb 40) (hb 48) (hb 56) (endian_swap x)
      (endian_swap_bytes x)
  have e0 : x / 2 ^ 0 % 256 = x % 256 := by norm_num
  interval_cases j
  · exact c0
  · exact c1
  · exact c2
  · exact c3
  · exact c4
  · exact c5
  · exact c6
  · exact c7.trans e0.symm

theorem be_byte_limb1 (y1 y2 y3 y4 j : Nat) (hy : wf4 (y1, y2, y3, y4)) (hj : j < 8) :
    be_byte (val4 (y1, y2, y3, y4)) j = y1 / 2 ^ (8 * (7 - j)) % 256 := by
  obtain ⟨h1, h2, h3, h4⟩ := hy
  simp only at h1 h2 h3 h4
  simp only [be_byte, val4]
  interval_cases j <;> norm_num <;> omega

theorem be_byte_limb2 (y1 y2 y3 y4 j : Nat) (hy : wf4 (y1, y2, y3, y4)) (hj : j < 8) :
    be_byte (val4 (y1, y2, y3, y4)) (8 + j) = y2 / 2 ^ (8 * (7 - j)) % 256 := by
  obtain ⟨h1, h2, h3, h4⟩ := hy
  simp only at h1 h2 h3 h4
  simp only [be_byte, val4]
  interval_cases j <;> norm_num <;> omega

theorem be_byte_limb3 (y1 y2 y3 y4 j : Nat) (hy : wf4 (y1, y2, y3, y4)) (hj : j < 8) :
    be_byte (val4 (y1, y2, y3, y4)) (16 + j) = y3 / 2 ^ (8 * (7 - j)) % 256 := by
  obtain ⟨h1, h2, h3, h4⟩ := hy
  simp only at h1 h2 h3 h4
  simp only [be_byte, val4]
  interval_cases j <;> norm_num <;> omega

theorem be_byte_limb4 (y1 y2 y3 y4 j : Nat) (hy : wf4 (y1, y2, y3, y4)) (hj : j < 8) :
    be_byte (val4 (y1, y2, y3, y4)) (24 + j) = y4 / 2 ^ (8 * (7 - j)) % 256 := by
  obtain ⟨h1, h2, h3, h4⟩ := hy
  simp only at h1 h2 h3 h4
  simp only [be_byte, val4]
  interval_cases j <;> norm_num <;> omega

/-- What the four writes of `putWord` leave at each address, for a position without 64-bit
wrap. -/
theorem putWord_at (m : Bytes) (pos y1 y2 y3 y4 b : Nat) (hp : pos + 32 ≤ 2 ^ 64) :
    putWord m pos y1 y2 y3 y4 b =
      if pos + 24 ≤ b ∧ b < pos + 32 then endian_swap y4 / 2 ^ (8 * (b - (pos + 24))) % 256
      else if pos + 16 ≤ b ∧ b < pos + 24 then
        endian_swap y3 / 2 ^ (8 * (b - (pos + 16))) % 256
      else if pos + 8 ≤ b ∧ b < pos + 16 then
        endian_swap y2 / 2 ^ (8 * (b - (pos + 8))) % 256
      else if pos ≤ b ∧ b < pos + 8 then endian_swap y1 / 2 ^ (8 * (b - pos)) % 256
      else m b := by
  have e8 : i64.add pos 8 = pos + 8 := by
    unfold i64.add
    omega
  have e16 : i64.add pos 16 = pos + 16 := by
    unfold i64.add
    omega
  have e24 : i64.add pos 24 = pos + 24 := by
    unfold i64.add
    omega
  unfold putWord
  simp only [e8, e16, e24, put64, Nat.add_assoc]

theorem putWord_bytes (m : Bytes) (pos y1 y2 y3 y4 i : Nat)
    (hy : wf4 (y1, y2, y3, y4)) (hp : pos + 32 ≤ 2 ^ 64) (hi : i < 32) :
    putWord m pos y1 y2 y3 y4 (pos + i) = be_byte (val4 (y1, y2, y3, y4)) i := by
  rw [putWord_at m pos y1 y2 y3 y4 (pos + i) hp]
  by_cases c4 : 24 ≤ i
  · obtain ⟨j, rfl⟩ : ∃ j, i = 24 + j := ⟨i - 24, by omega⟩
    have hj : j < 8 := by omega
    have e : pos + (24 + j) - (pos + 24) = j := by omega
    rw [if_pos (by omega), be_byte_limb4 y1 y2 y3 y4 j hy hj, e]
    exact endian_swap_byte y4 j hj
  · by_cases c3 : 16 ≤ i
    · obtain ⟨j, rfl⟩ : ∃ j, i = 16 + j := ⟨i - 16, by omega⟩
      have hj : j < 8 := by omega
      have e : pos + (16 + j) - (pos + 16) = j := by omega
      rw [if_neg (by omega), if_pos (by omega), be_byte_limb3 y1 y2 y3 y4 j hy hj, e]
      exact endian_swap_byte y3 j hj
    · by_cases c2 : 8 ≤ i
      · obtain ⟨j, rfl⟩ : ∃ j, i = 8 + j := ⟨i - 8, by omega⟩
        have hj : j < 8 := by omega
        have e : pos + (8 + j) - (pos + 8) = j := by omega
        rw [if_neg (by omega), if_neg (by omega), if_pos (by omega),
          be_byte_limb2 y1 y2 y3 y4 j hy hj, e]
        exact endian_swap_byte y2 j hj
      · have hj : i < 8 := by omega
        have e : pos + i - pos = i := by omega
        rw [if_neg (by omega), if_neg (by omega), if_neg (by omega), if_pos (by omega),
          be_byte_limb1 y1 y2 y3 y4 i hy hj, e]
        exact endian_swap_byte y1 i hj

theorem putWord_frame (m : Bytes) (pos y1 y2 y3 y4 b : Nat) (hp : pos + 32 ≤ 2 ^ 64)
    (hb : b < pos ∨ pos + 32 ≤ b) :
    putWord m pos y1 y2 y3 y4 b = m b := by
  rw [putWord_at m pos y1 y2 y3 y4 b hp, if_neg (by omega), if_neg (by omega),
    if_neg (by omega), if_neg (by omega)]


theorem bytes_decomp (z : Nat) (hz : z < 2 ^ 64) :
    z % 256 + z / 2 ^ 8 % 256 * 2 ^ 8 + z / 2 ^ 16 % 256 * 2 ^ 16 + z / 2 ^ 24 % 256 * 2 ^ 24 +
      z / 2 ^ 32 % 256 * 2 ^ 32 + z / 2 ^ 40 % 256 * 2 ^ 40 + z / 2 ^ 48 % 256 * 2 ^ 48 +
      z / 2 ^ 56 % 256 * 2 ^ 56 = z := by
  omega

/-- Eight bytes that read, last address first, as the bytes of `x` load as `endian_swap x`. -/
theorem load_eq_swap (m : Bytes) (a x : Nat)
    (h : ∀ j, j < 8 → m (a + j) = x / 2 ^ (8 * (7 - j)) % 256) :
    get64 m a = endian_swap x := by
  have h0 : m a = x / 2 ^ 56 % 256 := h 0 (by norm_num)
  have h1 : m (a + 1) = x / 2 ^ 48 % 256 := h 1 (by norm_num)
  have h2 : m (a + 2) = x / 2 ^ 40 % 256 := h 2 (by norm_num)
  have h3 : m (a + 3) = x / 2 ^ 32 % 256 := h 3 (by norm_num)
  have h4 : m (a + 4) = x / 2 ^ 24 % 256 := h 4 (by norm_num)
  have h5 : m (a + 5) = x / 2 ^ 16 % 256 := h 5 (by norm_num)
  have h6 : m (a + 6) = x / 2 ^ 8 % 256 := h 6 (by norm_num)
  have h7 : m (a + 7) = x / 2 ^ 0 % 256 := h 7 (by norm_num)
  unfold get64
  rw [h0, h1, h2, h3, h4, h5, h6, h7, endian_swap_bytes]
  simp only [Nat.mod_mod, Nat.pow_zero, Nat.div_one]
  ring

theorem endian_swap_involutive (x : Nat) (hx : x < 2 ^ 64) :
    endian_swap (endian_swap x) = x := by
  have b0 : endian_swap x / 2 ^ (8 * 0) % 256 = x / 2 ^ 56 % 256 :=
    endian_swap_byte x 0 (by norm_num)
  have b1 : endian_swap x / 2 ^ 8 % 256 = x / 2 ^ 48 % 256 := endian_swap_byte x 1 (by norm_num)
  have b2 : endian_swap x / 2 ^ 16 % 256 = x / 2 ^ 40 % 256 := endian_swap_byte x 2 (by norm_num)
  have b3 : endian_swap x / 2 ^ 24 % 256 = x / 2 ^ 32 % 256 := endian_swap_byte x 3 (by norm_num)
  have b4 : endian_swap x / 2 ^ 32 % 256 = x / 2 ^ 24 % 256 := endian_swap_byte x 4 (by norm_num)
  have b5 : endian_swap x / 2 ^ 40 % 256 = x / 2 ^ 16 % 256 := endian_swap_byte x 5 (by norm_num)
  have b6 : endian_swap x / 2 ^ 48 % 256 = x / 2 ^ 8 % 256 := endian_swap_byte x 6 (by norm_num)
  have b7 : endian_swap x / 2 ^ 56 % 256 = x / 2 ^ (8 * 0) % 256 :=
    endian_swap_byte x 7 (by norm_num)
  simp only [Nat.mul_zero, Nat.pow_zero, Nat.div_one] at b0 b7
  rw [endian_swap_bytes (endian_swap x), b0, b1, b2, b3, b4, b5, b6, b7]
  have h := bytes_decomp x hx
  generalize x % 256 = c0 at h ⊢
  generalize x / 2 ^ 8 % 256 = c1 at h ⊢
  generalize x / 2 ^ 16 % 256 = c2 at h ⊢
  generalize x / 2 ^ 24 % 256 = c3 at h ⊢
  generalize x / 2 ^ 32 % 256 = c4 at h ⊢
  generalize x / 2 ^ 40 % 256 = c5 at h ⊢
  generalize x / 2 ^ 48 % 256 = c6 at h ⊢
  generalize x / 2 ^ 56 % 256 = c7 at h ⊢
  omega

/-- Reading back 32 bytes that are the big-endian encoding of four limbs gives the limbs. -/
theorem getWord_of_bytes (m : Bytes) (pos y1 y2 y3 y4 : Nat)
    (hy : wf4 (y1, y2, y3, y4)) (hp : pos + 32 ≤ 2 ^ 64)
    (h : ∀ i, i < 32 → m (pos + i) = be_byte (val4 (y1, y2, y3, y4)) i) :
    getWord m pos = (y1, y2, y3, y4) := by
  have e8 : i64.add pos 8 = pos + 8 := by
    unfold i64.add
    omega
  have e16 : i64.add pos 16 = pos + 16 := by
    unfold i64.add
    omega
  have e24 : i64.add pos 24 = pos + 24 := by
    unfold i64.add
    omega
  have l1 : get64 m pos = endian_swap y1 := by
    apply load_eq_swap
    intro j hj
    rw [h j (by omega), be_byte_limb1 y1 y2 y3 y4 j hy hj]
  have l2 : get64 m (pos + 8) = endian_swap y2 := by
    apply load_eq_swap
    intro j hj
    rw [Nat.add_assoc, h (8 + j) (by omega), be_byte_limb2 y1 y2 y3 y4 j hy hj]
  have l3 : get64 m (pos + 16) = endian_swap y3 := by
    apply load_eq_swap
    intro j hj
    rw [Nat.add_assoc, h (16 + j) (by omega), be_byte_limb3 y1 y2 y3 y4 j hy hj]
  have l4 : get64 m (pos + 24) = endian_swap y4 := by
    apply load_eq_swap
    intro j hj
    rw [Nat.add_assoc, h (24 + j) (by omega), be_byte_limb4 y1 y2 y3 y4 j hy hj]
  obtain ⟨h1, h2, h3, h4⟩ := hy
  unfold getWord
  simp only [e8, e16, e24, l1, l2, l3, l4]
  rw [endian_swap_involutive y1 h1, endian_swap_involutive y2 h2,
    endian_swap_involutive y3 h3, endian_swap_involutive y4 h4]


theorem readBytes_of_bytes (m : Bytes) (p n : Nat) (f : Nat → Nat)
    (h : ∀ i, i < n → m (p + i) = f i) :
    readBytes m p n = (List.range n).map f := by
  unfold readBytes
  apply List.map_congr_left
  intro i hi
  exact h i (List.mem_range.1 hi)

theorem writeBytes_at (m : Bytes) (p n : Nat) (f : Nat → Nat) (i : Nat) (hi : i < n) :
    writeBytes m p ((List.range n).map f) (p + i) = f i := by
  unfold writeBytes
  have hl : ((List.range n).map f).length = n := by simp
  have e : p + i - p = i := by omega
  rw [if_pos (by rw [hl]; omega), e]
  simp [List.getD_eq_getElem?_getD, hi]

/-- The scratch bytes after the two `mstore_internal` calls of `sstore`, and after the one
of `sload`, when they do not trap. -/
theorem scratch_key_bytes (m : Bytes) (x1 x2 x3 x4 : Nat) (hx : wf4 (x1, x2, x3, x4)) :
    readBytes (putWord m 0 x1 x2 x3 x4) 0 32 =
      (List.range 32).map (be_byte (val4 (x1, x2, x3, x4))) := by
  apply readBytes_of_bytes
  intro i hi
  exact putWord_bytes m 0 x1 x2 x3 x4 i hx (by norm_num) hi

theorem scratch_key_bytes2 (m : Bytes) (x1 x2 x3 x4 y1 y2 y3 y4 : Nat)
    (hx : wf4 (x1, x2, x3, x4)) :
    readBytes (putWord (putWord m 0 x1 x2 x3 x4) 32 y1 y2 y3 y4) 0 32 =
      (List.range 32).map (be_byte (val4 (x1, x2, x3, x4))) := by
  apply readBytes_of_bytes
  intro i hi
  rw [putWord_frame _ 32 y1 y2 y3 y4 (0 + i) (by norm_num) (Or.inl (by omega))]
  exact putWord_bytes m 0 x1 x2 x3 x4 i hx (by norm_num) hi

theorem scratch_value_bytes (m : Bytes) (y1 y2 y3 y4 : Nat) (hy : wf4 (y1, y2, y3, y4)) :
    readBytes (putWord m 32 y1 y2 y3 y4) 32 32 =
      (List.range 32).map (be_byte (val4 (y1, y2, y3, y4))) := by
  apply readBytes_of_bytes
  intro i hi
  exact putWord_bytes m 32 y1 y2 y3 y4 i hy (by norm_num) hi

/-! ## Memory accesses within and beyond the memory -/

/-- A memory access reaches `2 ^ 32` bytes at most. -/
theorem limit_le (m : Mem) : m.limit ≤ 2 ^ 32 := Nat.min_le_right _ _

/-- A store whose eight bytes lie within the memory writes them. -/
theorem store_ok (sz : Nat) (b : Bytes) (a v : Nat) (h : a + 8 ≤ min sz (2 ^ 32)) :
    i64.store ⟨sz, b⟩ a v = Outcome.ok ⟨sz, put64 b a v⟩ := by
  have e : a % 2 ^ 32 = a := Nat.mod_eq_of_lt (by omega)
  unfold i64.store Mem.limit
  simp only [e]
  rw [if_pos h]

/-- A store whose eight bytes do not lie within the memory traps. -/
theorem store_trap (sz : Nat) (b : Bytes) (a v : Nat) (ha : a < 2 ^ 32)
    (h : ¬ a + 8 ≤ min sz (2 ^ 32)) :
    i64.store ⟨sz, b⟩ a v = Outcome.trap := by
  have e : a % 2 ^ 32 = a := Nat.mod_eq_of_lt ha
  unfold i64.store Mem.limit
  simp only [e]
  rw [if_neg h]

/-- A load whose eight bytes lie within the memory reads them. -/
theorem load_ok (sz : Nat) (b : Bytes) (a : Nat) (h : a + 8 ≤ min sz (2 ^ 32)) :
    i64.load ⟨sz, b⟩ a = Outcome.ok (get64 b a) := by
  have e : a % 2 ^ 32 = a := Nat.mod_eq_of_lt (by omega)
  unfold i64.load Mem.limit
  simp only [e]
  rw [if_pos h]

/-- A load whose eight bytes do not lie within the memory traps. -/
theorem load_trap (sz : Nat) (b : Bytes) (a : Nat) (ha : a < 2 ^ 32)
    (h : ¬ a + 8 ≤ min sz (2 ^ 32)) :
    i64.load ⟨sz, b⟩ a = Outcome.trap := by
  have e : a % 2 ^ 32 = a := Nat.mod_eq_of_lt ha
  unfold i64.load Mem.limit
  simp only [e]
  rw [if_neg h]

/-- The builtin `i64.add` without overflow. -/
theorem add_small (pos k : Nat) (h : pos + k < 2 ^ 64) : i64.add pos k = pos + k := by
  unfold i64.add
  exact Nat.mod_eq_of_lt h

/-- The four stores of `mstore_internal` succeed when the 32 bytes lie within the memory. -/
theorem mstore_internal_ok (m : Mem) (pos y1 y2 y3 y4 : Nat) (hp : pos + 32 ≤ m.limit) :
    mstore_internal m pos y1 y2 y3 y4 =
      Outcome.ok ⟨m.size, putWord m.bytes pos y1 y2 y3 y4⟩ := by
  obtain ⟨sz, b⟩ := m
  have hp2 : pos + 32 ≤ min sz (2 ^ 32) := hp
  have e8 := add_small pos 8 (by omega)
  have e16 := add_small pos 16 (by omega)
  have e24 := add_small pos 24 (by omega)
  unfold mstore_internal putWord
  rw [e8, e16, e24, store_ok sz b pos _ (by omega), Outcome.andThen]
  try simp only
  rw [store_ok sz _ (pos + 8) _ (by omega), Outcome.andThen]
  try simp only
  rw [store_ok sz _ (pos + 16) _ (by omega), Outcome.andThen]
  try simp only
  rw [store_ok sz _ (pos + 24) _ (by omega)]

/-- One of the four stores of `mstore_internal` traps when the 32 bytes leave the memory. -/
theorem mstore_internal_trap (m : Mem) (pos y1 y2 y3 y4 : Nat) (hw : pos + 32 ≤ 2 ^ 32)
    (hp : ¬ pos + 32 ≤ m.limit) :
    mstore_internal m pos y1 y2 y3 y4 = Outcome.trap := by
  obtain ⟨sz, b⟩ := m
  have hp2 : ¬ pos + 32 ≤ min sz (2 ^ 32) := hp
  have e8 := add_small pos 8 (by omega)
  have e16 := add_small pos 16 (by omega)
  have e24 := add_small pos 24 (by omega)
  unfold mstore_internal
  rw [e8, e16, e24]
  by_cases h1 : pos + 8 ≤ min sz (2 ^ 32)
  · rw [store_ok sz b pos _ h1, Outcome.andThen]
    try simp only
    by_cases h2 : pos + 8 + 8 ≤ min sz (2 ^ 32)
    · rw [store_ok sz _ (pos + 8) _ h2, Outcome.andThen]
      try simp only
      by_cases h3 : pos + 16 + 8 ≤ min sz (2 ^ 32)
      · rw [store_ok sz _ (pos + 16) _ h3, Outcome.andThen]
        try simp only
        exact store_trap sz _ (pos + 24) _ (by omega) (by omega)
      · rw [store_trap sz _ (pos + 16) _ (by omega) h3]
        rfl
    · rw [store_trap sz _ (pos + 8) _ (by omega) h2]
      rfl
  · rw [store_trap sz b pos _ (by omega) h1]
    rfl

/-- The four loads of `mload_internal` succeed when the 32 bytes lie within the memory. -/
theorem mload_internal_ok (m : Mem) (pos : Nat) (hp : pos + 32 ≤ m.limit) :
    mload_internal m pos = Outcome.ok (getWord m.bytes pos) := by
  obtain ⟨sz, b⟩ := m
  have hp2 : pos + 32 ≤ min sz (2 ^ 32) := hp
  have e8 := add_small pos 8 (by omega)
  have e16 := add_small pos 16 (by omega)
  have e24 := add_small pos 24 (by omega)
  unfold mload_internal getWord
  rw [e8, e16, e24, load_ok sz b pos (by omega), load_ok sz b (pos + 8) (by omega),
    load_ok sz b (pos + 16) (by omega), load_ok sz b (pos + 24) (by omega)]
  rfl

/-- One of the four loads of `mload_internal` traps when the 32 bytes leave the memory. -/
theorem mload_internal_trap (m : Mem) (pos : Nat) (hw : pos + 32 ≤ 2 ^ 32)
    (hp : ¬ pos + 32 ≤ m.limit) :
    mload_internal m pos = Outcome.trap := by
  obtain ⟨sz, b⟩ := m
  have hp2 : ¬ pos + 32 ≤ min sz (2 ^ 32) := hp
  have e8 := add_small pos 8 (by omega)
  have e16 := add_small pos 16 (by omega)
  have e24 := add_small pos 24 (by omega)
  unfold mload_internal
  rw [e8, e16, e24]
  by_cases h1 : pos + 8 ≤ min sz (2 ^ 32)
  · rw [load_ok sz b pos h1, Outcome.andThen]
    try simp only
    by_cases h2 : pos + 8 + 8 ≤ min sz (2 ^ 32)
    · rw [load_ok sz b (pos + 8) h2, Outcome.andThen]
      try simp only
      by_cases h3 : pos + 16 + 8 ≤ min sz (2 ^ 32)
      · rw [load_ok sz b (pos + 16) h3, Outcome.andThen]
        try simp only
        rw [load_trap sz b (pos + 24) (by omega) (by omega)]
        rfl
      · rw [load_trap sz b (pos + 16) (by omega) h3]
        rfl
    · rw [load_trap sz b (pos + 8) (by omega) h2]
      rfl
  · rw [load_trap sz b pos (by omega) h1]
    rfl

/-- The function `mstore` on a memory that holds the 32 bytes from `64 + p` on. -/
theorem mstore_eq (m : Mem) (x1 x2 x3 x4 y1 y2 y3 y4 : Nat)
    (hx : wf4 (x1, x2, x3, x4)) (hp : 64 + val4 (x1, x2, x3, x4) + 32 ≤ m.limit) :
    mstore m x1 x2 x3 x4 y1 y2 y3 y4 =
      Outcome.ok ⟨m.size, putWord m.bytes (64 + val4 (x1, x2, x3, x4)) y1 y2 y3 y4⟩ := by
  have hl := limit_le m
  unfold mstore u256_to_i32ptr
  rw [u256_to_i32_spec x1 x2 x3 x4 hx, if_pos (by omega)]
  have e : i64.add (val4 (x1, x2, x3, x4)) 64 = 64 + val4 (x1, x2, x3, x4) := by
    unfold i64.add
    omega
  simp only [Outcome.andThen, e]
  exact mstore_internal_ok m _ y1 y2 y3 y4 hp

/-- The function `mload` on a memory that holds the 32 bytes from `64 + p` on. -/
theorem mload_eq (m : Mem) (x1 x2 x3 x4 : Nat)
    (hx : wf4 (x1, x2, x3, x4)) (hp : 64 + val4 (x1, x2, x3, x4) + 32 ≤ m.limit) :
    mload m x1 x2 x3 x4 = Outcome.ok (getWord m.bytes (64 + val4 (x1, x2, x3, x4))) := by
  have hl := limit_le m
  unfold mload u256_to_i32ptr
  rw [u256_to_i32_spec x1 x2 x3 x4 hx, if_pos (by omega)]
  have e : i64.add (val4 (x1, x2, x3, x4)) 64 = 64 + val4 (x1, x2, x3, x4) := by
    unfold i64.add
    omega
  simp only [Outcome.andThen, e]
  exact mload_internal_ok m _ hp

/-! ## Memory and storage round trips -/

/-- C20, as amended: for 64-bit limbs and a memory that holds the 32 bytes from `64 + p` on
(so that no address wraps and no store traps), `mstore(p, v)` returns a memory of the same
size whose bytes at `64 + p .. 64 + p + 31` are the big-endian encoding of `v` (byte `i` is
the `i`-th most significant byte), with `i64.store` little-endian; no byte of `[0, 64)`
and no other byte outside that range is changed. -/
theorem mstore_big_endian (m : Mem) (x1 x2 x3 x4 y1 y2 y3 y4 : Nat)
    (hx : wf4 (x1, x2, x3, x4)) (hy : wf4 (y1, y2, y3, y4))
    (hp : 64 + val4 (x1, x2, x3, x4) + 32 ≤ m.limit) :
    ∃ m2 : Mem, mstore m x1 x2 x3 x4 y1 y2 y3 y4 = Outcome.ok m2 ∧ m2.size = m.size ∧
      (∀ i, i < 32 →
        m2.bytes (64 + val4 (x1, x2, x3, x4) + i) = be_byte (val4 (y1, y2, y3, y4)) i) ∧
      (∀ a, a < 64 → m2.bytes a = m.bytes a) ∧
      (∀ a, a < 64 + val4 (x1, x2, x3, x4) ∨ 64 + val4 (x1, x2, x3, x4) + 32 ≤ a →
        m2.bytes a = m.bytes a) := by
  have hl := limit_le m
  have hb : 64 + val4 (x1, x2, x3, x4) + 32 ≤ 2 ^ 64 := by omega
  refine ⟨⟨m.size, putWord m.bytes (64 + val4 (x1, x2, x3, x4)) y1 y2 y3 y4⟩,
    mstore_eq m x1 x2 x3 x4 y1 y2 y3 y4 hx hp, rfl, ?_, ?_, ?_⟩
  · intro i hi
    exact putWord_bytes m.bytes _ y1 y2 y3 y4 i hy hb hi
  · intro a ha
    exact putWord_frame m.bytes _ y1 y2 y3 y4 a hb (Or.inl (by omega))
  · intro a ha
    exact putWord_frame m.bytes _ y1 y2 y3 y4 a hb ha

theorem mstore_big_endian_witness :
    wf4 (0, 0, 0, 3) ∧
    wf4 (0x0102030405060708, 0x1112131415161718, 0x2122232425262728, 0x3132333435363738) ∧
    64 + val4 (0, 0, 0, 3) + 32 ≤ Mem.limit ⟨65536, fun _ => 0xee⟩ ∧
    ∃ m2 : Mem, mstore ⟨65536, fun _ => 0xee⟩ 0 0 0 3 0x0102030405060708 0x1112131415161718
        0x2122232425262728 0x3132333435363738 = Outcome.ok m2 ∧
      m2.size = Mem.size ⟨65536, fun _ => 0xee⟩ ∧
      (∀ i, i < 32 →
        m2.bytes (64 + val4 (0, 0, 0, 3) + i) =
          be_byte (val4 (0x0102030405060708, 0x1112131415161718, 0x2122232425262728,
            0x3132333435363738)) i) ∧
      (∀ a, a < 64 → m2.bytes a = Mem.bytes ⟨65536, fun _ => 0xee⟩ a) ∧
      (∀ a, a < 64 + val4 (0, 0, 0, 3) ∨ 64 + val4 (0, 0, 0, 3) + 32 ≤ a →
        m2.bytes a = Mem.bytes ⟨65536, fun _ => 0xee⟩ a) :=
  ⟨by decide, by decide, by decide,
    mstore_big_endian ⟨65536, fun _ => 0xee⟩ 0 0 0 3 0x0102030405060708 0x1112131415161718
      0x2122232425262728 0x3132333435363738 (by decide) (by decide) (by decide)⟩

/-- C20, the claim as stated fails. On a memory of one page (65536 bytes, all zero),
`mstore(0x10000, v)` traps, its address lying beyond the memory. And `mstore(0xffffffff, v)`
does not write at `64 + p`: the position `p + 64` is cut to 32 bits, so the first byte of
`v` lands at address 63, inside the scratch area, and the byte at `64 + p` is not written. -/
theorem mstore_big_endian_fails :
    mstore ⟨65536, fun _ => 0⟩ 0 0 0 0x10000 0x0102030405060708 0x1112131415161718
      0x2122232425262728 0x3132333435363738 = Outcome.trap ∧
    ∃ m2 : Mem, mstore ⟨65536, fun _ => 0⟩ 0 0 0 0xffffffff 0x0102030405060708
        0x1112131415161718 0x2122232425262728 0x3132333435363738 = Outcome.ok m2 ∧
      m2.bytes 63 = 1 ∧ m2.bytes 94 = 0x38 ∧ m2.bytes (64 + 0xffffffff) = 0 ∧
      be_byte (val4 (0x0102030405060708, 0x1112131415161718, 0x2122232425262728,
        0x3132333435363738)) 0 = 1 :=
  ⟨rfl, _, rfl, by decide, by decide, by decide, by decide⟩

/-- C21, as amended: for 64-bit limbs and a memory that holds the 32 bytes from `64 + p`
on, `mstore(p, v)` returns a memory on which `mload(p)` returns exactly `v`, neither of
them trapping. -/
theorem mstore_mload_roundtrip (m : Mem) (x1 x2 x3 x4 y1 y2 y3 y4 : Nat)
    (hx : wf4 (x1, x2, x3, x4)) (hy : wf4 (y1, y2, y3, y4))
    (hp : 64 + val4 (x1, x2, x3, x4) + 32 ≤ m.limit) :
    ∃ m2 : Mem, mstore m x1 x2 x3 x4 y1 y2 y3 y4 = Outcome.ok m2 ∧
      mload m2 x1 x2 x3 x4 = Outcome.ok (y1, y2, y3, y4) := by
  have hl := limit_le m
  have hb : 64 + val4 (x1, x2, x3, x4) + 32 ≤ 2 ^ 64 := by omega
  refine ⟨⟨m.size, putWord m.bytes (64 + val4 (x1, x2, x3, x4)) y1 y2 y3 y4⟩,
    mstore_eq m x1 x2 x3 x4 y1 y2 y3 y4 hx hp, ?_⟩
  rw [mload_eq ⟨m.size, putWord m.bytes (64 + val4 (x1, x2, x3, x4)) y1 y2 y3 y4⟩
    x1 x2 x3 x4 hx hp]
  congr 1
  apply getWord_of_bytes _ _ y1 y2 y3 y4 hy hb
  intro i hi
  exact putWord_bytes m.bytes _ y1 y2 y3 y4 i hy hb hi

theorem mstore_mload_roundtrip_witness :
    wf4 (0, 0, 0, 3) ∧
    wf4 (0x0102030405060708, 0x1112131415161718, 0x2122232425262728, 0x3132333435363738) ∧
    64 + val4 (0, 0, 0, 3) + 32 ≤ Mem.limit ⟨65536, fun _ => 0xee⟩ ∧
    ∃ m2 : Mem, mstore ⟨65536, fun _ => 0xee⟩ 0 0 0 3 0x0102030405060708 0x1112131415161718
        0x2122232425262728 0x3132333435363738 = Outcome.ok m2 ∧
      mload m2 0 0 0 3 = Outcome.ok
        (0x0102030405060708, 0x1112131415161718, 0x2122232425262728, 0x3132333435363738) :=
  ⟨by decide, by decide, by decide,
    mstore_mload_roundtrip ⟨65536, fun _ => 0xee⟩ 0 0 0 3 0x0102030405060708
      0x1112131415161718 0x2122232425262728 0x3132333435363738 (by decide) (by decide)
      (by decide)⟩

/-- C21, the claim as stated fails: an address `p < 2^32` can lie beyond the memory. On a
memory of one page `mstore(0x10000, v)` and `mload(0x10000)` trap, and on a memory of the
full `2 ^ 32` bytes `mstore(2^32 - 68, v)` and `mload(2^32 - 68)` trap, the first eight
bytes reaching beyond the last address. -/
theorem mstore_mload_traps :
    mstore ⟨65536, fun _ => 0⟩ 0 0 0 0x10000 0 0 0 7 = Outcome.trap ∧
    mload ⟨65536, fun _ => 0⟩ 0 0 0 0x10000 = Outcome.trap ∧
    mstore ⟨2 ^ 32, fun _ => 0⟩ 0 0 0 0xffffffbc 0 0 0 7 = Outcome.trap ∧
    mload ⟨2 ^ 32, fun _ => 0⟩ 0 0 0 0xffffffbc = Outcome.trap :=
  ⟨rfl, rfl, rfl, rfl⟩

/-- The function `sstore` on a memory that holds the scratch area. -/
theorem sstore_ok (m : Mem) (st : Storage) (x1 x2 x3 x4 y1 y2 y3 y4 : Nat)
    (h : 64 ≤ m.limit) :
    sstore m st x1 x2 x3 x4 y1 y2 y3 y4 =
      Outcome.ok (⟨m.size, putWord (putWord m.bytes 0 x1 x2 x3 x4) 32 y1 y2 y3 y4⟩,
        eth.storageStore st
          ⟨m.size, putWord (putWord m.bytes 0 x1 x2 x3 x4) 32 y1 y2 y3 y4⟩ 0 32) := by
  unfold sstore
  rw [mstore_internal_ok m 0 x1 x2 x3 x4 (by omega), Outcome.andThen]
  try simp only
  rw [mstore_internal_ok ⟨m.size, putWord m.bytes 0 x1 x2 x3 x4⟩ 32 y1 y2 y3 y4
    (show 32 + 32 ≤ m.limit by omega), Outcome.andThen]

/-- The function `sstore` traps on a memory that does not hold the scratch area. -/
theorem sstore_trap (m : Mem) (st : Storage) (x1 x2 x3 x4 y1 y2 y3 y4 : Nat)
    (h : ¬ 64 ≤ m.limit) :
    sstore m st x1 x2 x3 x4 y1 y2 y3 y4 = Outcome.trap := by
  unfold sstore
  by_cases h1 : 0 + 32 ≤ m.limit
  · rw [mstore_internal_ok m 0 x1 x2 x3 x4 h1, Outcome.andThen]
    try simp only
    rw [mstore_internal_trap ⟨m.size, putWord m.bytes 0 x1 x2 x3 x4⟩ 32 y1 y2 y3 y4
      (by norm_num) (show ¬ 32 + 32 ≤ m.limit by omega)]
    rfl
  · rw [mstore_internal_trap m 0 x1 x2 x3 x4 (by norm_num) h1]
    rfl

/-- The function `sload` on a memory that holds the scratch area. -/
theorem sload_ok (m : Mem) (st : Storage) (x1 x2 x3 x4 : Nat) (h : 64 ≤ m.limit) :
    sload m st x1 x2 x3 x4 =
      Outcome.ok
        (getWord (writeBytes (putWord m.bytes 0 x1 x2 x3 x4) 32
          (st (readBytes (putWord m.bytes 0 x1 x2 x3 x4) 0 32))) 32,
        ⟨m.size, writeBytes (putWord m.bytes 0 x1 x2 x3 x4) 32
          (st (readBytes (putWord m.bytes 0 x1 x2 x3 x4) 0 32))⟩) := by
  unfold sload eth.storageLoad
  rw [mstore_internal_ok m 0 x1 x2 x3 x4 (by omega), Outcome.andThen]
  try simp only
  rw [mload_internal_ok ⟨m.size, writeBytes (putWord m.bytes 0 x1 x2 x3 x4) 32
    (st (readBytes (putWord m.bytes 0 x1 x2 x3 x4) 0 32))⟩ 32
    (show 32 + 32 ≤ m.limit by omega), Outcome.andThen]

/-- The function `sload` traps on a memory that does not hold the scratch area. -/
theorem sload_trap (m : Mem) (st : Storage) (x1 x2 x3 x4 : Nat) (h : ¬ 64 ≤ m.limit) :
    sload m st x1 x2 x3 x4 = Outcome.trap := by
  unfold sload eth.storageLoad
  by_cases h1 : 0 + 32 ≤ m.limit
  · rw [mstore_internal_ok m 0 x1 x2 x3 x4 h1, Outcome.andThen]
    try simp only
    rw [mload_internal_trap ⟨m.size, writeBytes (putWord m.bytes 0 x1 x2 x3 x4) 32
      (st (readBytes (putWord m.bytes 0 x1 x2 x3 x4) 0 32))⟩ 32 (by norm_num)
      (show ¬ 32 + 32 ≤ m.limit by omega)]
    rfl
  · rw [mstore_internal_trap m 0 x1 x2 x3 x4 (by norm_num) h1]
    rfl

/-- What `sload` reads back from the storage that `sstore` has written, whatever the
contents before either call. -/
theorem scratch_roundtrip (sz : Nat) (ba bb : Bytes) (st : Storage)
    (a1 a2 a3 a4 b1 b2 b3 b4 : Nat) (ha : wf4 (a1, a2, a3, a4)) (hb : wf4 (b1, b2, b3, b4)) :
    getWord (writeBytes (putWord bb 0 a1 a2 a3 a4) 32
      (eth.storageStore st ⟨sz, putWord (putWord ba 0 a1 a2 a3 a4) 32 b1 b2 b3 b4⟩ 0 32
        (readBytes (putWord bb 0 a1 a2 a3 a4) 0 32))) 32 = (b1, b2, b3, b4) := by
  unfold eth.storageStore
  simp only []
  rw [scratch_key_bytes bb a1 a2 a3 a4 ha, scratch_key_bytes2 ba a1 a2 a3 a4 b1 b2 b3 b4 ha,
    if_pos rfl, scratch_value_bytes _ b1 b2 b3 b4 hb]
  apply getWord_of_bytes _ 32 b1 b2 b3 b4 hb (by norm_num)
  intro i hi
  exact writeBytes_at _ 32 32 _ i hi

/-- The storage round trip through a second memory. -/
theorem sstore_sload_spec (m m2 : Mem) (st : Storage) (x1 x2 x3 x4 y1 y2 y3 y4 : Nat)
    (hx : wf4 (x1, x2, x3, x4)) (hy : wf4 (y1, y2, y3, y4)) :
    (Outcome.andThen (sstore m st x1 x2 x3 x4 y1 y2 y3 y4) fun r =>
      Outcome.andThen (sload m2 r.2 x1 x2 x3 x4) fun z => Outcome.ok z.1) =
      if 64 ≤ m.limit ∧ 64 ≤ m2.limit then Outcome.ok (y1, y2, y3, y4) else Outcome.trap := by
  by_cases h : 64 ≤ m.limit
  · rw [sstore_ok m st x1 x2 x3 x4 y1 y2 y3 y4 h, Outcome.andThen]
    try simp only
    by_cases h2 : 64 ≤ m2.limit
    · rw [sload_ok m2 _ x1 x2 x3 x4 h2, Outcome.andThen, if_pos ⟨h, h2⟩]
      try simp only
      rw [scratch_roundtrip m.size m.bytes m2.bytes st x1 x2 x3 x4 y1 y2 y3 y4 hx hy]
    · rw [sload_trap m2 _ x1 x2 x3 x4 h2, if_neg (fun c => h2 c.2)]
      rfl
  · rw [sstore_trap m st x1 x2 x3 x4 y1 y2 y3 y4 h, if_neg (fun c => h c.1)]
    rfl

/-- The storage round trip on one memory. -/
theorem sstore_sload_same (m : Mem) (st : Storage) (x1 x2 x3 x4 y1 y2 y3 y4 : Nat)
    (hx : wf4 (x1, x2, x3, x4)) (hy : wf4 (y1, y2, y3, y4)) :
    (Outcome.andThen (sstore m st x1 x2 x3 x4 y1 y2 y3 y4) fun r =>
      Outcome.andThen (sload r.1 r.2 x1 x2 x3 x4) fun z => Outcome.ok z.1) =
      if 64 ≤ m.limit then Outcome.ok (y1, y2, y3, y4) else Outcome.trap := by
  by_cases h : 64 ≤ m.limit
  · rw [sstore_ok m st x1 x2 x3 x4 y1 y2 y3 y4 h, Outcome.andThen, if_pos h]
    try simp only
    rw [sload_ok ⟨m.size, putWord (putWord m.bytes 0 x1 x2 x3 x4) 32 y1 y2 y3 y4⟩ _
      x1 x2 x3 x4 (show 64 ≤ m.limit from h), Outcome.andThen]
    try simp only
    rw [scratch_roundtrip m.size m.bytes _ st x1 x2 x3 x4 y1 y2 y3 y4 hx hy]
  · rw [sstore_trap m st x1 x2 x3 x4 y1 y2 y3 y4 h, if_neg h]
    rfl

/-- C22: under a host whose `eth.storageStore` records the 32 bytes at the value pointer
under the 32 bytes at the key pointer and whose `eth.storageLoad` writes the recorded
value to the result pointer, `sstore(k, v)` followed by `sload(k)` returns `v`, for all
64-bit limbs, whatever the contents of the memory before either call; for `k = 1`,
`v = 42` the result is `(0, 0, 0, 42)`. The memory has to hold the 64 bytes of the scratch
area, which both functions write: on a smaller memory, and only there, the calls trap. -/
theorem sstore_sload_roundtrip (m m2 : Mem) (st : Storage) (x1 x2 x3 x4 y1 y2 y3 y4 : Nat)
    (hx : wf4 (x1, x2, x3, x4)) (hy : wf4 (y1, y2, y3, y4)) :
    ((Outcome.andThen (sstore m st x1 x2 x3 x4 y1 y2 y3 y4) fun r =>
      Outcome.andThen (sload r.1 r.2 x1 x2 x3 x4) fun z => Outcome.ok z.1) =
      if 64 ≤ m.limit then Outcome.ok (y1, y2, y3, y4) else Outcome.trap) ∧
    ((Outcome.andThen (sstore m st x1 x2 x3 x4 y1 y2 y3 y4) fun r =>
      Outcome.andThen (sload m2 r.2 x1 x2 x3 x4) fun z => Outcome.ok z.1) =
      if 64 ≤ m.limit ∧ 64 ≤ m2.limit then Outcome.ok (y1, y2, y3, y4) else Outcome.trap) ∧
    ((Outcome.andThen (sstore m st 0 0 0 1 0 0 0 42) fun r =>
      Outcome.andThen (sload m2 r.2 0 0 0 1) fun z => Outcome.ok z.1) =
      if 64 ≤ m.limit ∧ 64 ≤ m2.limit then Outcome.ok (0, 0, 0, 42) else Outcome.trap) :=
  ⟨sstore_sload_same m st x1 x2 x3 x4 y1 y2 y3 y4 hx hy,
    sstore_sload_spec m m2 st x1 x2 x3 x4 y1 y2 y3 y4 hx hy,
    sstore_sload_spec m m2 st 0 0 0 1 0 0 0 42 (by decide) (by decide)⟩

theorem sstore_sload_roundtrip_witness :
    wf4 (0, 0, 0, 1) ∧ wf4 (0, 0, 0, 42) ∧
    ((Outcome.andThen (sstore ⟨65536, fun _ => 0⟩ (fun _ => []) 0 0 0 1 0 0 0 42) fun r =>
      Outcome.andThen (sload r.1 r.2 0 0 0 1) fun z => Outcome.ok z.1) =
      if 64 ≤ Mem.limit ⟨65536, fun _ => 0⟩ then Outcome.ok (0, 0, 0, 42)
      else Outcome.trap) ∧
    ((Outcome.andThen (sstore ⟨65536, fun _ => 0⟩ (fun _ => []) 0 0 0 1 0 0 0 42) fun r =>
      Outcome.andThen (sload ⟨65536, fun _ => 7⟩ r.2 0 0 0 1) fun z => Outcome.ok z.1) =
      if 64 ≤ Mem.limit ⟨65536, fun _ => 0⟩ ∧ 64 ≤ Mem.limit ⟨65536, fun _ => 7⟩ then
        Outcome.ok (0, 0, 0, 42)
      else Outcome.trap) ∧
    ((Outcome.andThen (sstore ⟨65536, fun _ => 0⟩ (fun _ => []) 0 0 0 1 0 0 0 42) fun r =>
      Outcome.andThen (sload ⟨65536, fun _ => 7⟩ r.2 0 0 0 1) fun z => Outcome.ok z.1) =
      if 64 ≤ Mem.limit ⟨65536, fun _ => 0⟩ ∧ 64 ≤ Mem.limit ⟨65536, fun _ => 7⟩ then
        Outcome.ok (0, 0, 0, 42)
      else Outcome.trap) ∧
    64 ≤ Mem.limit ⟨65536, fun _ => 0⟩ ∧ 64 ≤ Mem.limit ⟨65536, fun _ => 7⟩ :=
  ⟨by decide, by decide,
    (sstore_sload_roundtrip ⟨65536, fun _ => 0⟩ ⟨65536, fun _ => 7⟩ (fun _ => []) 0 0 0 1
      0 0 0 42 (by decide) (by decide)).1,
    (sstore_sload_roundtrip ⟨65536, fun _ => 0⟩ ⟨65536, fun _ => 7⟩ (fun _ => []) 0 0 0 1
      0 0 0 42 (by decide) (by decide)).2.1,
    (sstore_sload_roundtrip ⟨65536, fun _ => 0⟩ ⟨65536, fun _ => 7⟩ (fun _ => []) 0 0 0 1
      0 0 0 42 (by decide) (by decide)).2.2,
    by decide, by decide⟩

end Polyfill

/-! ## The translator driver: lemmas and claims -/

namespace EVMToEWasmTranslator

mutual
/-- Once the polyfill is parsed, a returning `run` leaves the instance as it was. -/
theorem run_parsed {Stmt : Type} (c : Collaborators Stmt) :
    ∀ (o : ObjectNode Stmt) (t t2 : EVMToEWasmTranslator Stmt) (r : ObjectNode Stmt),
      t.m_polyfill.isSome = true → run c t o = some (t2, r) → t2 = t
  | ObjectNode.Data name data, t, t2, r, _, h => by
    simp only [run, Option.some.injEq, Prod.mk.injEq] at h
    exact h.1.symm
  | ObjectNode.Object name code subs idx, t, t2, r, hp, h => by
    have hn : t.m_polyfill.isNone = false := by
      cases hm : t.m_polyfill with
      | none => rw [hm] at hp; simp at hp
      | some p => rfl
    simp only [run, hn] at h
    cases hm : t.m_polyfill with
    | none => rw [hm] at hp; simp at hp
    | some p =>
      simp only [Bool.false_eq_true, if_false, hm] at h
      split at h
      · cases hs : runSubObjects c t subs with
        | none => rw [hs] at h; exact Option.noConfusion h
        | some q =>
          rw [hs] at h
          simp only [Option.some.injEq, Prod.mk.injEq] at h
          have := runSubObjects_parsed c subs t q.1 q.2 hp (by rw [hs])
          rw [← h.1, this]
      · exact Option.noConfusion h
/-- Once the polyfill is parsed, a returning loop over subobjects leaves the instance as
it was. -/
theorem runSubObjects_parsed {Stmt : Type} (c : Collaborators Stmt) :
    ∀ (l : List (ObjectNode Stmt)) (t t2 : EVMToEWasmTranslator Stmt)
      (rs : List (ObjectNode Stmt)),
      t.m_polyfill.isSome = true → runSubObjects c t l = some (t2, rs) → t2 = t
  | [], t, t2, rs, _, h => by
    simp only [runSubObjects, Option.some.injEq, Prod.mk.injEq] at h
    exact h.1.symm
  | node :: rest, t, t2, rs, hp, h => by
    simp only [runSubObjects] at h
    cases h1 : run c t node with
    | none => rw [h1] at h; exact Option.noConfusion h
    | some q =>
      rw [h1] at h
      simp only at h
      have e1 := run_parsed c node t q.1 q.2 hp (by rw [h1])
      cases h2 : runSubObjects c q.1 rest with
      | none => rw [h2] at h; exact Option.noConfusion h
      | some q2 =>
        rw [h2] at h
        simp only [Option.some.injEq, Prod.mk.injEq] at h
        have e2 := runSubObjects_parsed c rest q.1 q2.1 q2.2 (by rw [e1]; exact hp)
          (by rw [h2])
        rw [← h.1, e2, e1]
end

theorem parsePolyfill_sets {Stmt : Type} (c : Collaborators Stmt)
    (t t1 : EVMToEWasmTranslator Stmt) (h : parsePolyfill c t = some t1) :
    c.parse = t1.m_polyfill ∧ t1.m_polyfill.isSome = true ∧
    t1.parserCalls = t.parserCalls + 1 ∧
    t1.m_polyfillFunctions = (t1.m_polyfill.getD []).map c.functionName := by
  unfold parsePolyfill at h
  cases hp : c.parse with
  | none => rw [hp] at h; exact Option.noConfusion h
  | some p =>
    rw [hp] at h
    simp only [Option.some.injEq] at h
    subst h
    exact ⟨rfl, rfl, rfl, rfl⟩

/-- What a returning `run` on an `Object` has done, step by step. -/
theorem run_object {Stmt : Type} (c : Collaborators Stmt)
    (t t2 : EVMToEWasmTranslator Stmt) (name : String) (code : List Stmt)
    (subs : List (ObjectNode Stmt)) (idx : List (String × Nat)) (r : ObjectNode Stmt)
    (h : run c t (ObjectNode.Object name code subs idx) = some (t2, r)) :
    ∃ polyfill subs2,
      (if t.m_polyfill.isNone then parsePolyfill c t else some t) = some t2 ∧
      t2.m_polyfill = some polyfill ∧
      runSubObjects c t2 subs = some (t2, subs2) ∧
      r = ObjectNode.Object name
        (transformed c t2.m_polyfillFunctions code ++ polyfill.map c.copy) subs2 idx := by
  simp only [run] at h
  cases h1 : (if t.m_polyfill.isNone then parsePolyfill c t else some t) with
  | none => rw [h1] at h; exact Option.noConfusion h
  | some t1 =>
    rw [h1] at h
    simp only at h
    cases hm : t1.m_polyfill with
    | none => rw [hm] at h; exact Option.noConfusion h
    | some p =>
      rw [hm] at h
      simp only at h
      split at h
      · cases hs : runSubObjects c t1 subs with
        | none => rw [hs] at h; exact Option.noConfusion h
        | some q =>
          rw [hs] at h
          simp only [Option.some.injEq, Prod.mk.injEq] at h
          have e := runSubObjects_parsed c subs t1 q.1 q.2 (by rw [hm]; rfl) (by rw [hs])
          have e2 : t2 = t1 := by rw [← h.1, e]
          subst e2
          refine ⟨p, q.2, rfl, hm, ?_, h.2.symm⟩
          rw [hs]
          exact congrArg some (Prod.ext e rfl)
      · exact Option.noConfusion h

theorem run_calls {Stmt : Type} (c : Collaborators Stmt)
    (t t2 : EVMToEWasmTranslator Stmt) (o r : ObjectNode Stmt) (ho : o.isObject = true)
    (h : run c t o = some (t2, r)) :
    t2.parserCalls = t.parserCalls + (if t.m_polyfill.isNone then 1 else 0) ∧
    t2.m_polyfill.isSome = true := by
  cases o with
  | Data n d => exact absurd ho Bool.false_ne_true
  | Object name code subs idx =>
    obtain ⟨polyfill, subs2, h1, h2, _, _⟩ := run_object c t t2 name code subs idx r h
    refine ⟨?_, by rw [h2]; rfl⟩
    by_cases hn : t.m_polyfill.isNone = true
    · rw [if_pos hn] at h1
      rw [if_pos hn]
      exact (parsePolyfill_sets c t t2 h1).2.2.1
    · rw [if_neg hn] at h1
      rw [if_neg hn]
      simp only [Option.some.injEq] at h1
      rw [h1]
      rfl

end EVMToEWasmTranslator

/-- C24: when `run` returns on an object, the code block of the result is the statement
list of the passes up to the name displacer followed by a copy of every polyfill
statement in the polyfill's order, so the polyfill statements are the last ones and are
not passed to the name displacer; the polyfill is the parsed one, or the one the
instance already held. -/
theorem run_code_block {Stmt : Type} (c : Collaborators Stmt)
    (t t2 : EVMToEWasmTranslator Stmt) (name : String) (code : List Stmt)
    (subs : List (ObjectNode Stmt)) (idx : List (String × Nat)) (r : ObjectNode Stmt)
    (h : EVMToEWasmTranslator.run c t (ObjectNode.Object name code subs idx) = some (t2, r)) :
    ∃ polyfill subs2, t2.m_polyfill = some polyfill ∧
      r = ObjectNode.Object name
        (EVMToEWasmTranslator.transformed c t2.m_polyfillFunctions code ++
          polyfill.map c.copy) subs2 idx ∧
      (EVMToEWasmTranslator.transformed c t2.m_polyfillFunctions code ++
          polyfill.map c.copy).drop
        (EVMToEWasmTranslator.transformed c t2.m_polyfillFunctions code).length =
        polyfill.map c.copy ∧
      EVMToEWasmTranslator.transformed c t2.m_polyfillFunctions code =
        c.nameDisplacer t2.m_polyfillFunctions
          (c.wordSizeTransform (c.expressionSplitter (c.mainFunction (c.functionGrouper
            (c.functionHoister (c.disambiguate code)))))) ∧
      (t.m_polyfill = none →
        c.parse = some polyfill ∧ t2.m_polyfillFunctions = polyfill.map c.functionName) ∧
      (t.m_polyfill.isSome = true → t2 = t) := by
  obtain ⟨polyfill, subs2, h1, h2, _, h4⟩ :=
    EVMToEWasmTranslator.run_object c t t2 name code subs idx r h
  refine ⟨polyfill, subs2, h2, h4, List.drop_left _ _, rfl, ?_, ?_⟩
  · intro hn
    rw [hn] at h1
    have hs := EVMToEWasmTranslator.parsePolyfill_sets c t t2 h1
    rw [h2] at hs
    exact ⟨hs.1, hs.2.2.2⟩
  · intro hs
    exact EVMToEWasmTranslator.run_parsed c _ t t2 r hs h

theorem run_code_block_witness :
    EVMToEWasmTranslator.run demoCollaborators (EVMToEWasmTranslator.fresh Nat)
      (ObjectNode.Object "root" [1, 2]
        [ObjectNode.Data "blob" [0xde, 0xad], ObjectNode.Object "sub" [3] [] []]
        [("blob", 0), ("sub", 1)]) = some (demoParsed, demoResult) ∧
    ∃ polyfill subs2, demoParsed.m_polyfill = some polyfill ∧
      demoResult = ObjectNode.Object "root"
        (EVMToEWasmTranslator.transformed demoCollaborators demoParsed.m_polyfillFunctions
          [1, 2] ++ polyfill.map demoCollaborators.copy) subs2 [("blob", 0), ("sub", 1)] ∧
      (EVMToEWasmTranslator.transformed demoCollaborators demoParsed.m_polyfillFunctions
          [1, 2] ++ polyfill.map demoCollaborators.copy).drop
        (EVMToEWasmTranslator.transformed demoCollaborators demoParsed.m_polyfillFunctions
          [1, 2]).length = polyfill.map demoCollaborators.copy ∧
      EVMToEWasmTranslator.transformed demoCollaborators demoParsed.m_polyfillFunctions
          [1, 2] =
        demoCollaborators.nameDisplacer demoParsed.m_polyfillFunctions
          (demoCollaborators.wordSizeTransform (demoCollaborators.expressionSplitter
            (demoCollaborators.mainFunction (demoCollaborators.functionGrouper
              (demoCollaborators.functionHoister (demoCollaborators.disambiguate [1, 2])))))) ∧
      ((EVMToEWasmTranslator.fresh Nat).m_polyfill = none →
        demoCollaborators.parse = some polyfill ∧
        demoParsed.m_polyfillFunctions = polyfill.map demoCollaborators.functionName) ∧
      ((EVMToEWasmTranslator.fresh Nat).m_polyfill.isSome = true →
        demoParsed = EVMToEWasmTranslator.fresh Nat) :=
  ⟨rfl, run_code_block demoCollaborators (EVMToEWasmTranslator.fresh Nat) demoParsed
    "root" [1, 2] [ObjectNode.Data "blob" [0xde, 0xad], ObjectNode.Object "sub" [3] [] []]
    [("blob", 0), ("sub", 1)] demoResult rfl⟩

/-- C25: translating a non-empty list of objects with one fresh translator instance calls
the polyfill parser exactly once: a returning `run` on an object calls it exactly when
`m_polyfill` is unset and leaves `m_polyfill` set, and a returning `parsePolyfill` sets
`m_polyfill`. -/
theorem polyfill_parsed_once {Stmt : Type} (c : Collaborators Stmt)
    (objs rs : List (ObjectNode Stmt)) (t2 : EVMToEWasmTranslator Stmt)
    (hne : objs ≠ []) (hobj : ∀ o, o ∈ objs → o.isObject = true)
    (h : EVMToEWasmTranslator.runSubObjects c (EVMToEWasmTranslator.fresh Stmt) objs =
      some (t2, rs)) :
    t2.parserCalls = 1 ∧ t2.m_polyfill.isSome = true ∧
    (∀ (t t3 : EVMToEWasmTranslator Stmt) (o r : ObjectNode Stmt), o.isObject = true →
      EVMToEWasmTranslator.run c t o = some (t3, r) →
      t3.parserCalls = t.parserCalls + (if t.m_polyfill.isNone then 1 else 0) ∧
      t3.m_polyfill.isSome = true) ∧
    (∀ t t1 : EVMToEWasmTranslator Stmt, EVMToEWasmTranslator.parsePolyfill c t = some t1 →
      t1.m_polyfill.isSome = true ∧ t1.parserCalls = t.parserCalls + 1) := by
  have hrun : ∀ (t t3 : EVMToEWasmTranslator Stmt) (o r : ObjectNode Stmt),
      o.isObject = true → EVMToEWasmTranslator.run c t o = some (t3, r) →
      t3.parserCalls = t.parserCalls + (if t.m_polyfill.isNone then 1 else 0) ∧
      t3.m_polyfill.isSome = true :=
    fun t t3 o r ho hr => EVMToEWasmTranslator.run_calls c t t3 o r ho hr
  have hparse : ∀ t t1 : EVMToEWasmTranslator Stmt,
      EVMToEWasmTranslator.parsePolyfill c t = some t1 →
      t1.m_polyfill.isSome = true ∧ t1.parserCalls = t.parserCalls + 1 :=
    fun t t1 hp => ⟨(EVMToEWasmTranslator.parsePolyfill_sets c t t1 hp).2.1,
      (EVMToEWasmTranslator.parsePolyfill_sets c t t1 hp).2.2.1⟩
  cases objs with
  | nil => exact absurd rfl hne
  | cons o rest =>
    simp only [EVMToEWasmTranslator.runSubObjects] at h
    cases h1 : EVMToEWasmTranslator.run c (EVMToEWasmTranslator.fresh Stmt) o with
    | none => rw [h1] at h; exact Option.noConfusion h
    | some q =>
      rw [h1] at h
      simp only at h
      have hq := hrun _ q.1 o q.2 (hobj o (List.mem_cons_self _ _)) (by rw [h1])
      cases h2 : EVMToEWasmTranslator.runSubObjects c q.1 rest with
      | none => rw [h2] at h; exact Option.noConfusion h
      | some q2 =>
        rw [h2] at h
        simp only [Option.some.injEq, Prod.mk.injEq] at h
        have e := EVMToEWasmTranslator.runSubObjects_parsed c rest q.1 q2.1 q2.2 hq.2
          (by rw [h2])
        have e2 : t2 = q.1 := by rw [← h.1, e]
        rw [e2]
        exact ⟨hq.1, hq.2, hrun, hparse⟩

theorem polyfill_parsed_once_witness :
    [demoObject, demoObject] ≠ [] ∧
    (∀ o, o ∈ [demoObject, demoObject] → o.isObject = true) ∧
    EVMToEWasmTranslator.runSubObjects demoCollaborators (EVMToEWasmTranslator.fresh Nat)
      [demoObject, demoObject] = some (demoParsed, [demoResult, demoResult]) ∧
    demoParsed.parserCalls = 1 ∧ demoParsed.m_polyfill.isSome = true ∧
    (∀ (t t3 : EVMToEWasmTranslator Nat) (o r : ObjectNode Nat), o.isObject = true →
      EVMToEWasmTranslator.run demoCollaborators t o = some (t3, r) →
      t3.parserCalls = t.parserCalls + (if t.m_polyfill.isNone then 1 else 0) ∧
      t3.m_polyfill.isSome = true) ∧
    (∀ t t1 : EVMToEWasmTranslator Nat,
      EVMToEWasmTranslator.parsePolyfill demoCollaborators t = some t1 →
      t1.m_polyfill.isSome = true ∧ t1.parserCalls = t.parserCalls + 1) :=
  have hobj : ∀ o, o ∈ [demoObject, demoObject] → o.isObject = true := by
    intro o ho
    simp only [List.mem_cons, List.mem_singleton, List.not_mem_nil, or_false, or_self] at ho
    rw [ho]
    rfl
  ⟨by simp, hobj, rfl,
    polyfill_parsed_once demoCollaborators [demoObject, demoObject] [demoResult, demoResult]
      demoParsed (by simp) hobj rfl⟩

/-! ## The claims on the polyfill table, call data, and the wide arithmetic -/

namespace Polyfill

/-- C26: the polyfill text defines no function `gt`, and its `addmod` and `mulmod` have
eight parameters, not twelve; the other thirteen names are defined with four parameters
for each 256-bit operand. -/
theorem polyfill_closure_gaps :
    polyfillArity "gt" = none ∧
    polyfillArity "addmod" = some 8 ∧ polyfillArity "mulmod" = some 8 ∧
    polyfillArity "add" = some 8 ∧ polyfillArity "sub" = some 8 ∧
    polyfillArity "mul" = some 8 ∧ polyfillArity "div" = some 8 ∧
    polyfillArity "mod" = some 8 ∧ polyfillArity "exp" = some 8 ∧
    polyfillArity "smod" = some 8 ∧ polyfillArity "signextend" = some 8 ∧
    polyfillArity "lt" = some 8 ∧ polyfillArity "slt" = some 8 ∧
    polyfillArity "sgt" = some 8 ∧ polyfillArity "eq" = some 8 ∧
    polyfillArity "iszero" = some 4 ∧
    ("gt" ∈ polyfillSignatures.map fun s => s.1) = False := by
  repeat' apply And.intro
  all_goals decide

/-- C27: on the 32 call-data bytes `1, 2, .., 32`, `calldataload(0)` returns the call
data size `(0, 0, 0, 32)` and not the word of the bytes, and it has the host copy the
whole call data to the memory at `64 + p`, outside the scratch area. -/
theorem calldataload_returns_size :
    ∃ m2 : Mem,
      calldataload demoCallData ⟨65536, fun _ => 0⟩ 0 0 0 0 =
        Outcome.ok ((0, 0, 0, 32), m2) ∧
      m2.bytes 64 = 1 ∧ m2.bytes 95 = 32 ∧ m2.bytes 0 = 0 ∧
      limbs4 (beNat demoCallData) =
        (0x0102030405060708, 0x090a0b0c0d0e0f10, 0x1112131415161718, 0x191a1b1c1d1e1f20) :=
  ⟨_, rfl, by decide, by decide, by decide, by decide⟩

/-- C28: for `x = y = 2^256 - 1`, `mul_256x256_512` returns limb 2 one too small: the
limbs are not those of the product `(2^256 - 1)^2`. -/
theorem mul_256x256_512_max :
    mul_256x256_512 0xffffffffffffffff 0xffffffffffffffff 0xffffffffffffffff
        0xffffffffffffffff 0xffffffffffffffff 0xffffffffffffffff 0xffffffffffffffff
        0xffffffffffffffff =
      (0xffffffffffffffff, 0xfffffffffffffffe, 0xffffffffffffffff, 0xfffffffffffffffe,
        0, 0, 0, 1) ∧
    val8 (0xffffffffffffffff, 0xffffffffffffffff, 0xffffffffffffffff, 0xfffffffffffffffe,
        0, 0, 0, 1) = (2 ^ 256 - 1) * (2 ^ 256 - 1) ∧
    val8 (mul_256x256_512 0xffffffffffffffff 0xffffffffffffffff 0xffffffffffffffff
        0xffffffffffffffff 0xffffffffffffffff 0xffffffffffffffff 0xffffffffffffffff
        0xffffffffffffffff) ≠ (2 ^ 256 - 1) * (2 ^ 256 - 1) := by
  have e : mul_256x256_512 0xffffffffffffffff 0xffffffffffffffff 0xffffffffffffffff
      0xffffffffffffffff 0xffffffffffffffff 0xffffffffffffffff 0xffffffffffffffff
      0xffffffffffffffff =
      (0xffffffffffffffff, 0xfffffffffffffffe, 0xffffffffffffffff, 0xfffffffffffffffe,
        0, 0, 0, 1) := rfl
  refine ⟨e, by decide, ?_⟩
  rw [e]
  decide

theorem smod_loop1_cycle (n : Nat) :
    ∀ m : Limbs4, smod_loop1 n (0, 0, 0, 0) (0, 0, 0, 0) m = Outcome.outOfFuel ∧
      smod_loop1 n (0, 0, 0, 0) (0, 0, 1, 1) m = Outcome.outOfFuel := by
  induction n with
  | zero =>
    intro m
    exact ⟨rfl, rfl⟩
  | succ k ih =>
    intro m
    obtain ⟨m1, m2, m3, m4⟩ := m
    constructor
    · have e : smod_loop1 (k + 1) (0, 0, 0, 0) (0, 0, 0, 0) (m1, m2, m3, m4) =
          smod_loop1 k (0, 0, 0, 0) (0, 0, 1, 1) (shl m1 m2 m3 m4 0 0 0 1) := rfl
      rw [e]
      exact (ih _).2
    · have e : smod_loop1 (k + 1) (0, 0, 0, 0) (0, 0, 1, 1) (m1, m2, m3, m4) =
          smod_loop1 k (0, 0, 0, 0) (0, 0, 0, 0) (shl m1 m2 m3 m4 0 0 0 1) := rfl
      rw [e]
      exact (ih _).1

/-- C29: `smod(5, 3)` returns 0 and not 2, however much fuel above 20 the loops get, and
`smod(0, 3)` never returns: its first loop runs on with `y` alternating between two
values, whatever fuel it gets. -/
theorem smod_examples (n : Nat) :
    smod (n + 20) 0 0 0 5 0 0 0 3 = Outcome.ok (0, 0, 0, 0) ∧
    limbs4 (5 % 3) = (0, 0, 0, 2) ∧
    smod n 0 0 0 0 0 0 0 3 = Outcome.outOfFuel := by
  refine ⟨rfl, by decide, ?_⟩
  match n with
  | 0 => rfl
  | 1 => rfl
  | 2 => rfl
  | k + 3 =>
    have e : smod (k + 3) 0 0 0 0 0 0 0 3 =
        Outcome.andThen (smod_loop1 k (0, 0, 0, 0) (0, 0, 0, 0) (0, 0, 0, 16)) fun ym =>
          Outcome.andThen (smod_loop2 (k + 3) (0, 0, 0, 0) ym.1 ym.2) fun _ =>
          Outcome.ok (0, 0, 0, 0) := rfl
    rw [e, (smod_loop1_cycle k (0, 0, 0, 16)).1]
    rfl

/-- C30: `exp(2, 2)` returns 1 and not 4, and `exp(2, 3)` returns 2 and not 8: the loop of
`exp` passes the exponent to `shr` as the shift amount, so it runs once. -/
theorem exp_examples (n : Nat) :
    exp (n + 2) 0 0 0 2 0 0 0 2 = Outcome.ok (0, 0, 0, 1) ∧
    limbs4 (2 ^ 2 % 2 ^ 256) = (0, 0, 0, 4) ∧
    exp (n + 2) 0 0 0 2 0 0 0 3 = Outcome.ok (0, 0, 0, 2) ∧
    limbs4 (2 ^ 3 % 2 ^ 256) = (0, 0, 0, 8) ∧
    exp (n + 1) 0 0 0 2 0 0 0 0 = Outcome.ok (0, 0, 0, 1) :=
  ⟨rfl, by decide, rfl, by decide, rfl⟩

end Polyfill

/-! ## Single bytes, and the termination of `mod` -/

namespace Polyfill

/-- Masking with `0xff` keeps the low byte. -/
theorem and_ff_spec (r : Nat) : i64.and 0xff r = r % 256 := by
  unfold i64.and
  rw [Nat.land_comm]
  exact Nat.and_pow_two_sub_one_eq_mod r 8

/-- With an index below 32 in the low limb, `byte` picks the limb `x4 / 8` and shifts the
byte `x4 % 8` (counted from the top) down: the byte of the big-endian encoding. -/
theorem byte_small (x4 y1 y2 y3 y4 : Nat) (hy : wf4 (y1, y2, y3, y4)) (hx : x4 < 32) :
    byte 0 0 0 x4 y1 y2 y3 y4 = (0, 0, 0, be_byte (val4 (y1, y2, y3, y4)) x4) := by
  obtain ⟨h1, h2, h3, h4⟩ := hy
  simp only at h1 h2 h3 h4
  unfold byte
  rw [if_pos (by decide)]
  simp only [and_ff_spec, be_byte, val4]
  interval_cases x4 <;>
    simp only [i64.div_u, i64.rem_u, i64.mul, i64.sub, i64.shr_u] <;>
    norm_num <;> omega

/-- With an index of 32 or more in the low limb no `case` of the `switch` applies, and
`component` stays zero. -/
theorem byte_large (x4 y1 y2 y3 y4 : Nat) (hx : 32 ≤ x4) :
    byte 0 0 0 x4 y1 y2 y3 y4 = (0, 0, 0, 0) := by
  obtain ⟨k, hk⟩ : ∃ k, i64.div_u x4 8 = k + 4 := ⟨x4 / 8 - 4, by unfold i64.div_u; omega⟩
  unfold byte
  rw [if_pos (by decide)]
  simp only [hk, and_ff_spec, i64.shr_u, Nat.zero_div, Nat.zero_mod]

/-- With a non-zero upper limb of the index the `if` is skipped and `r4` stays zero. -/
theorem byte_high (x1 x2 x3 x4 y1 y2 y3 y4 : Nat)
    (h : ¬ (x1 = 0 ∧ x2 = 0 ∧ x3 = 0)) :
    byte x1 x2 x3 x4 y1 y2 y3 y4 = (0, 0, 0, 0) := by
  unfold byte
  have h0 : i64.or (i64.or x1 x2) x3 ≠ 0 := by
    intro e
    unfold i64.or at e
    rw [or_eq_zero_iff, or_eq_zero_iff] at e
    exact h ⟨e.1.1, e.1.2, e.2⟩
  rw [if_neg]
  simp only [i64.eqz, if_neg h0, ne_eq, not_true_eq_false, not_false_eq_true]

/-- C31: for 64-bit limbs, `byte(i, v)` returns `(0, 0, 0, b)` with `b` the byte at index `i`
of the 32-byte big-endian encoding of `v` when `i < 32`, and `(0, 0, 0, 0)` when `i >= 32`.
The function is total: it has no trap and no loop. -/
theorem byte_correct (x1 x2 x3 x4 y1 y2 y3 y4 : Nat)
    (hx : wf4 (x1, x2, x3, x4)) (hy : wf4 (y1, y2, y3, y4)) :
    byte x1 x2 x3 x4 y1 y2 y3 y4 =
      (0, 0, 0, if val4 (x1, x2, x3, x4) < 32 then
        be_byte (val4 (y1, y2, y3, y4)) (val4 (x1, x2, x3, x4)) else 0) := by
  by_cases h : x1 = 0 ∧ x2 = 0 ∧ x3 = 0
  · obtain ⟨rfl, rfl, rfl⟩ := h
    have hv : val4 (0, 0, 0, x4) = x4 := by simp [val4]
    rw [hv]
    by_cases h4 : x4 < 32
    · rw [if_pos h4, byte_small x4 y1 y2 y3 y4 hy h4]
    · rw [if_neg h4, byte_large x4 y1 y2 y3 y4 (by omega)]
  · have hv : ¬ val4 (x1, x2, x3, x4) < 32 := by
      simp only [val4]
      omega
    rw [if_neg hv, byte_high x1 x2 x3 x4 y1 y2 y3 y4 h]

theorem byte_correct_witness :
    wf4 (0, 0, 0, 9) ∧ wf4 (0x0102030405060708, 0x090a0b0c0d0e0f10, 0x1112131415161718, 0x191a1b1c1d1e1f20) ∧
    byte 0 0 0 9 0x0102030405060708 0x090a0b0c0d0e0f10 0x1112131415161718 0x191a1b1c1d1e1f20 =
      (0, 0, 0, if val4 (0, 0, 0, 9) < 32 then
        be_byte (val4 (0x0102030405060708, 0x090a0b0c0d0e0f10, 0x1112131415161718, 0x191a1b1c1d1e1f20)) (val4 (0, 0, 0, 9)) else 0) ∧
    byte 0 0 0 9 0x0102030405060708 0x090a0b0c0d0e0f10 0x1112131415161718 0x191a1b1c1d1e1f20 = (0, 0, 0, 0x0a) ∧
    byte 0 0 0 32 0x0102030405060708 0x090a0b0c0d0e0f10 0x1112131415161718 0x191a1b1c1d1e1f20 = (0, 0, 0, 0) ∧
    byte 1 0 0 0 0x0102030405060708 0x090a0b0c0d0e0f10 0x1112131415161718 0x191a1b1c1d1e1f20 = (0, 0, 0, 0) :=
  ⟨by decide, by decide,
    byte_correct 0 0 0 9 0x0102030405060708 0x090a0b0c0d0e0f10 0x1112131415161718 0x191a1b1c1d1e1f20 (by decide) (by decide),
    by decide, by decide, by decide⟩

/-- The byte swap moves a value below 256 to the top byte. -/
theorem endian_swap_small (v : Nat) (hv : v < 256) : endian_swap v = v * 2 ^ 56 := by
  rw [endian_swap_bytes]
  norm_num
  omega

/-- What `mstore8` writes for a byte value, on a memory that holds the eight bytes from
`64 + p` on: an eight-byte store of `v * 2 ^ 56`, so the seven bytes from `64 + p` on
become zero and `v` lands at `64 + p + 7`. -/
theorem mstore8_spec (m : Mem) (p v : Nat) (hp : 64 + p + 8 ≤ m.limit) (hv : v < 256) :
    mstore8 m 0 0 0 p 0 0 0 v =
      Outcome.ok ⟨m.size, fun b => if 64 + p ≤ b ∧ b < 64 + p + 7 then 0
        else if b = 64 + p + 7 then v else m.bytes b⟩ := by
  obtain ⟨sz, bs⟩ := m
  have hp2 : 64 + p + 8 ≤ min sz (2 ^ 32) := hp
  have hvp : val4 (0, 0, 0, p) = p := by simp [val4]
  have hvv : val4 (0, 0, 0, v) = v := by simp [val4]
  have hwp : wf4 (0, 0, 0, p) := by unfold wf4; simp; omega
  have hwv : wf4 (0, 0, 0, v) := by unfold wf4; simp; omega
  have ha : i64.add p 64 = 64 + p := by
    unfold i64.add
    omega
  unfold mstore8 u256_to_i32ptr
  rw [u256_to_i32_spec 0 0 0 p hwp, hvp, if_pos (by omega), Outcome.andThen]
  rw [u256_to_byte_spec 0 0 0 v hwv, hvv, if_pos (by omega), Outcome.andThen]
  rw [endian_swap_small v hv, ha, store_ok sz bs (64 + p) _ hp2]
  congr 2
  funext b
  unfold put64
  by_cases h : 64 + p ≤ b ∧ b < 64 + p + 8
  · rw [if_pos h]
    obtain ⟨j, hj, rfl⟩ : ∃ j, j < 8 ∧ b = 64 + p + j := ⟨b - (64 + p), by omega, by omega⟩
    rw [Nat.add_sub_cancel_left]
    interval_cases j
    all_goals first
      | (rw [if_pos (by omega)]; norm_num; omega)
      | (rw [if_neg (by omega), if_pos rfl]; norm_num; omega)
  · rw [if_neg h, if_neg (by omega), if_neg (by omega)]

/-- C32: `mstore8(0, 1)` on a memory of one page filled with `0xaa` does not set the byte
at `64` to 1: the eight-byte store of `endian_swap(1)` zeroes the bytes `64 .. 70` and puts
the 1 at `71`; the bytes `63` and `72` keep their value. -/
theorem mstore8_clobbers :
    ∃ m2 : Mem,
      mstore8 ⟨65536, fun _ => 0xaa⟩ 0 0 0 0 0 0 0 1 = Outcome.ok m2 ∧
      m2.bytes 63 = 0xaa ∧ m2.bytes 64 = 0 ∧ m2.bytes 65 = 0 ∧ m2.bytes 70 = 0 ∧
      m2.bytes 71 = 1 ∧ m2.bytes 72 = 0xaa :=
  ⟨_, rfl, by decide, by decide, by decide, by decide, by decide, by decide⟩

/-- A 64-bit value with its top bit set has no leading zero. -/
theorem clz_top (a : Nat) (h1 : 2 ^ 63 ≤ a) (h2 : a < 2 ^ 64) : i64.clz a = 0 := by
  unfold i64.clz
  have ha : a ≠ 0 := by
    intro e
    rw [e] at h1
    exact absurd h1 (by decide)
  rw [if_neg ha]
  have h : Nat.log2 a = 63 := by
    rw [Nat.log2_eq_log_two]
    exact (Nat.log_eq_iff (Or.inl (by decide))).2 ⟨h1, h2⟩
  rw [h]

/-- The function `iszero` returns one exactly on four zero limbs. -/
theorem iszero_spec (a b c d : Nat) :
    iszero a b c d = if a = 0 ∧ b = 0 ∧ c = 0 ∧ d = 0 then 1 else 0 := by
  unfold iszero i64.eqz i64.or
  by_cases h : a = 0 ∧ b = 0 ∧ c = 0 ∧ d = 0
  · obtain ⟨rfl, rfl, rfl, rfl⟩ := h
    rfl
  · rw [if_neg h, if_neg]
    intro e
    rw [or_eq_zero_iff, or_eq_zero_iff, or_eq_zero_iff] at e
    exact h ⟨e.1.1, e.1.2, e.2.1, e.2.2⟩

/-- The limb-wise doubling of the first loop of `mod` keeps 64-bit limbs, and doubles the
value when the top bit is clear. -/
theorem double_spec (a b c d : Nat) (h : wf4 (a, b, c, d)) :
    wf4 (i64.add (i64.shl a 1) (i64.shr_u b 63), i64.add (i64.shl b 1) (i64.shr_u c 63),
      i64.add (i64.shl c 1) (i64.shr_u d 63), i64.shl d 1) ∧
    (a < 2 ^ 63 →
      val4 (i64.add (i64.shl a 1) (i64.shr_u b 63), i64.add (i64.shl b 1) (i64.shr_u c 63),
        i64.add (i64.shl c 1) (i64.shr_u d 63), i64.shl d 1) = 2 * val4 (a, b, c, d)) := by
  obtain ⟨h1, h2, h3, h4⟩ := h
  simp only at h1 h2 h3 h4
  simp only [wf4, val4, i64.add, i64.shl, i64.shr_u]
  norm_num
  refine ⟨⟨?_, ?_, ?_, ?_⟩, ?_⟩ <;> omega

/-- The limb-wise shift of the second loop of `mod` moves bits from limb 4 towards limb 1:
it halves the value read with limb 4 most significant. -/
theorem halve_spec (a b c d : Nat) (h : wf4 (a, b, c, d)) :
    wf4 (i64.add (i64.shr_u a 1) (i64.shl b 63), i64.add (i64.shr_u b 1) (i64.shl c 63),
      i64.add (i64.shr_u c 1) (i64.shl d 63), i64.shr_u d 1) ∧
    val4 (i64.shr_u d 1, i64.add (i64.shr_u c 1) (i64.shl d 63),
      i64.add (i64.shr_u b 1) (i64.shl c 63), i64.add (i64.shr_u a 1) (i64.shl b 63)) =
      val4 (d, c, b, a) / 2 := by
  obtain ⟨h1, h2, h3, h4⟩ := h
  simp only at h1 h2 h3 h4
  simp only [wf4, val4, i64.add, i64.shl, i64.shr_u]
  norm_num
  refine ⟨⟨?_, ?_, ?_, ?_⟩, ?_⟩ <;> omega

/-- The first loop of `mod` ends within `k` rounds once `k` doublings bring bit 255 of `y`
up; the mask it returns has 64-bit limbs. -/
theorem mod_loop1_ok (k : Nat) :
    ∀ (fuel : Nat) (x y m : Limbs4), k < fuel → wf4 y → wf4 m →
      2 ^ 255 ≤ val4 y * 2 ^ k →
      ∃ ym, mod_loop1 fuel x y m = Outcome.ok ym ∧ wf4 ym.2 := by
  induction k with
  | zero =>
    intro fuel x y m hf hy hm hk
    obtain ⟨f, rfl⟩ : ∃ f, fuel = f + 1 := ⟨fuel - 1, by omega⟩
    obtain ⟨x1, x2, x3, x4⟩ := x
    obtain ⟨y1, y2, y3, y4⟩ := y
    obtain ⟨m1, m2, m3, m4⟩ := m
    have hy1 : 2 ^ 63 ≤ y1 := by
      obtain ⟨h1, h2, h3, h4⟩ := hy
      simp only [val4] at *
      omega
    have hc : i64.or (i64.eqz (i64.clz y1)) (gte_256x256_64 y1 y2 y3 y4 x1 x2 x3 x4) ≠ 0 := by
      rw [clz_top y1 hy1 hy.1]
      intro e
      unfold i64.or at e
      rw [or_eq_zero_iff] at e
      exact absurd e.1 (by decide)
    rw [mod_loop1, if_pos hc]
    exact ⟨_, rfl, hm⟩
  | succ k ih =>
    intro fuel x y m hf hy hm hk
    obtain ⟨f, rfl⟩ : ∃ f, fuel = f + 1 := ⟨fuel - 1, by omega⟩
    obtain ⟨x1, x2, x3, x4⟩ := x
    obtain ⟨y1, y2, y3, y4⟩ := y
    obtain ⟨m1, m2, m3, m4⟩ := m
    rw [mod_loop1]
    by_cases hc : i64.or (i64.eqz (i64.clz y1)) (gte_256x256_64 y1 y2 y3 y4 x1 x2 x3 x4) ≠ 0
    · rw [if_pos hc]
      exact ⟨_, rfl, hm⟩
    · rw [if_neg hc]
      have hy1 : y1 < 2 ^ 63 := by
        by_contra hge
        apply hc
        rw [clz_top y1 (by omega) hy.1]
        intro e
        unfold i64.or at e
        rw [or_eq_zero_iff] at e
        exact absurd e.1 (by decide)
      obtain ⟨hwy, hvy⟩ := double_spec y1 y2 y3 y4 hy
      obtain ⟨hwm, _⟩ := double_spec m1 m2 m3 m4 hm
      refine ih f (x1, x2, x3, x4) _ _ (by omega) hwy hwm ?_
      rw [hvy hy1]
      have e : 2 ^ (k + 1) = 2 * 2 ^ k := by ring
      rw [e] at hk
      calc 2 ^ 255 ≤ val4 (y1, y2, y3, y4) * (2 * 2 ^ k) := hk
        _ = 2 * val4 (y1, y2, y3, y4) * 2 ^ k := by ring

/-- The second loop of `mod` ends within `k` rounds when the mask, read with limb 4 most
significant, is below `2 ^ k`. -/
theorem mod_loop2_ok (k : Nat) :
    ∀ (fuel : Nat) (x y m : Limbs4), k < fuel → wf4 m →
      val4 (m.2.2.2, m.2.2.1, m.2.1, m.1) < 2 ^ k →
      ∃ r, mod_loop2 fuel x y m = Outcome.ok r := by
  induction k with
  | zero =>
    intro fuel x y m hf hm hk
    obtain ⟨f, rfl⟩ : ∃ f, fuel = f + 1 := ⟨fuel - 1, by omega⟩
    obtain ⟨x1, x2, x3, x4⟩ := x
    obtain ⟨y1, y2, y3, y4⟩ := y
    obtain ⟨m1, m2, m3, m4⟩ := m
    have hz : m1 = 0 ∧ m2 = 0 ∧ m3 = 0 ∧ m4 = 0 := by
      simp only [val4] at hk
      omega
    obtain ⟨rfl, rfl, rfl, rfl⟩ := hz
    exact ⟨_, rfl⟩
  | succ k ih =>
    intro fuel x y m hf hm hk
    obtain ⟨f, rfl⟩ : ∃ f, fuel = f + 1 := ⟨fuel - 1, by omega⟩
    obtain ⟨x1, x2, x3, x4⟩ := x
    obtain ⟨y1, y2, y3, y4⟩ := y
    obtain ⟨m1, m2, m3, m4⟩ := m
    rw [mod_loop2]
    by_cases hc : i64.xor (iszero m1 m2 m3 m4) 1 ≠ 0
    · rw [if_pos hc]
      obtain ⟨hwm, hvm⟩ := halve_spec m1 m2 m3 m4 hm
      refine ih f _ _ _ (by omega) hwm ?_
      simp only at hk ⊢
      rw [hvm]
      have e : 2 ^ (k + 1) = 2 * 2 ^ k := by ring
      omega
    · rw [if_neg hc]
      exact ⟨_, rfl⟩

/-- With a non-zero divisor `mod` returns, on 257 units of fuel or more. -/
theorem mod_ok (fuel x1 x2 x3 x4 y1 y2 y3 y4 : Nat) (hf : 257 ≤ fuel)
    (hy : wf4 (y1, y2, y3, y4)) (hy0 : val4 (y1, y2, y3, y4) ≠ 0) :
    mod fuel x1 x2 x3 x4 y1 y2 y3 y4 = Outcome.ok (0, 0, 0, 0) := by
  have hz : iszero y1 y2 y3 y4 = 0 := by
    rw [iszero_spec, if_neg]
    rintro ⟨rfl, rfl, rfl, rfl⟩
    exact hy0 rfl
  have hk : 2 ^ 255 ≤ val4 (y1, y2, y3, y4) * 2 ^ 255 :=
    Nat.le_mul_of_pos_left _ (Nat.pos_of_ne_zero hy0)
  obtain ⟨ym, h1, hwm⟩ :=
    mod_loop1_ok 255 fuel (x1, x2, x3, x4) (y1, y2, y3, y4) (0, 0, 0, 1) (by omega) hy
      (by decide) hk
  obtain ⟨r, h2⟩ :=
    mod_loop2_ok 256 fuel (x1, x2, x3, x4) ym.1 ym.2 (by omega) hwm
      (val4_lt _ ⟨hwm.2.2.2, hwm.2.2.1, hwm.2.1, hwm.1⟩)
  unfold mod
  rw [hz, if_neg (by decide), h1, Outcome.andThen, Outcome.andThen, h2]
  rfl

/-- The bound of 256 rounds is attained: for `mod(2 ^ 63, 1)` the first loop ends after 63
rounds with the mask `2 ^ 63`, and the second loop needs 256 rounds, not fewer. -/
theorem mod_loop2_bound_attained :
    mod_loop1 64 (0, 0, 0, 0x8000000000000000) (0, 0, 0, 1) (0, 0, 0, 1) =
      Outcome.ok ((0, 0, 0, 0x8000000000000000), (0, 0, 0, 0x8000000000000000)) ∧
    mod_loop2 256 (0, 0, 0, 0x8000000000000000) (0, 0, 0, 0x8000000000000000)
        (0, 0, 0, 0x8000000000000000) = Outcome.outOfFuel ∧
    mod_loop2 257 (0, 0, 0, 0x8000000000000000) (0, 0, 0, 0x8000000000000000)
        (0, 0, 0, 0x8000000000000000) = Outcome.ok (0, 0, 0, 0) :=
  ⟨rfl, rfl, rfl⟩

/-- C33: for a non-zero divisor of 64-bit limbs the evaluation of `mod(x, y)` ends. A loop
function given `n + 1` units of fuel returns a result exactly when its body runs at most
`n` times: the first loop returns on 256 units (at most 255 rounds), the second loop, from
what the first one leaves, on 257 units (at most 256 rounds), and `mod` returns on every
fuel from 257 on. -/
theorem mod_terminates (x1 x2 x3 x4 y1 y2 y3 y4 : Nat)
    (hx : wf4 (x1, x2, x3, x4)) (hy : wf4 (y1, y2, y3, y4))
    (hy0 : val4 (y1, y2, y3, y4) ≠ 0) :
    (∃ ym, mod_loop1 256 (x1, x2, x3, x4) (y1, y2, y3, y4) (0, 0, 0, 1) = Outcome.ok ym ∧
      ∃ r, mod_loop2 257 (x1, x2, x3, x4) ym.1 ym.2 = Outcome.ok r) ∧
    ∀ fuel, 257 ≤ fuel → mod fuel x1 x2 x3 x4 y1 y2 y3 y4 = Outcome.ok (0, 0, 0, 0) := by
  have hk : 2 ^ 255 ≤ val4 (y1, y2, y3, y4) * 2 ^ 255 :=
    Nat.le_mul_of_pos_left _ (Nat.pos_of_ne_zero hy0)
  obtain ⟨ym, h1, hwm⟩ :=
    mod_loop1_ok 255 256 (x1, x2, x3, x4) (y1, y2, y3, y4) (0, 0, 0, 1) (by omega) hy
      (by decide) hk
  refine ⟨⟨ym, h1, ?_⟩, fun fuel hf => mod_ok fuel x1 x2 x3 x4 y1 y2 y3 y4 hf hy hy0⟩
  exact mod_loop2_ok 256 257 (x1, x2, x3, x4) ym.1 ym.2 (by omega) hwm
    (val4_lt _ ⟨hwm.2.2.2, hwm.2.2.1, hwm.2.1, hwm.1⟩)

theorem mod_terminates_witness :
    wf4 (0, 0, 0, 5) ∧ wf4 (0, 0, 0, 3) ∧ val4 (0, 0, 0, 3) ≠ 0 ∧
    ((∃ ym, mod_loop1 256 (0, 0, 0, 5) (0, 0, 0, 3) (0, 0, 0, 1) = Outcome.ok ym ∧
      ∃ r, mod_loop2 257 (0, 0, 0, 5) ym.1 ym.2 = Outcome.ok r) ∧
    ∀ fuel, 257 ≤ fuel → mod fuel 0 0 0 5 0 0 0 3 = Outcome.ok (0, 0, 0, 0)) :=
  ⟨by decide, by decide, by decide,
    mod_terminates 0 0 0 5 0 0 0 3 (by decide) (by decide) (by decide)⟩

end Polyfill
